import Mathlib

/-!
# Tubes: a verification development

Shallow embedding of the game logic of `tubes` (`tube.c`, `log.c`,
`gameinfo.c`, `input.c`) and proofs of properties of that logic.

Conventions of the embedding

* C `int` values are `Int`; array lengths and loop counters that the code
  keeps non-negative are `Nat`.
* An array is a `List`; the field that stores its length (`num_slots`,
  `num_tubes`, `capacity`) is the length of the list.
* A function whose C text can read or write outside an array returns an
  `Option`; `none` stands for such an access (the C behaviour is undefined).
* A loop that counts an `int i` down to `-1` is a recursion over `i + 1`.
-/

namespace Tubes

/-! ## util.h -/

/-- The macro `EMPTY_COLOR_INDEX`. -/
def EMPTY_COLOR_INDEX : Int := -1

/-- The enumerator `TUBE_FAILURE`. -/
def TUBE_FAILURE : Int := -1

/-- The enumerator `TUBE_SUCCESS`. -/
def TUBE_SUCCESS : Int := 0

/-! ## tube.h / tube.c -/

/-- The struct `ColorChunk`. -/
structure ColorChunk where
  color : Int
  count : Int
deriving DecidableEq, Repr

/-- The struct `Tube`: the list holds `slots[i].color` for
`i = 0 .. num_slots - 1`, index 0 being the closed end; `num_slots` is the
length of the list.  The flag `is_hidden` is only read by the board printer
and is left out. -/
abbrev Tube := List Int

/-- The read `tube->slots[i].color` for an index inside the array. -/
def slot_color (tube : Tube) (i : Nat) : Int := tube.getD i EMPTY_COLOR_INDEX

/-- Loop of `Tube_is_empty`: `for (i = num_slots - 1; i >= 0; --i)`; the
argument is `i + 1`. -/
def Tube_is_empty_loop (tube : Tube) : Nat → Bool
  | 0 => true
  | i + 1 =>
    if slot_color tube i ≠ EMPTY_COLOR_INDEX then false
    else Tube_is_empty_loop tube i

/-- The function `Tube_is_empty`. -/
def Tube_is_empty (tube : Tube) : Bool := Tube_is_empty_loop tube tube.length

/-- The function `Tube_is_full`: `for (i = 0; i < num_slots; ++i)`, as a
recursion over the slots from index 0. -/
def Tube_is_full : Tube → Bool
  | [] => true
  | c :: rest => if c = EMPTY_COLOR_INDEX then false else Tube_is_full rest

/-- The function `Tube_create` (with `Tube_clear`): every slot empty. -/
def Tube_create (num_slots : Nat) : Tube := List.replicate num_slots EMPTY_COLOR_INDEX

/-- Loop of `Tube_add_color`: writes `color` into the first slot that holds
`EMPTY_COLOR_INDEX`; `none` when the loop runs to its end. -/
def Tube_add_color_loop (color : Int) : Tube → Option Tube
  | [] => none
  | c :: rest =>
    if c = EMPTY_COLOR_INDEX then some (color :: rest)
    else (Tube_add_color_loop color rest).map (fun r => c :: r)

/-- The function `Tube_add_color`: the return code and the tube afterwards. -/
def Tube_add_color (tube : Tube) (color : Int) : Int × Tube :=
  if Tube_is_full tube then (TUBE_FAILURE, tube)
  else
    match Tube_add_color_loop color tube with
    | some t => (TUBE_SUCCESS, t)
    | none => (TUBE_FAILURE, tube)

/-- The scan `for (; i >= 0; --i) if (slots[i].color != EMPTY_COLOR_INDEX) break;`
that opens `Tube_get_top_chunk`, `Tube_push_chunk_aux` and
`Tube_pop_chunk_aux`.  Argument and result are `i + 1`, so the result 0 is
`i = -1`. -/
def scan_top (tube : Tube) : Nat → Nat
  | 0 => 0
  | i + 1 =>
    if slot_color tube i ≠ EMPTY_COLOR_INDEX then i + 1 else scan_top tube i

/-- The colour the scan leaves in `color`: `slots[i].color` when it stopped at
`i >= 0`, else the initial `EMPTY_COLOR_INDEX`.  The argument is `i + 1`. -/
def color_at_top (tube : Tube) (i : Nat) : Int :=
  match i with
  | 0 => EMPTY_COLOR_INDEX
  | j + 1 => slot_color tube j

/-- Second loop of `Tube_get_top_chunk`:
`for (; i >= 0; --i) { if (slots[i].color != color) break; ++count; }`;
the argument is `i + 1`, the result is `count`. -/
def count_run (tube : Tube) (color : Int) : Nat → Nat
  | 0 => 0
  | i + 1 =>
    if slot_color tube i ≠ color then 0 else count_run tube color i + 1

/-- The function `Tube_get_top_chunk`. -/
def Tube_get_top_chunk (tube : Tube) : ColorChunk :=
  let i := scan_top tube tube.length
  let color := color_at_top tube i
  { color := color, count := (count_run tube color i : Nat) }

/-- Write loop of `Tube_push_chunk_aux`:
`for (j = 0; j < count; ++i, ++j) slots[i].color = color;`.  The first
argument is the number of iterations left; `none` when `i` leaves the
array. -/
def write_run (color : Int) : Nat → Nat → Tube → Option Tube
  | 0, _, tube => some tube
  | n + 1, i, tube =>
    if i < tube.length then write_run color n (i + 1) (tube.set i color)
    else none

/-- The function `Tube_push_chunk_aux`: the return code and the tube
afterwards.  The scan passes `num_slots - (i + 1)` slots, which is the value
of `count`. -/
def Tube_push_chunk_aux (tube : Tube) (chunk : ColorChunk) (check : Bool) :
    Option (Int × Tube) :=
  let i := scan_top tube tube.length
  let count : Int := ((tube.length - i : Nat) : Int)
  let color := if check then color_at_top tube i else EMPTY_COLOR_INDEX
  if check ∧ color ≠ EMPTY_COLOR_INDEX ∧ chunk.color ≠ color then
    some (TUBE_FAILURE, tube)
  else if check ∧ chunk.count > count then
    some (TUBE_FAILURE, tube)
  else
    (write_run chunk.color chunk.count.toNat i tube).map
      (fun t => (TUBE_SUCCESS, t))

/-- Loop of `Tube_pop_chunk_aux` for `p_chunk != NULL`:
`for (j = 0; j < count; --i, ++j) { if (slots[i].color != color) break;
slots[i].color = EMPTY_COLOR_INDEX; }`.  The first argument is the number
of iterations left, the second is `i + 1`; `none` when `slots[-1]` is
read. -/
def remove_run (color : Int) : Nat → Nat → Tube → Option Tube
  | 0, _, tube => some tube
  | _ + 1, 0, _ => none
  | n + 1, i + 1, tube =>
    if slot_color tube i ≠ color then some tube
    else remove_run color n i (tube.set i EMPTY_COLOR_INDEX)

/-- Loop of `Tube_pop_chunk_aux` for `p_chunk == NULL`:
`for (; i >= 0; --i) { if (slots[i].color != color) break;
slots[i].color = EMPTY_COLOR_INDEX; }`; the first argument is `i + 1`. -/
def clear_run (color : Int) : Nat → Tube → Tube
  | 0, tube => tube
  | i + 1, tube =>
    if slot_color tube i ≠ color then tube
    else clear_run color i (tube.set i EMPTY_COLOR_INDEX)

/-- The function `Tube_pop_chunk_aux`; `p_chunk = none` is the `NULL`
pointer. -/
def Tube_pop_chunk_aux (tube : Tube) (p_chunk : Option ColorChunk) : Option Tube :=
  let i := scan_top tube tube.length
  let color := color_at_top tube i
  match p_chunk with
  | some chunk => remove_run chunk.color chunk.count.toNat i tube
  | none => some (clear_run color i tube)

/-- The function `Tube_push_chunk`. -/
def Tube_push_chunk (tube : Tube) (chunk : ColorChunk) : Option (Int × Tube) :=
  Tube_push_chunk_aux tube chunk true

/-- The function `Tube_pop_chunk`. -/
def Tube_pop_chunk (tube : Tube) : Option Tube := Tube_pop_chunk_aux tube none

/-- What a call of `Tube_pour` leaves behind: the return code, both tubes,
and the chunk written through `p_chunk` (`none`: nothing was written). -/
structure PourResult where
  ret : Int
  src : Tube
  dst : Tube
  chunk : Option ColorChunk
deriving DecidableEq, Repr

/-- The function `Tube_pour` for two different tube objects, called with
`p_chunk != NULL`. -/
def Tube_pour (tube_src tube_dst : Tube) : Option PourResult :=
  if Tube_is_empty tube_src ∨ Tube_is_full tube_dst then
    some ⟨TUBE_FAILURE, tube_src, tube_dst, none⟩
  else
    let chunk := Tube_get_top_chunk tube_src
    match Tube_push_chunk tube_dst chunk with
    | none => none
    | some (r, dst1) =>
      if r = TUBE_FAILURE then some ⟨TUBE_FAILURE, tube_src, dst1, none⟩
      else
        match Tube_pop_chunk tube_src with
        | none => none
        | some src1 => some ⟨TUBE_SUCCESS, src1, dst1, some chunk⟩

/-- The function `Tube_pour` when `tube_src` and `tube_dst` point to the same
tube object; the fields `src` and `dst` of the result both hold that tube. -/
def Tube_pour_same (tube : Tube) : Option PourResult :=
  if Tube_is_empty tube ∨ Tube_is_full tube then
    some ⟨TUBE_FAILURE, tube, tube, none⟩
  else
    let chunk := Tube_get_top_chunk tube
    match Tube_push_chunk tube chunk with
    | none => none
    | some (r, t1) =>
      if r = TUBE_FAILURE then some ⟨TUBE_FAILURE, t1, t1, none⟩
      else
        match Tube_pop_chunk t1 with
        | none => none
        | some t2 => some ⟨TUBE_SUCCESS, t2, t2, some chunk⟩

/-- The function `Tube_add_chunk`. -/
def Tube_add_chunk (tube : Tube) (chunk : ColorChunk) : Option Tube :=
  (Tube_push_chunk_aux tube chunk false).map (fun r => r.2)

/-- The function `Tube_remove_chunk`. -/
def Tube_remove_chunk (tube : Tube) (chunk : ColorChunk) : Option Tube :=
  Tube_pop_chunk_aux tube (some chunk)

/-- The function `Tube_revert` for two different tube objects: the source and
the destination tube afterwards. -/
def Tube_revert (tube_src tube_dst : Tube) (chunk : ColorChunk) : Option (Tube × Tube) :=
  match Tube_remove_chunk tube_dst chunk with
  | none => none
  | some dst1 =>
    match Tube_add_chunk tube_src chunk with
    | none => none
    | some src1 => some (src1, dst1)

/-- The function `Tube_revert` when both pointers name the same tube
object. -/
def Tube_revert_same (tube : Tube) (chunk : ColorChunk) : Option Tube :=
  match Tube_remove_chunk tube chunk with
  | none => none
  | some t1 => Tube_add_chunk t1 chunk

/-- Loop of `Tube_is_pure`: `for (i = 1; i < num_slots; ++i)` over the slots
after the first. -/
def Tube_is_pure_loop (color : Int) : List Int → Bool
  | [] => true
  | c :: rest => if c ≠ color then false else Tube_is_pure_loop color rest

/-- The function `Tube_is_pure`; `none` when the tube has no slot, as
`slots[0]` is read first. -/
def Tube_is_pure : Tube → Option Bool
  | [] => none
  | color :: rest => some (Tube_is_pure_loop color rest)

/-- Loop of `Tube_is_one_color`. -/
def Tube_is_one_color_loop (color : Int) : List Int → Bool
  | [] => true
  | c :: rest =>
    if c = EMPTY_COLOR_INDEX then Tube_is_one_color_loop color rest
    else if c ≠ color then false
    else Tube_is_one_color_loop color rest

/-- The function `Tube_is_one_color`; `none` when the tube has no slot. -/
def Tube_is_one_color : Tube → Option Bool
  | [] => none
  | color :: rest => some (Tube_is_one_color_loop color rest)

/-! ## log.h / log.c -/

/-- The struct `Action`. -/
structure Action where
  i_src : Int
  i_dst : Int
  chunk : ColorChunk
deriving DecidableEq, Repr

/-- The struct `ActionLog`: `actions` is the allocated array, whose length is
the field `capacity`; the cells from `counter` on hold no entry. -/
structure ActionLog where
  actions : List Action
  counter : Nat
deriving DecidableEq, Repr

/-- The field `capacity` of an `ActionLog`. -/
def ActionLog.capacity (log : ActionLog) : Nat := log.actions.length

/-- The macro `ACTION_LOG_INITIAL_CAPACITY`. -/
def ACTION_LOG_INITIAL_CAPACITY : Nat := 64

/-- The value that stands for a cell `malloc` or `realloc` left unwritten and
for the initializer `{0}`; the code reads no unwritten cell of a log. -/
def blank_action : Action := ⟨0, 0, ⟨0, 0⟩⟩

/-- The function `ActionLog_create`. -/
def ActionLog_create : ActionLog :=
  { actions := List.replicate ACTION_LOG_INITIAL_CAPACITY blank_action, counter := 0 }

/-- The function `ActionLog_duplicate`: a copy of all `capacity` cells. -/
def ActionLog_duplicate (log : ActionLog) : ActionLog :=
  { actions := log.actions, counter := log.counter }

/-- The function `ActionLog_push_back`; `none` when `actions[counter]` lies
outside the array. -/
def ActionLog_push_back (log : ActionLog) (action : Action) : Option ActionLog :=
  let actions :=
    if log.counter = log.capacity then
      log.actions ++ List.replicate (log.capacity * 2 - log.capacity) blank_action
    else log.actions
  if log.counter < actions.length then
    some { actions := actions.set log.counter action, counter := log.counter + 1 }
  else none

/-- The function `ActionLog_pop`: the return code, the log afterwards and the
action written through `action` (`none`: nothing was written). -/
def ActionLog_pop (log : ActionLog) : Option (Int × ActionLog × Option Action) :=
  if log.counter = 0 then some (TUBE_FAILURE, log, none)
  else
    match log.actions[log.counter - 1]? with
    | none => none
    | some a => some (TUBE_SUCCESS, { actions := log.actions, counter := log.counter - 1 }, some a)

/-! ## gameinfo.h / gameinfo.c -/

/-- The struct `GameInfo`: `tubes` is the array of tubes, whose length is the
field `num_tubes`.  The field `filename` only names the output file and is
left out. -/
structure GameInfo where
  num_extra : Int
  tubes : List Tube
  seed : Nat
deriving DecidableEq, Repr

/-- The field `num_tubes` of a `GameInfo`. -/
def GameInfo.num_tubes (info : GameInfo) : Nat := info.tubes.length

/-- The read `info->tubes[i]` for a C `int` index; `none` outside the
array. -/
def GameInfo.tube_at (info : GameInfo) (i : Int) : Option Tube :=
  if i < 0 then none else info.tubes[i.toNat]?

/-- The tube `info->tubes[i]` replaced by `tube`. -/
def GameInfo.set_tube (info : GameInfo) (i : Int) (tube : Tube) : GameInfo :=
  { info with tubes := info.tubes.set i.toNat tube }

/-- The struct `ColorPool`: `data[c]` is the number of units of colour `c`
left. -/
structure ColorPool where
  num_colors : Nat
  data : List Nat
  num_slots : Nat
deriving DecidableEq, Repr

/-- The function `ColorPool_create_full`. -/
def ColorPool_create_full (num_colors num_slots : Nat) : ColorPool :=
  { num_colors := num_colors, data := List.replicate num_colors num_slots,
    num_slots := num_slots }

/-- Loop of `ColorPool_is_empty` over `data[0 .. num_colors - 1]`. -/
def ColorPool_is_empty_loop : List Nat → Bool
  | [] => true
  | d :: rest => if d ≠ 0 then false else ColorPool_is_empty_loop rest

/-- The function `ColorPool_is_empty`. -/
def ColorPool_is_empty (pool : ColorPool) : Bool := ColorPool_is_empty_loop pool.data

/-- The function `ColorPool_pick_color`.  The list holds the values the next
calls of `rand()` return; the result is the colour, the pool afterwards and
the values not yet used.  `none` when the list is used up before the loop
ends, and for `rand() % 0`. -/
def ColorPool_pick_color (pool : ColorPool) : List Nat → Option (Nat × ColorPool × List Nat)
  | [] => none
  | r :: rest =>
    if pool.num_colors = 0 then none
    else
      let color := r % pool.num_colors
      match pool.data[color]? with
      | none => none
      | some 0 => ColorPool_pick_color pool rest
      | some (d + 1) => some (color, { pool with data := pool.data.set color d }, rest)

/-- The function `GameInfo_create`. -/
def GameInfo_create (num_colors num_extra num_slots : Nat) : GameInfo :=
  { num_extra := num_extra,
    tubes := List.replicate (num_colors + num_extra) (Tube_create num_slots),
    seed := 0 }

/-- The inner loop of `GameInfo_create_from_seed`:
`do { i_tube = rand() % num_colors; tube = info->tubes[i_tube]; }
while (Tube_add_color(tube, color) != TUBE_SUCCESS);`. -/
def pick_tube_loop (num_colors : Nat) (color : Int) :
    GameInfo → List Nat → Option (GameInfo × List Nat)
  | _, [] => none
  | info, r :: rest =>
    if num_colors = 0 then none
    else
      let i_tube := r % num_colors
      match info.tubes[i_tube]? with
      | none => none
      | some tube =>
        let res := Tube_add_color tube color
        let info1 := { info with tubes := info.tubes.set i_tube res.2 }
        if res.1 ≠ TUBE_SUCCESS then pick_tube_loop num_colors color info1 rest
        else some (info1, rest)

/-- The loop `while (ColorPool_is_empty(pool) == false)` of
`GameInfo_create_from_seed`.  The first argument bounds the number of
iterations; `none` when it or the list of `rand()` values is used up. -/
def GameInfo_create_from_seed_loop (num_colors : Nat) :
    Nat → GameInfo → ColorPool → List Nat → Option (GameInfo × List Nat)
  | 0, _, _, _ => none
  | fuel + 1, info, pool, draws =>
    if ColorPool_is_empty pool then some (info, draws)
    else
      match ColorPool_pick_color pool draws with
      | none => none
      | some (color, pool1, draws1) =>
        match pick_tube_loop num_colors (color : Int) info draws1 with
        | none => none
        | some (info1, draws2) =>
          GameInfo_create_from_seed_loop num_colors fuel info1 pool1 draws2

/-- The function `GameInfo_create_from_seed`.  `draws` holds the values that
`rand()` returns after `srand(seed)`, in order; every iteration of the loop
uses at least one of them, so `draws.length + 1` bounds the iterations.
`none` when `draws` is used up before the pool is empty. -/
def GameInfo_create_from_seed (num_colors num_extra num_slots seed : Nat)
    (draws : List Nat) : Option GameInfo :=
  let info := { GameInfo_create num_colors num_extra num_slots with seed := seed }
  let pool := ColorPool_create_full num_colors num_slots
  (GameInfo_create_from_seed_loop num_colors (draws.length + 1) info pool draws).map
    (fun r => r.1)

/-- Loop of `GameInfo_is_solved` over the tubes. -/
def GameInfo_is_solved_loop : List Tube → Option Bool
  | [] => some true
  | tube :: rest =>
    match Tube_is_pure tube with
    | none => none
    | some false => some false
    | some true => GameInfo_is_solved_loop rest

/-- The function `GameInfo_is_solved`. -/
def GameInfo_is_solved (info : GameInfo) : Option Bool :=
  GameInfo_is_solved_loop info.tubes

/-- The call `Tube_pour(tube_src, tube_dst, &action.chunk)` inside
`GameInfo_pour` with both tubes written back to the board; the two pointers
name the same tube object exactly when the indices are equal. -/
def GameInfo_pour_tubes (info : GameInfo) (i_src i_dst : Int) :
    Option (PourResult × GameInfo) :=
  match info.tube_at i_src, info.tube_at i_dst with
  | some tube_src, some tube_dst =>
    if i_src = i_dst then
      (Tube_pour_same tube_src).map (fun r => (r, info.set_tube i_src r.src))
    else
      (Tube_pour tube_src tube_dst).map
        (fun r => (r, (info.set_tube i_src r.src).set_tube i_dst r.dst))
  | _, _ => none

/-- The function `GameInfo_pour`: the return code, the board and the log
afterwards. -/
def GameInfo_pour (info : GameInfo) (i_src i_dst : Int) (log : ActionLog) :
    Option (Int × GameInfo × ActionLog) :=
  if i_src ≥ info.num_tubes ∨ i_dst ≥ info.num_tubes then
    some (TUBE_FAILURE, info, log)
  else
    match GameInfo_pour_tubes info i_src i_dst with
    | none => none
    | some (r, info1) =>
      if r.ret ≠ TUBE_SUCCESS then some (TUBE_FAILURE, info1, log)
      else
        let action : Action :=
          { i_src := i_src, i_dst := i_dst, chunk := r.chunk.getD blank_action.chunk }
        match ActionLog_push_back log action with
        | none => none
        | some log1 => some (TUBE_SUCCESS, info1, log1)

/-- The call `Tube_revert(tube_src, tube_dst, p_chunk)` inside
`GameInfo_revert_one` with both tubes written back to the board. -/
def GameInfo_revert_tubes (info : GameInfo) (action : Action) : Option GameInfo :=
  match info.tube_at action.i_src, info.tube_at action.i_dst with
  | some tube_src, some tube_dst =>
    if action.i_src = action.i_dst then
      (Tube_revert_same tube_src action.chunk).map (fun t => info.set_tube action.i_src t)
    else
      (Tube_revert tube_src tube_dst action.chunk).map
        (fun r => (info.set_tube action.i_src r.1).set_tube action.i_dst r.2)
  | _, _ => none

/-- The function `GameInfo_revert_one`. -/
def GameInfo_revert_one (info : GameInfo) (log : ActionLog) :
    Option (Int × GameInfo × ActionLog) :=
  match ActionLog_pop log with
  | none => none
  | some (ret, log1, written) =>
    if ret ≠ TUBE_SUCCESS then some (TUBE_FAILURE, info, log1)
    else
      match GameInfo_revert_tubes info (written.getD blank_action) with
      | none => none
      | some info1 => some (TUBE_SUCCESS, info1, log1)

/-- The loop of `GameInfo_revert_all`; the first argument bounds the number
of calls of `GameInfo_revert_one`. -/
def GameInfo_revert_all_loop : Nat → GameInfo → ActionLog → Option (GameInfo × ActionLog)
  | 0, _, _ => none
  | n + 1, info, log =>
    match GameInfo_revert_one info log with
    | none => none
    | some (ret, info1, log1) =>
      if ret = TUBE_SUCCESS then GameInfo_revert_all_loop n info1 log1
      else some (info1, log1)

/-- The function `GameInfo_revert_all`.  Every successful call of
`GameInfo_revert_one` lowers `counter` by one and the call at `counter == 0`
fails, so the loop makes at most `counter + 1` calls. -/
def GameInfo_revert_all (info : GameInfo) (log : ActionLog) : Option (GameInfo × ActionLog) :=
  GameInfo_revert_all_loop (log.counter + 1) info log

/-- The function `GameInfo_pour_is_pointless`. -/
def GameInfo_pour_is_pointless (info : GameInfo) (i_src i_dst : Nat) : Option Bool :=
  match info.tubes[i_src]?, info.tubes[i_dst]? with
  | some tube_src, some tube_dst =>
    match Tube_is_one_color tube_src with
    | none => none
    | some false => some false
    | some true =>
      match Tube_is_pure tube_dst with
      | none => none
      | some b => some b
  | _, _ => none

/-- The loop of `GameInfo_solver_loop_dst`; the first argument is
`num_tubes - i_dst`, the second is `i_dst`. -/
def GameInfo_solver_loop_dst_from (i_src : Nat) :
    Nat → Nat → GameInfo → ActionLog → Option (Int × GameInfo × ActionLog)
  | 0, _, info, log => some (TUBE_FAILURE, info, log)
  | n + 1, i_dst, info, log =>
    if i_dst = i_src then GameInfo_solver_loop_dst_from i_src n (i_dst + 1) info log
    else
      match GameInfo_pour_is_pointless info i_src i_dst with
      | none => none
      | some true => GameInfo_solver_loop_dst_from i_src n (i_dst + 1) info log
      | some false =>
        match GameInfo_pour info i_src i_dst log with
        | none => none
        | some (ret, info1, log1) =>
          if ret = TUBE_SUCCESS then some (TUBE_SUCCESS, info1, log1)
          else GameInfo_solver_loop_dst_from i_src n (i_dst + 1) info1 log1

/-- The function `GameInfo_solver_loop_dst`. -/
def GameInfo_solver_loop_dst (info : GameInfo) (log : ActionLog) (i_src : Nat) :
    Option (Int × GameInfo × ActionLog) :=
  GameInfo_solver_loop_dst_from i_src info.num_tubes 0 info log

/-- The loop of `GameInfo_solver_loop_src`, with the recursive call
`GameInfo_solver_loop_src(info, log)` passed in as `again`; the second
argument is `num_tubes - i_src`, the third is `i_src`. -/
def GameInfo_solver_loop_src_from
    (again : GameInfo → ActionLog → Option (Bool × GameInfo × ActionLog)) :
    Nat → Nat → GameInfo → ActionLog → Option (Bool × GameInfo × ActionLog)
  | 0, _, info, log => some (false, info, log)
  | n + 1, i_src, info, log =>
    match info.tubes[i_src]? with
    | none => none
    | some tube =>
      match Tube_is_pure tube with
      | none => none
      | some true => GameInfo_solver_loop_src_from again n (i_src + 1) info log
      | some false =>
        match GameInfo_solver_loop_dst info log i_src with
        | none => none
        | some (ret, info1, log1) =>
          if ret = TUBE_SUCCESS then
            match GameInfo_is_solved info1 with
            | none => none
            | some true => some (true, info1, log1)
            | some false =>
              match again info1 log1 with
              | none => none
              | some (true, info2, log2) => some (true, info2, log2)
              | some (false, info2, log2) =>
                match GameInfo_revert_one info2 log2 with
                | none => none
                | some (_, info3, log3) =>
                  GameInfo_solver_loop_src_from again n (i_src + 1) info3 log3
          else GameInfo_solver_loop_src_from again n (i_src + 1) info1 log1

/-- The function `GameInfo_solver_loop_src`.  The first argument bounds the
depth of the recursion; `none` when it is used up. -/
def GameInfo_solver_loop_src : Nat → GameInfo → ActionLog → Option (Bool × GameInfo × ActionLog)
  | 0, _, _ => none
  | fuel + 1, info, log =>
    GameInfo_solver_loop_src_from (GameInfo_solver_loop_src fuel) info.num_tubes 0 info log

/-- The function `GameInfo_find_solution`, with the recursion bound of
`GameInfo_solver_loop_src` as first argument.  `log = none` is the `NULL`
pointer; the result holds the return value, the board and the caller's log
afterwards. -/
def GameInfo_find_solution (fuel : Nat) (info : GameInfo) (log : Option ActionLog) :
    Option (Bool × GameInfo × Option ActionLog) :=
  let auxlog := ActionLog_create
  match GameInfo_solver_loop_src fuel info auxlog with
  | none => none
  | some (res, info1, auxlog1) =>
    if log.isSome ∧ res = true then some (res, info1, some auxlog1)
    else some (res, info1, log)

/-! ## input.h / input.c -/

/-- The struct `Input`. -/
structure Input where
  num_tubes : Nat
  num_colors : Int
  num_slots : Nat
  data : List Int
deriving DecidableEq, Repr

/-- The call `qsort(cpy, num_tot, sizeof *cpy, &_cmp_fnc_int)`: the values in
ascending order. -/
def qsort_int (cpy : List Int) : List Int := cpy.insertionSort (fun a b => a ≤ b)

/-- The loop `for (; cpy[idx] == EMPTY_COLOR_INDEX; ++idx);` of
`Input_sanity_check`, over the cells from `idx` on; `none` when it reads
past the last cell. -/
def count_empty_cells : List Int → Nat → Option Nat
  | [], _ => none
  | c :: rest, idx =>
    if c = EMPTY_COLOR_INDEX then count_empty_cells rest (idx + 1) else some idx

/-- The loop `for (; idx < num_tot - 1; ++idx)` of `Input_sanity_check`, over
the cells from `idx` on, with the current value of `ctr`: `false` when it
returns `TUBE_FAILURE`, `true` when it runs to its end. -/
def check_color_runs (num_slots : Nat) : List Int → Nat → Bool
  | a :: b :: rest, ctr =>
    if a = b then check_color_runs num_slots (b :: rest) (ctr + 1)
    else if ctr ≠ num_slots then false
    else check_color_runs num_slots (b :: rest) 1
  | _, _ => true

/-- The function `Input_sanity_check`: the return code and the input
afterwards.  `none` when `data` has fewer than `num_slots * num_tubes`
cells, when the first loop reads past the copy, and for `idx % 0`. -/
def Input_sanity_check (input : Input) : Option (Int × Input) :=
  let num_tot := input.num_slots * input.num_tubes
  if input.data.length < num_tot then none
  else
    let cpy := qsort_int (input.data.take num_tot)
    match count_empty_cells cpy 0 with
    | none => none
    | some idx =>
      if idx = 0 then some (TUBE_FAILURE, input)
      else if input.num_slots = 0 then none
      else if idx % input.num_slots ≠ 0 then some (TUBE_FAILURE, input)
      else
        let num_extra := idx / input.num_slots
        let input1 := { input with num_colors := (input.num_tubes : Int) - (num_extra : Int) }
        if check_color_runs input.num_slots (cpy.drop idx) 1 then some (TUBE_SUCCESS, input1)
        else some (TUBE_FAILURE, input1)

/-! ## Notions of the specification -/

/-- A list whose last element, if any, differs from `c`. -/
def ends_off (b : Tube) (c : Int) : Prop := ∀ x, b.getLast? = some x → x ≠ c

/-- A tube is packed when no non-empty slot has a higher index than an empty
slot: the non-empty slots are a run that starts at the closed end. -/
def packed (t : Tube) : Prop :=
  ∀ j, j < t.length → ∀ i, i < j →
    slot_color t j ≠ EMPTY_COLOR_INDEX → slot_color t i ≠ EMPTY_COLOR_INDEX

instance packed_decidable (t : Tube) : Decidable (packed t) := by
  unfold packed; infer_instance

/-- The slots seen from the open end, from the outermost non-empty slot
inwards. -/
def open_end_view (t : Tube) : List Int :=
  t.reverse.dropWhile (fun x => x == EMPTY_COLOR_INDEX)

/-- The colour of the outermost non-empty slot, if the tube has one. -/
def top_color (t : Tube) : Option Int := (open_end_view t).head?

/-- The length of the maximal run of slots of the top colour that ends at the
outermost non-empty slot; 0 for an empty tube. -/
def top_run (t : Tube) : Nat :=
  match top_color t with
  | none => 0
  | some c => ((open_end_view t).takeWhile (fun x => x == c)).length

/-- The top chunk of a tube as the specification describes it. -/
def top_chunk_of (t : Tube) : ColorChunk :=
  { color := (top_color t).getD EMPTY_COLOR_INDEX, count := (top_run t : Nat) }

/-- The number of empty slots of a tube. -/
def empty_slots (t : Tube) : Nat := t.count EMPTY_COLOR_INDEX

/-- Every slot of the tube is empty. -/
def all_empty (t : Tube) : Prop := ∀ x ∈ t, x = EMPTY_COLOR_INDEX

instance all_empty_decidable (t : Tube) : Decidable (all_empty t) := by
  unfold all_empty; infer_instance

/-- The tube with colour `c` written into its `k` lowest-index empty slots. -/
def fill_lowest_empty (c : Int) : Nat → Tube → Tube
  | 0, t => t
  | _ + 1, [] => []
  | k + 1, x :: rest =>
    if x = EMPTY_COLOR_INDEX then c :: fill_lowest_empty c k rest
    else x :: fill_lowest_empty c (k + 1) rest

/-- The list with its first `k` non-empty values replaced by the empty value. -/
def clear_first : Nat → List Int → List Int
  | 0, t => t
  | _ + 1, [] => []
  | k + 1, x :: rest =>
    if x = EMPTY_COLOR_INDEX then x :: clear_first (k + 1) rest
    else EMPTY_COLOR_INDEX :: clear_first k rest

/-- The tube with its `k` outermost (highest-index) non-empty slots emptied. -/
def clear_outermost (k : Nat) (t : Tube) : Tube := (clear_first k t.reverse).reverse

/-- The entries a log holds: the first `counter` cells of its array, oldest
first. -/
def ActionLog.entries (log : ActionLog) : List Action := log.actions.take log.counter

/-- A log as the functions of `log.c` keep it: `counter` is at most the
capacity, which is positive. -/
def ActionLog.wf (log : ActionLog) : Prop :=
  log.counter ≤ log.actions.length ∧ 0 < log.actions.length

instance ActionLog.wf_decidable (log : ActionLog) : Decidable log.wf := by
  unfold ActionLog.wf; infer_instance

/-- Every tube of the board is packed. -/
def board_packed (info : GameInfo) : Prop := ∀ t ∈ info.tubes, packed t

instance board_packed_decidable (info : GameInfo) : Decidable (board_packed info) := by
  unfold board_packed; infer_instance

/-- Replays a list of actions from a board: every action is carried out as
`GameInfo_pour` from its source index to its destination index; the pour has
to succeed and to log exactly that action (so it moves the recorded chunk).
The result is the board at the end, `none` when some action does not replay
that way. -/
def replay_actions : GameInfo → List Action → Option GameInfo
  | info, [] => some info
  | info, a :: rest =>
    match GameInfo_pour info a.i_src a.i_dst ActionLog_create with
    | some (ret, info1, log1) =>
      if ret = TUBE_SUCCESS ∧ log1.entries = [a] then replay_actions info1 rest else none
    | none => none

/-- What the proofs establish of a run of the search from a board of packed
tubes: a run that returns `false` leaves the board and the entries of the log
as they were; a run that returns `true` has appended a non-empty list of
actions that replays from the old board to the new one, which is solved. -/
def search_contract (run : GameInfo → ActionLog → Option (Bool × GameInfo × ActionLog)) : Prop :=
  ∀ info log res info1 log1, board_packed info → run info log = some (res, info1, log1) →
    board_packed info1 ∧
    (res = false → info1 = info ∧ log1.entries = log.entries) ∧
    (res = true → ∃ acts, acts ≠ [] ∧ log1.entries = log.entries ++ acts ∧
      replay_actions info acts = some info1 ∧ GameInfo_is_solved info1 = some true)

/-- The board of the end-to-end example of the specification: 2 colours,
1 extra tube, 2 slots, tubes `[A,A]`, `[B,B]`, `[]` with `A = 0`, `B = 1`. -/
def example_board : GameInfo := { num_extra := 1, tubes := [[0, 0], [1, 1], [-1, -1]], seed := 0 }

/-- A session of play: the calls `GameInfo_pour(info, i_src, i_dst, log)` for
the listed index pairs, in order, each on the board and log the call before
left behind, whatever each call returns. -/
def play_pours : GameInfo → ActionLog → List (Int × Int) → Option (GameInfo × ActionLog)
  | info, log, [] => some (info, log)
  | info, log, m :: rest =>
    match GameInfo_pour info m.1 m.2 log with
    | none => none
    | some (_, info1, log1) => play_pours info1 log1 rest

/-- Undoes a list of actions, most recent first, by `Tube_revert` on the
tubes each action names. -/
def unwind_actions : GameInfo → List Action → Option GameInfo
  | info, [] => some info
  | info, a :: rest =>
    match GameInfo_revert_tubes info a with
    | none => none
    | some info1 => unwind_actions info1 rest

/-- The number of slots of the whole board that hold the value `c`. -/
def board_count (c : Int) (tubes : List Tube) : Nat :=
  (tubes.map (fun t => t.count c)).sum

/-- The invariant of the loop of `GameInfo_create_from_seed`: the board has
`num_colors + num_extra` tubes of `num_slots` slots, the tubes from index
`num_colors` on are empty, for every colour the slots that hold it and its
units left in the pool add up to `num_slots`, and the units left in the pool
are as many as the empty slots of the colour tubes. -/
def generation_invariant (nc ne ns : Nat) (info : GameInfo) (pool : ColorPool) : Prop :=
  info.tubes.length = nc + ne ∧
  (∀ t ∈ info.tubes, t.length = ns) ∧
  (∀ i, nc ≤ i → i < nc + ne → info.tubes[i]? = some (List.replicate ns EMPTY_COLOR_INDEX)) ∧
  pool.num_colors = nc ∧ pool.data.length = nc ∧
  (∀ c, c < nc → ∃ d, pool.data[c]? = some d ∧ board_count (c : Int) info.tubes + d = ns) ∧
  pool.data.sum = board_count EMPTY_COLOR_INDEX (info.tubes.take nc)

/-- All slots of the tube hold the same value (one colour, or all empty). -/
def pure_tube (t : Tube) : Prop := ∀ x ∈ t, ∀ y ∈ t, x = y

instance pure_tube_decidable (t : Tube) : Decidable (pure_tube t) := by
  unfold pure_tube; infer_instance

/-- The calls `ActionLog_push_back(log, a)` for the listed actions, in
order. -/
def push_all : ActionLog → List Action → Option ActionLog
  | log, [] => some log
  | log, a :: rest =>
    match ActionLog_push_back log a with
    | none => none
    | some log1 => push_all log1 rest

/-- `n` successive calls of `ActionLog_pop` that all return success: the
actions they write, in the order of the calls, and the log afterwards;
`none` when one of the calls does not return success. -/
def pop_n : Nat → ActionLog → Option (List Action × ActionLog)
  | 0, log => some ([], log)
  | n + 1, log =>
    match ActionLog_pop log with
    | some (ret, log1, some a) =>
      if ret = TUBE_SUCCESS then (pop_n n log1).map (fun r => (a :: r.1, r.2)) else none
    | _ => none

/-- What the proofs establish of a run of the search about undoing it: from a
board of packed tubes and a log as `log.c` keeps it, the log afterwards is
again such a log, and after a run that returns `true` the actions it
appended, undone most recent first, lead back to the board at entry. -/
def restore_contract (run : GameInfo → ActionLog → Option (Bool × GameInfo × ActionLog)) : Prop :=
  ∀ info log res info1 log1, board_packed info → log.wf →
    run info log = some (res, info1, log1) →
    log1.wf ∧
    (res = true → ∃ acts, log1.entries = log.entries ++ acts ∧
      unwind_actions info1 acts.reverse = some info)

/-- An admissible destination for the search from the source `i_src`: a tube
other than the source for which the pour is not pointless and `Tube_pour`
from the source tube succeeds. -/
def admissible_destination (info : GameInfo) (i_src j : Nat) : Prop :=
  j ≠ i_src ∧ GameInfo_pour_is_pointless info i_src j = some false ∧
  ∃ src dst r, info.tubes[i_src]? = some src ∧ info.tubes[j]? = some dst ∧
    Tube_pour src dst = some r ∧ r.ret = TUBE_SUCCESS

/-- The number of maximal runs of equal values in a list. -/
def color_runs : List Int → Nat
  | [] => 0
  | [_] => 1
  | x :: y :: rest => (if x = y then 0 else 1) + color_runs (y :: rest)

/-- The non-empty values of a tube, from the closed end on. -/
def tube_contents (t : Tube) : List Int := t.filter (fun x => decide (x ≠ EMPTY_COLOR_INDEX))

/-- What a tube adds to the measure of the search: the number of its maximal
colour runs plus the number of those runs that do not rest on the closed end
(all but the lowest one). -/
def tube_measure (t : Tube) : Nat :=
  color_runs (tube_contents t) + (color_runs (tube_contents t) - 1)

/-- The measure of the search: the number of maximal colour runs on the board
plus the number of those runs that do not rest on the closed end of a tube. -/
def board_measure (info : GameInfo) : Nat := (info.tubes.map tube_measure).sum

/-- The number of filled (non-empty) slots of the board. -/
def filled_slots (info : GameInfo) : Nat :=
  (info.tubes.map (fun t => (tube_contents t).length)).sum

/-- What the proofs establish of a run of the search about its end: from a
board of packed tubes that all have a slot, with measure below `M`, and a log
as `log.c` keeps it, the run returns, and a run that returns `true` has not
appended more actions than the measure has gone down. -/
def halting_contract (M : Nat)
    (run : GameInfo → ActionLog → Option (Bool × GameInfo × ActionLog)) : Prop :=
  ∀ info log, board_packed info → (∀ t ∈ info.tubes, t ≠ []) → log.wf →
    board_measure info < M →
    ∃ res info1 log1, run info log = some (res, info1, log1) ∧
      (res = true →
        log1.entries.length + board_measure info1 ≤ log.entries.length + board_measure info)

/-- A board on which the search fails although it can be solved: 5 colours,
1 extra tube, 5 slots per tube. -/
def incomplete_board : GameInfo :=
  { num_extra := 1,
    tubes := [[2, 3, 4, 1, 1], [0, 2, 2, 4, 3], [1, 1, 3, 1, 4], [3, 2, 0, 4, 3],
      [0, 2, 4, 0, 0], [-1, -1, -1, -1, -1]],
    seed := 0 }

/-- A sequence of pours that solves `incomplete_board`, each with the chunk it
moves. -/
def incomplete_board_solution : List Action :=
  [⟨0, 5, ⟨1, 2⟩⟩, ⟨2, 0, ⟨4, 1⟩⟩, ⟨2, 5, ⟨1, 1⟩⟩, ⟨1, 2, ⟨3, 1⟩⟩, ⟨3, 2, ⟨3, 1⟩⟩,
    ⟨3, 1, ⟨4, 1⟩⟩, ⟨4, 3, ⟨0, 2⟩⟩, ⟨0, 4, ⟨4, 2⟩⟩, ⟨2, 0, ⟨3, 3⟩⟩, ⟨2, 5, ⟨1, 2⟩⟩,
    ⟨1, 2, ⟨4, 2⟩⟩, ⟨4, 2, ⟨4, 3⟩⟩, ⟨1, 4, ⟨2, 2⟩⟩, ⟨3, 1, ⟨0, 3⟩⟩, ⟨3, 4, ⟨2, 1⟩⟩,
    ⟨0, 3, ⟨3, 4⟩⟩, ⟨4, 0, ⟨2, 4⟩⟩, ⟨1, 4, ⟨0, 4⟩⟩]

/-- The inner loop of `GameInfo_create_from_file`:
`for (i_slot = 0; i_slot < num_slots; ++i_slot) Tube_add_color(tube,
input->data[i_tube * num_slots + i_slot]);`.  The first argument is the number
of iterations left, the second is `i_slot`; the return code of
`Tube_add_color` is not looked at.  `none` when `data` is read outside the
array. -/
def GameInfo_create_from_file_slots (input : Input) (i_tube : Nat) :
    Nat → Nat → Tube → Option Tube
  | 0, _, tube => some tube
  | n + 1, i_slot, tube =>
    match input.data[i_tube * input.num_slots + i_slot]? with
    | none => none
    | some color =>
      GameInfo_create_from_file_slots input i_tube n (i_slot + 1) (Tube_add_color tube color).2

/-- The outer loop of `GameInfo_create_from_file` over the tubes that
`GameInfo_create` made with `Tube_create(num_slots)`; the first argument is
`num_tubes - i_tube`, the second is `i_tube`. -/
def GameInfo_create_from_file_tubes (input : Input) : Nat → Nat → Option (List Tube)
  | 0, _ => some []
  | n + 1, i_tube =>
    match GameInfo_create_from_file_slots input i_tube input.num_slots 0
        (Tube_create input.num_slots) with
    | none => none
    | some tube =>
      (GameInfo_create_from_file_tubes input n (i_tube + 1)).map (fun rest => tube :: rest)

/-- The function `GameInfo_create_from_file`, from the `Input` that
`Input_read` returned: `GameInfo_create(num_colors, num_tubes - num_colors,
num_slots)` makes `num_tubes` tubes, which the loops then fill. -/
def GameInfo_create_from_file (input : Input) : Option GameInfo :=
  (GameInfo_create_from_file_tubes input input.num_tubes 0).map
    (fun tubes =>
      { num_extra := (input.num_tubes : Int) - input.num_colors, tubes := tubes, seed := 0 })

/-- Row `i_tube` of the slot data of an input: the cells
`data[i_tube * num_slots .. i_tube * num_slots + num_slots - 1]`. -/
def Input.row (input : Input) (i_tube : Nat) : List Int :=
  (input.data.drop (i_tube * input.num_slots)).take input.num_slots

/-- A row of slot values packed towards the closed end: its non-empty values
in row order, followed by as many empty slots as the row has empty values. -/
def packed_row (row : List Int) : Tube :=
  row.filter (fun x => decide (x ≠ EMPTY_COLOR_INDEX))
    ++ List.replicate (row.count EMPTY_COLOR_INDEX) EMPTY_COLOR_INDEX

/-- What `_parse_input` returns: the enumerators `INPUT_VALID` (with the two
indices it writes), `INPUT_INVALID`, `INPUT_REVERT` and `INPUT_QUIT`. -/
inductive UserInput where
  | valid (i_src i_dst : Int)
  | invalid
  | revert
  | quit
deriving DecidableEq, Repr

/-- The loop of `GameInfo_play` over the results of the successive calls of
`_parse_input`: the board when the loop is left, or when the listed inputs
are used up.  The board printer is left out. -/
def GameInfo_play_loop : List UserInput → GameInfo → ActionLog → Option GameInfo
  | [], info, _ => some info
  | UserInput.quit :: _, info, _ => some info
  | UserInput.invalid :: rest, info, log => GameInfo_play_loop rest info log
  | UserInput.valid i_src i_dst :: rest, info, log =>
    match GameInfo_pour info i_src i_dst log with
    | none => none
    | some (_, info1, log1) =>
      match GameInfo_is_solved info1 with
      | none => none
      | some true => some info1
      | some false => GameInfo_play_loop rest info1 log1
  | UserInput.revert :: rest, info, log =>
    match GameInfo_revert_one info log with
    | none => none
    | some (_, info1, log1) =>
      match GameInfo_is_solved info1 with
      | none => none
      | some true => some info1
      | some false => GameInfo_play_loop rest info1 log1

/-- The function `GameInfo_play` for a board that is not `NULL`. -/
def GameInfo_play (info : GameInfo) (inputs : List UserInput) : Option GameInfo :=
  GameInfo_play_loop inputs info ActionLog_create

/-- What `GameInfo_solve` writes to the solution file: the board it passes to
`GameInfo_fprint` and the log it passes to `ActionLog_fprint`, which prints
the entries of the log in order. -/
structure SolutionReport where
  board : GameInfo
  log : ActionLog
deriving DecidableEq, Repr

/-- The function `GameInfo_solve` for a board that is not `NULL`, with the
recursion bound of the search as first argument: the board afterwards and the
report written, `none` when no file is written. -/
def GameInfo_solve (fuel : Nat) (info : GameInfo) : Option (GameInfo × Option SolutionReport) :=
  let log := ActionLog_create
  match GameInfo_find_solution fuel info (some log) with
  | none => none
  | some (res, info1, out) =>
    if res = true then
      match out with
      | none => none
      | some log1 =>
        let duplog := ActionLog_duplicate log1
        match GameInfo_revert_all info1 duplog with
        | none => none
        | some (info2, _) => some (info2, some { board := info2, log := log1 })
    else some (info1, none)

/-- The first `k` iterations of the loop
`while (ColorPool_is_empty(pool) == false)` of `GameInfo_create_from_seed`:
the board, the pool and the values of `rand()` not yet used at the head of
the loop after `k` full iterations; `none` when the loop has ended before, or
when the values of `rand()` are used up. -/
def GameInfo_create_from_seed_iterations (num_colors : Nat) :
    Nat → GameInfo → ColorPool → List Nat → Option (GameInfo × ColorPool × List Nat)
  | 0, info, pool, draws => some (info, pool, draws)
  | k + 1, info, pool, draws =>
    if ColorPool_is_empty pool then none
    else
      match ColorPool_pick_color pool draws with
      | none => none
      | some (color, pool1, draws1) =>
        match pick_tube_loop num_colors (color : Int) info draws1 with
        | none => none
        | some (info1, draws2) =>
          GameInfo_create_from_seed_iterations num_colors k info1 pool1 draws2

/-! ## stdlib.h: `srand` and `rand` -/

/-- The hidden state of the generator behind `srand` and `rand`: the seed of
the sequence in use and the number of values already taken from it. -/
structure RandState where
  seed : Nat
  taken : Nat
deriving DecidableEq, Repr

/-- The call `srand(seed)`: a new sequence starts, whatever the state of the
generator was. -/
def srand (seed : Nat) (_st : RandState) : RandState := { seed := seed, taken := 0 }

/-- The call `rand()`: the value returned and the state afterwards.
`libc seed i` is the `i`-th value of the sequence the C library starts at
`srand(seed)`; the C standard fixes that the same seed repeats the same
sequence, not which values it holds. -/
def rand (libc : Nat → Nat → Nat) (st : RandState) : Nat × RandState :=
  (libc st.seed st.taken, { st with taken := st.taken + 1 })

/-- The values the next `n` calls of `rand()` return, in order. -/
def rand_draws (libc : Nat → Nat → Nat) : Nat → RandState → List Nat
  | 0, _ => []
  | n + 1, st => (rand libc st).1 :: rand_draws libc n (rand libc st).2

/-- The function `GameInfo_create_from_seed` as a call inside a running
program, with the generator of the C library made explicit: `st` is the state
of the generator at the call (other calls of `srand` and `rand`, such as those
of `get_seed`, come before).  `info->seed = seed` converts the `int` to the
`unsigned int` field (32 bits), `srand(info->seed)` restarts the generator,
and the loop takes its values from `rand()`.  `n` bounds the number of calls
of `rand()`; the result is the board and the state of the generator
afterwards, `none` when the bound is used up before the pool is empty. -/
def GameInfo_create_from_seed_srand (libc : Nat → Nat → Nat) (n : Nat) (st : RandState)
    (num_colors num_extra num_slots : Nat) (seed : Int) : Option (GameInfo × RandState) :=
  let useed := (seed % 4294967296).toNat
  let info := { GameInfo_create num_colors num_extra num_slots with seed := useed }
  let st1 := srand useed st
  let pool := ColorPool_create_full num_colors num_slots
  match GameInfo_create_from_seed_loop num_colors (n + 1) info pool (rand_draws libc n st1) with
  | none => none
  | some (info1, rest) => some (info1, { st1 with taken := st1.taken + (n - rest.length) })

/-! ## Slots, scans and runs -/

theorem slot_color_append_left (a b : Tube) (i : Nat) (h : i < a.length) :
    slot_color (a ++ b) i = slot_color a i := by
  unfold slot_color
  exact List.getD_append a b _ i h

theorem slot_color_append_right (a b : Tube) (j : Nat) :
    slot_color (a ++ b) (a.length + j) = slot_color b j := by
  unfold slot_color
  rw [List.getD_append_right a b _ _ (Nat.le_add_right _ _)]
  simp

theorem slot_color_append_length (a b : Tube) :
    slot_color (a ++ b) a.length = slot_color b 0 := by
  have := slot_color_append_right a b 0
  simpa using this

theorem slot_color_replicate (m j : Nat) (x : Int) (h : j < m) :
    slot_color (List.replicate m x) j = x := by
  unfold slot_color
  simp [List.getElem?_replicate, h]

theorem slot_color_cons_zero (x : Int) (s : Tube) : slot_color (x :: s) 0 = x := by
  simp [slot_color]

/-- The scan only looks at the cells below its start. -/
theorem scan_top_append (t s : Tube) (i : Nat) (h : i ≤ t.length) :
    scan_top (t ++ s) i = scan_top t i := by
  induction i with
  | zero => rfl
  | succ i ih =>
    simp only [scan_top]
    rw [slot_color_append_left t s i (by omega), ih (by omega)]

theorem scan_top_skip (t : Tube) (M m : Nat) (h : m ≤ M) :
    scan_top (t ++ List.replicate M EMPTY_COLOR_INDEX) (t.length + m)
      = scan_top t t.length := by
  induction m with
  | zero => simpa using scan_top_append t _ t.length (le_refl _)
  | succ m ih =>
    rw [show t.length + (m + 1) = (t.length + m) + 1 from rfl]
    simp only [scan_top]
    rw [slot_color_append_right, slot_color_replicate _ _ _ (by omega)]
    simpa using ih (by omega)

theorem scan_top_full (a : Tube) (ha : ∀ x ∈ a, x ≠ EMPTY_COLOR_INDEX) :
    scan_top a a.length = a.length := by
  rcases List.eq_nil_or_concat a with rfl | ⟨b, x, rfl⟩
  · rfl
  · simp only [List.concat_eq_append] at *
    have hx : x ≠ EMPTY_COLOR_INDEX := ha x (by simp)
    rw [List.length_append, List.length_singleton]
    simp only [scan_top]
    rw [slot_color_append_length, slot_color_cons_zero]
    simp [hx]

theorem scan_top_shape (a : Tube) (m : Nat) (ha : ∀ x ∈ a, x ≠ EMPTY_COLOR_INDEX) :
    scan_top (a ++ List.replicate m EMPTY_COLOR_INDEX)
      (a ++ List.replicate m EMPTY_COLOR_INDEX).length = a.length := by
  rw [List.length_append, List.length_replicate, scan_top_skip a m m (le_refl _),
    scan_top_full a ha]

theorem slot_color_last (b : Tube) (x : Int) (s : Tube) :
    slot_color (b ++ [x] ++ s) b.length = x := by
  rw [List.append_assoc, slot_color_append_length]
  rfl

theorem count_run_stop (b s : Tube) (c : Int) (hb : ends_off b c) :
    count_run (b ++ s) c b.length = 0 := by
  rcases List.eq_nil_or_concat b with rfl | ⟨b1, x, rfl⟩
  · rfl
  · simp only [List.concat_eq_append] at *
    have hx : x ≠ c := hb x (by simp)
    rw [List.length_append, List.length_singleton]
    simp only [count_run]
    rw [slot_color_last]
    simp [hx]

theorem count_run_shape (b s : Tube) (c : Int) (R r : Nat) (h : r ≤ R) (hb : ends_off b c) :
    count_run (b ++ List.replicate R c ++ s) c (b.length + r) = r := by
  induction r with
  | zero =>
    rw [List.append_assoc]
    exact count_run_stop b _ c hb
  | succ r ih =>
    rw [show b.length + (r + 1) = (b.length + r) + 1 from rfl]
    simp only [count_run]
    rw [List.append_assoc, slot_color_append_right,
      slot_color_append_left _ _ _ (by simp; omega), slot_color_replicate _ _ _ (by omega)]
    rw [List.append_assoc] at ih
    simp [ih (by omega)]

theorem clear_run_stop (b s : Tube) (c : Int) (hb : ends_off b c) :
    clear_run c b.length (b ++ s) = b ++ s := by
  rcases List.eq_nil_or_concat b with rfl | ⟨b1, x, rfl⟩
  · rfl
  · simp only [List.concat_eq_append] at *
    have hx : x ≠ c := hb x (by simp)
    rw [List.length_append, List.length_singleton]
    simp only [clear_run]
    rw [slot_color_last]
    simp [hx]

theorem set_shape (b s : Tube) (c x : Int) (r : Nat) :
    (b ++ List.replicate (r + 1) c ++ s).set (b.length + r) x
      = b ++ List.replicate r c ++ (x :: s) := by
  rw [List.replicate_succ', List.append_assoc, List.append_assoc, List.append_assoc,
    List.set_append_right _ _ (by omega), List.set_append_right _ _ (by simp)]
  simp

theorem slot_color_shape (b s : Tube) (c : Int) (r : Nat) :
    slot_color (b ++ List.replicate (r + 1) c ++ s) (b.length + r) = c := by
  rw [List.append_assoc, slot_color_append_right,
    slot_color_append_left _ _ _ (by simp), slot_color_replicate _ _ _ (by omega)]

theorem clear_run_shape (b : Tube) (c : Int) (hb : ends_off b c) (r : Nat) :
    ∀ s : Tube, clear_run c (b.length + r) (b ++ List.replicate r c ++ s)
      = b ++ List.replicate r EMPTY_COLOR_INDEX ++ s := by
  induction r with
  | zero => intro s; simpa using clear_run_stop b s c hb
  | succ r ih =>
    intro s
    rw [show b.length + (r + 1) = (b.length + r) + 1 from rfl]
    simp only [clear_run]
    rw [slot_color_shape, set_shape, ih]
    simp [List.replicate_succ']

theorem remove_run_shape (b : Tube) (c : Int) (n : Nat) :
    ∀ (r : Nat) (s : Tube), n ≤ r →
      remove_run c n (b.length + r) (b ++ List.replicate r c ++ s)
        = some (b ++ List.replicate (r - n) c ++ List.replicate n EMPTY_COLOR_INDEX ++ s) := by
  induction n with
  | zero => intro r s _; simp [remove_run]
  | succ n ih =>
    intro r s h
    obtain ⟨r1, rfl⟩ : ∃ r1, r = r1 + 1 := ⟨r - 1, by omega⟩
    rw [show b.length + (r1 + 1) = (b.length + r1) + 1 from rfl]
    simp only [remove_run]
    rw [slot_color_shape, set_shape, ih r1 _ (by omega)]
    simp [List.replicate_succ']

theorem write_run_shape (c x : Int) (n : Nat) :
    ∀ (a : Tube) (M : Nat) (s : Tube), n ≤ M →
      write_run c n a.length (a ++ List.replicate M x ++ s)
        = some (a ++ List.replicate n c ++ List.replicate (M - n) x ++ s) := by
  induction n with
  | zero => intro a M s _; simp [write_run]
  | succ n ih =>
    intro a M s h
    obtain ⟨M1, rfl⟩ : ∃ M1, M = M1 + 1 := ⟨M - 1, by omega⟩
    simp only [write_run]
    have hlen : a.length < (a ++ List.replicate (M1 + 1) x ++ s).length := by simp
    rw [if_pos hlen]
    have hset : (a ++ List.replicate (M1 + 1) x ++ s).set a.length c
        = (a ++ [c]) ++ List.replicate M1 x ++ s := by
      rw [List.append_assoc, List.set_append_right _ _ (le_refl _)]
      simp [List.replicate_succ]
    rw [hset]
    have := ih (a ++ [c]) M1 s (by omega)
    simp only [List.length_append, List.length_singleton] at this
    rw [this]
    simp [List.replicate_succ]

theorem slot_color_cons_succ (x : Int) (s : Tube) (i : Nat) :
    slot_color (x :: s) (i + 1) = slot_color s i := by
  simp [slot_color]

theorem slot_color_mem (t : Tube) (i : Nat) (h : i < t.length) : slot_color t i ∈ t := by
  unfold slot_color
  rw [List.getD_eq_getElem _ _ h]
  exact List.getElem_mem h

theorem packed_tail (x : Int) (s : Tube) (h : packed (x :: s)) : packed s := by
  intro j hj i hi hne
  have := h (j + 1) (by simpa using hj) (i + 1) (by omega)
  simpa [slot_color_cons_succ] using this hne

theorem packed_head_empty (s : Tube) (h : packed (EMPTY_COLOR_INDEX :: s)) :
    s = List.replicate s.length EMPTY_COLOR_INDEX := by
  apply List.ext_getElem (by simp)
  intro n h1 h2
  by_contra hne
  have := h (n + 1) (by simpa using h1) 0 (by omega)
  rw [slot_color_cons_succ, slot_color_cons_zero] at this
  apply this _ rfl
  unfold slot_color
  rw [List.getD_eq_getElem _ _ h1]
  simpa using hne

theorem packed_split (t : Tube) (h : packed t) :
    ∃ (a : Tube) (m : Nat), t = a ++ List.replicate m EMPTY_COLOR_INDEX ∧
      ∀ x ∈ a, x ≠ EMPTY_COLOR_INDEX := by
  induction t with
  | nil => exact ⟨[], 0, rfl, by simp⟩
  | cons x s ih =>
    by_cases hx : x = EMPTY_COLOR_INDEX
    · subst hx
      refine ⟨[], s.length + 1, ?_, by simp⟩
      rw [List.nil_append, List.replicate_succ, ← packed_head_empty s h]
    · obtain ⟨a, m, hs, ha⟩ := ih (packed_tail x s h)
      refine ⟨x :: a, m, by rw [hs]; rfl, ?_⟩
      intro y hy
      rcases List.mem_cons.1 hy with rfl | hy
      · exact hx
      · exact ha y hy

theorem packed_of_split (a : Tube) (m : Nat) (ha : ∀ x ∈ a, x ≠ EMPTY_COLOR_INDEX) :
    packed (a ++ List.replicate m EMPTY_COLOR_INDEX) := by
  intro j _ i hi _
  by_cases hja : j < a.length
  · rw [slot_color_append_left _ _ _ (by omega)]
    exact ha _ (slot_color_mem a i (by omega))
  · by_cases hia : i < a.length
    · rw [slot_color_append_left _ _ _ hia]
      exact ha _ (slot_color_mem a i hia)
    · exfalso
      rename_i hj hne
      apply hne
      obtain ⟨k, rfl⟩ : ∃ k, j = a.length + k := ⟨j - a.length, by omega⟩
      rw [slot_color_append_right]
      apply slot_color_replicate
      simp at hj
      omega

/-- Every non-empty list ends in a maximal run of its last value. -/
theorem top_run_split (a : Tube) (hne : a ≠ []) :
    ∃ (b : Tube) (r : Nat) (c : Int), a = b ++ List.replicate (r + 1) c ∧ ends_off b c := by
  induction a using List.reverseRecOn with
  | nil => exact absurd rfl hne
  | append_singleton a1 x ih =>
    by_cases h1 : a1 = []
    · subst h1
      exact ⟨[], 0, x, rfl, by intro y hy; simp at hy⟩
    · obtain ⟨b, r, c, hb, hoff⟩ := ih h1
      by_cases hc : c = x
      · subst hc
        refine ⟨b, r + 1, c, ?_, hoff⟩
        rw [hb, List.append_assoc, ← List.replicate_succ']
      · refine ⟨a1, 0, x, rfl, ?_⟩
        intro y hy
        rw [hb] at hy
        simp [List.getLast?_replicate] at hy
        rw [← hy]; exact hc

theorem Tube_is_empty_loop_eq (t : Tube) (i : Nat) :
    Tube_is_empty_loop t i = decide (scan_top t i = 0) := by
  induction i with
  | zero => simp [Tube_is_empty_loop, scan_top]
  | succ i ih =>
    simp only [Tube_is_empty_loop, scan_top]
    by_cases h : slot_color t i ≠ EMPTY_COLOR_INDEX
    · simp [h]
    · simp [h, ih]

theorem Tube_is_empty_shape (a : Tube) (m : Nat) (ha : ∀ x ∈ a, x ≠ EMPTY_COLOR_INDEX) :
    Tube_is_empty (a ++ List.replicate m EMPTY_COLOR_INDEX) = decide (a = []) := by
  unfold Tube_is_empty
  rw [Tube_is_empty_loop_eq, scan_top_shape a m ha]
  simp [List.length_eq_zero]

theorem Tube_is_full_shape (a : Tube) (m : Nat) (ha : ∀ x ∈ a, x ≠ EMPTY_COLOR_INDEX) :
    Tube_is_full (a ++ List.replicate m EMPTY_COLOR_INDEX) = decide (m = 0) := by
  induction a with
  | nil =>
    cases m with
    | zero => simp [Tube_is_full]
    | succ m => simp [Tube_is_full, List.replicate_succ]
  | cons x a ih =>
    have hx : x ≠ EMPTY_COLOR_INDEX := ha x (by simp)
    simp only [List.cons_append, Tube_is_full, if_neg hx]
    exact ih (fun y hy => ha y (by simp [hy]))

theorem color_at_top_append (a s : Tube) :
    color_at_top (a ++ s) a.length = a.getLast?.getD EMPTY_COLOR_INDEX := by
  rcases List.eq_nil_or_concat a with rfl | ⟨b, x, rfl⟩
  · rfl
  · simp only [List.concat_eq_append]
    rw [List.length_append, List.length_singleton]
    simp only [color_at_top]
    rw [slot_color_last]
    simp

theorem Tube_get_top_chunk_empty (m : Nat) :
    Tube_get_top_chunk (List.replicate m EMPTY_COLOR_INDEX) = ⟨EMPTY_COLOR_INDEX, 0⟩ := by
  have h := scan_top_shape [] m (by simp)
  simp only [List.nil_append, List.length_nil] at h
  dsimp only [Tube_get_top_chunk]
  rw [h]
  rfl

theorem Tube_get_top_chunk_shape (b : Tube) (r m : Nat) (c : Int)
    (hb : ∀ x ∈ b, x ≠ EMPTY_COLOR_INDEX) (hc : c ≠ EMPTY_COLOR_INDEX) (hoff : ends_off b c) :
    Tube_get_top_chunk (b ++ List.replicate (r + 1) c ++ List.replicate m EMPTY_COLOR_INDEX)
      = ⟨c, ((r + 1 : Nat) : Int)⟩ := by
  have ha : ∀ x ∈ b ++ List.replicate (r + 1) c, x ≠ EMPTY_COLOR_INDEX := by
    intro x hx
    rcases List.mem_append.1 hx with h | h
    · exact hb x h
    · rw [(List.mem_replicate.1 h).2]; exact hc
  dsimp only [Tube_get_top_chunk]
  rw [scan_top_shape _ m ha, color_at_top_append]
  have hlast : (b ++ List.replicate (r + 1) c).getLast?.getD EMPTY_COLOR_INDEX = c := by
    simp [List.getLast?_replicate]
  simp only [hlast]
  rw [List.length_append, List.length_replicate, count_run_shape b _ c (r + 1) (r + 1) (le_refl _) hoff]

theorem Tube_push_chunk_aux_checked (a : Tube) (m : Nat) (c : Int) (k : Nat)
    (ha : ∀ x ∈ a, x ≠ EMPTY_COLOR_INDEX) :
    Tube_push_chunk_aux (a ++ List.replicate m EMPTY_COLOR_INDEX) ⟨c, (k : Int)⟩ true
      = if a ≠ [] ∧ a.getLast? ≠ some c then
          some (TUBE_FAILURE, a ++ List.replicate m EMPTY_COLOR_INDEX)
        else if m < k then some (TUBE_FAILURE, a ++ List.replicate m EMPTY_COLOR_INDEX)
        else some (TUBE_SUCCESS,
          a ++ List.replicate k c ++ List.replicate (m - k) EMPTY_COLOR_INDEX) := by
  dsimp only [Tube_push_chunk_aux]
  rw [scan_top_shape a m ha, color_at_top_append]
  have hcol : (a.getLast?.getD EMPTY_COLOR_INDEX ≠ EMPTY_COLOR_INDEX ∧
      c ≠ a.getLast?.getD EMPTY_COLOR_INDEX) ↔ (a ≠ [] ∧ a.getLast? ≠ some c) := by
    rcases List.eq_nil_or_concat a with rfl | ⟨b, x, rfl⟩
    · simp
    · simp only [List.concat_eq_append] at *
      have hx : x ≠ EMPTY_COLOR_INDEX := ha x (by simp)
      have hl : (b ++ [x]).getLast? = some x := by simp
      rw [hl]
      simp only [Option.getD_some]
      constructor
      · rintro ⟨_, h⟩
        exact ⟨by simp, fun h2 => h (by simpa using h2.symm)⟩
      · rintro ⟨_, h⟩
        exact ⟨hx, fun h2 => h (by rw [h2])⟩
  have hcnt : (a ++ List.replicate m EMPTY_COLOR_INDEX).length - a.length = m := by simp
  simp only [hcnt, if_true, true_and, Int.toNat_ofNat, hcol]
  by_cases h1 : a ≠ [] ∧ a.getLast? ≠ some c
  · rw [if_pos h1, if_pos h1]
  · rw [if_neg h1, if_neg h1]
    by_cases h2 : m < k
    · have : (k : Int) > (m : Int) := by exact_mod_cast h2
      rw [if_pos this, if_pos h2]
    · have : ¬ ((k : Int) > (m : Int)) := by intro h; exact h2 (by exact_mod_cast h)
      rw [if_neg this, if_neg h2]
      have hw := write_run_shape c EMPTY_COLOR_INDEX k a m [] (by omega)
      simp only [List.append_nil] at hw
      rw [hw]; rfl

theorem Tube_add_chunk_shape (a : Tube) (m : Nat) (c : Int) (k : Nat) (hk : k ≤ m)
    (ha : ∀ x ∈ a, x ≠ EMPTY_COLOR_INDEX) :
    Tube_add_chunk (a ++ List.replicate m EMPTY_COLOR_INDEX) ⟨c, (k : Int)⟩
      = some (a ++ List.replicate k c ++ List.replicate (m - k) EMPTY_COLOR_INDEX) := by
  dsimp only [Tube_add_chunk, Tube_push_chunk_aux]
  rw [scan_top_shape a m ha]
  have hw := write_run_shape c EMPTY_COLOR_INDEX k a m [] hk
  simp only [List.append_nil] at hw
  simp [hw]

theorem Tube_pop_chunk_shape (b : Tube) (r m : Nat) (c : Int)
    (hb : ∀ x ∈ b, x ≠ EMPTY_COLOR_INDEX) (hc : c ≠ EMPTY_COLOR_INDEX) (hoff : ends_off b c) :
    Tube_pop_chunk (b ++ List.replicate (r + 1) c ++ List.replicate m EMPTY_COLOR_INDEX)
      = some (b ++ List.replicate (r + 1 + m) EMPTY_COLOR_INDEX) := by
  have ha : ∀ x ∈ b ++ List.replicate (r + 1) c, x ≠ EMPTY_COLOR_INDEX := by
    intro x hx
    rcases List.mem_append.1 hx with h | h
    · exact hb x h
    · rw [(List.mem_replicate.1 h).2]; exact hc
  dsimp only [Tube_pop_chunk, Tube_pop_chunk_aux]
  rw [scan_top_shape _ m ha, color_at_top_append]
  have hlast : (b ++ List.replicate (r + 1) c).getLast?.getD EMPTY_COLOR_INDEX = c := by
    simp [List.getLast?_replicate]
  simp only [hlast]
  rw [List.length_append, List.length_replicate, clear_run_shape b c hoff (r + 1)]
  simp [List.replicate_add]

theorem Tube_remove_chunk_shape (a : Tube) (k m : Nat) (c : Int)
    (ha : ∀ x ∈ a, x ≠ EMPTY_COLOR_INDEX) (hc : c ≠ EMPTY_COLOR_INDEX) :
    Tube_remove_chunk (a ++ List.replicate k c ++ List.replicate m EMPTY_COLOR_INDEX)
        ⟨c, (k : Int)⟩
      = some (a ++ List.replicate (k + m) EMPTY_COLOR_INDEX) := by
  have ha2 : ∀ x ∈ a ++ List.replicate k c, x ≠ EMPTY_COLOR_INDEX := by
    intro x hx
    rcases List.mem_append.1 hx with h | h
    · exact ha x h
    · rw [(List.mem_replicate.1 h).2]; exact hc
  dsimp only [Tube_remove_chunk, Tube_pop_chunk_aux]
  rw [scan_top_shape _ m ha2]
  simp only [Int.toNat_ofNat]
  rw [List.length_append, List.length_replicate, remove_run_shape a c k k _ (le_refl _)]
  simp

/-! ## The specification notions on packed tubes -/

theorem open_end_view_shape (a : Tube) (m : Nat) (ha : ∀ x ∈ a, x ≠ EMPTY_COLOR_INDEX) :
    open_end_view (a ++ List.replicate m EMPTY_COLOR_INDEX) = a.reverse := by
  unfold open_end_view
  rw [List.reverse_append, List.reverse_replicate,
    List.dropWhile_append_of_pos (by intro x hx; simp [(List.mem_replicate.1 hx).2])]
  cases h : a.reverse with
  | nil => rfl
  | cons x rest =>
    have hx : x ≠ EMPTY_COLOR_INDEX := ha x (by
      have : x ∈ a.reverse := by rw [h]; simp
      simpa using this)
    rw [List.dropWhile_cons_of_neg (by simpa using hx)]

theorem top_color_shape (a : Tube) (m : Nat) (ha : ∀ x ∈ a, x ≠ EMPTY_COLOR_INDEX) :
    top_color (a ++ List.replicate m EMPTY_COLOR_INDEX) = a.getLast? := by
  unfold top_color
  rw [open_end_view_shape a m ha, List.head?_reverse]

theorem mem_shape (b : Tube) (r : Nat) (c : Int)
    (hb : ∀ x ∈ b, x ≠ EMPTY_COLOR_INDEX) (hc : c ≠ EMPTY_COLOR_INDEX) :
    ∀ x ∈ b ++ List.replicate r c, x ≠ EMPTY_COLOR_INDEX := by
  intro x hx
  rcases List.mem_append.1 hx with h | h
  · exact hb x h
  · rw [(List.mem_replicate.1 h).2]; exact hc

theorem top_chunk_of_shape (b : Tube) (r m : Nat) (c : Int)
    (hb : ∀ x ∈ b, x ≠ EMPTY_COLOR_INDEX) (hc : c ≠ EMPTY_COLOR_INDEX) (hoff : ends_off b c) :
    top_chunk_of (b ++ List.replicate (r + 1) c ++ List.replicate m EMPTY_COLOR_INDEX)
      = ⟨c, ((r + 1 : Nat) : Int)⟩ := by
  have ha := mem_shape b (r + 1) c hb hc
  have htc : top_color (b ++ List.replicate (r + 1) c ++ List.replicate m EMPTY_COLOR_INDEX)
      = some c := by
    rw [top_color_shape _ m ha]; simp [List.getLast?_replicate]
  have hrun : top_run (b ++ List.replicate (r + 1) c ++ List.replicate m EMPTY_COLOR_INDEX)
      = r + 1 := by
    unfold top_run
    rw [htc]
    simp only
    rw [open_end_view_shape _ m ha, List.reverse_append, List.reverse_replicate,
      List.takeWhile_append_of_pos (by intro x hx; simp [(List.mem_replicate.1 hx).2])]
    have : List.takeWhile (fun x => x == c) b.reverse = [] := by
      cases h : b.reverse with
      | nil => rfl
      | cons x rest =>
        have hx : x ≠ c := hoff x (by
          rw [← List.head?_reverse, h]; rfl)
        rw [List.takeWhile_cons_of_neg (by simpa using hx)]
    rw [this]; simp
  unfold top_chunk_of
  rw [htc, hrun]; rfl

theorem top_chunk_of_empty (m : Nat) :
    top_chunk_of (List.replicate m EMPTY_COLOR_INDEX) = ⟨EMPTY_COLOR_INDEX, 0⟩ := by
  have h := top_color_shape [] m (by simp)
  simp only [List.nil_append, List.getLast?_nil] at h
  unfold top_chunk_of top_run
  rw [h]; rfl

theorem empty_slots_shape (a : Tube) (m : Nat) (ha : ∀ x ∈ a, x ≠ EMPTY_COLOR_INDEX) :
    empty_slots (a ++ List.replicate m EMPTY_COLOR_INDEX) = m := by
  unfold empty_slots
  rw [List.count_append, List.count_replicate_self, List.count_eq_zero.2 (fun h => ha _ h rfl)]
  simp

theorem all_empty_shape (a : Tube) (m : Nat) (ha : ∀ x ∈ a, x ≠ EMPTY_COLOR_INDEX) :
    all_empty (a ++ List.replicate m EMPTY_COLOR_INDEX) ↔ a = [] := by
  constructor
  · intro h
    rcases a with _ | ⟨x, a⟩
    · rfl
    · exact absurd (h x (by simp)) (ha x (by simp))
  · rintro rfl x hx
    exact (List.mem_replicate.1 (by simpa using hx)).2

theorem mem_empty_shape (a : Tube) (m : Nat) (ha : ∀ x ∈ a, x ≠ EMPTY_COLOR_INDEX) :
    EMPTY_COLOR_INDEX ∈ a ++ List.replicate m EMPTY_COLOR_INDEX ↔ m ≠ 0 := by
  rw [List.mem_append, List.mem_replicate]
  constructor
  · rintro (h | ⟨h, _⟩)
    · exact absurd rfl (ha _ h)
    · exact h
  · intro h; exact Or.inr ⟨h, rfl⟩

theorem fill_lowest_empty_shape (c : Int) (k m : Nat) (hk : k ≤ m) (a : Tube)
    (ha : ∀ x ∈ a, x ≠ EMPTY_COLOR_INDEX) :
    fill_lowest_empty c k (a ++ List.replicate m EMPTY_COLOR_INDEX)
      = a ++ List.replicate k c ++ List.replicate (m - k) EMPTY_COLOR_INDEX := by
  induction a with
  | nil =>
    induction k generalizing m with
    | zero => simp [fill_lowest_empty]
    | succ k ih =>
      obtain ⟨m1, rfl⟩ : ∃ m1, m = m1 + 1 := ⟨m - 1, by omega⟩
      have := ih m1 (by omega)
      simp only [List.nil_append] at this
      rw [List.nil_append, List.replicate_succ, fill_lowest_empty, if_pos rfl, this]
      simp [List.replicate_succ]
  | cons x a ih =>
    have hx : x ≠ EMPTY_COLOR_INDEX := ha x (by simp)
    have ih1 := ih (fun y hy => ha y (by simp [hy]))
    cases k with
    | zero => simp [fill_lowest_empty]
    | succ k =>
      rw [List.cons_append, fill_lowest_empty, if_neg hx, ih1]
      simp

theorem clear_first_skip (k m : Nat) (t : List Int) :
    clear_first k (List.replicate m EMPTY_COLOR_INDEX ++ t)
      = List.replicate m EMPTY_COLOR_INDEX ++ clear_first k t := by
  induction m with
  | zero => simp
  | succ m ih =>
    cases k with
    | zero => simp [clear_first]
    | succ k =>
      rw [List.replicate_succ, List.cons_append, clear_first, if_pos rfl, ih]
      simp

theorem clear_first_run (k : Nat) (c : Int) (hc : c ≠ EMPTY_COLOR_INDEX) (t : List Int) :
    clear_first k (List.replicate k c ++ t) = List.replicate k EMPTY_COLOR_INDEX ++ t := by
  induction k with
  | zero => simp [clear_first]
  | succ k ih =>
    rw [List.replicate_succ, List.cons_append, clear_first, if_neg hc, ih]
    simp [List.replicate_succ]

theorem clear_outermost_shape (b : Tube) (k m : Nat) (c : Int) (hc : c ≠ EMPTY_COLOR_INDEX) :
    clear_outermost k (b ++ List.replicate k c ++ List.replicate m EMPTY_COLOR_INDEX)
      = b ++ List.replicate (k + m) EMPTY_COLOR_INDEX := by
  unfold clear_outermost
  rw [List.reverse_append, List.reverse_append, List.reverse_replicate, List.reverse_replicate,
    clear_first_skip, clear_first_run k c hc]
  simp

/-! ## Pouring between two packed tubes -/

theorem packed_cases (t : Tube) (h : packed t) :
    (∃ m, t = List.replicate m EMPTY_COLOR_INDEX) ∨
    (∃ (b : Tube) (r m : Nat) (c : Int),
      t = b ++ List.replicate (r + 1) c ++ List.replicate m EMPTY_COLOR_INDEX ∧
      (∀ x ∈ b, x ≠ EMPTY_COLOR_INDEX) ∧ c ≠ EMPTY_COLOR_INDEX ∧ ends_off b c) := by
  obtain ⟨a, m, rfl, ha⟩ := packed_split t h
  by_cases hne : a = []
  · subst hne; exact Or.inl ⟨m, rfl⟩
  · obtain ⟨b, r, c, rfl, hoff⟩ := top_run_split a hne
    refine Or.inr ⟨b, r, m, c, rfl, fun x hx => ha x (by simp [hx]), ?_, hoff⟩
    exact ha c (by simp)

theorem Tube_pour_empty_src (m : Nat) (dst : Tube) :
    Tube_pour (List.replicate m EMPTY_COLOR_INDEX) dst
      = some ⟨TUBE_FAILURE, List.replicate m EMPTY_COLOR_INDEX, dst, none⟩ := by
  have h := Tube_is_empty_shape [] m (by simp)
  simp only [List.nil_append] at h
  simp [Tube_pour, h]

theorem Tube_pour_shape (b : Tube) (r ms : Nat) (c : Int) (a : Tube) (md : Nat)
    (hb : ∀ x ∈ b, x ≠ EMPTY_COLOR_INDEX) (hc : c ≠ EMPTY_COLOR_INDEX) (hoff : ends_off b c)
    (ha : ∀ x ∈ a, x ≠ EMPTY_COLOR_INDEX) :
    Tube_pour (b ++ List.replicate (r + 1) c ++ List.replicate ms EMPTY_COLOR_INDEX)
        (a ++ List.replicate md EMPTY_COLOR_INDEX)
      = if md = 0 ∨ (a ≠ [] ∧ a.getLast? ≠ some c) ∨ md < r + 1 then
          some ⟨TUBE_FAILURE,
            b ++ List.replicate (r + 1) c ++ List.replicate ms EMPTY_COLOR_INDEX,
            a ++ List.replicate md EMPTY_COLOR_INDEX, none⟩
        else
          some ⟨TUBE_SUCCESS, b ++ List.replicate (r + 1 + ms) EMPTY_COLOR_INDEX,
            a ++ List.replicate (r + 1) c ++ List.replicate (md - (r + 1)) EMPTY_COLOR_INDEX,
            some ⟨c, ((r + 1 : Nat) : Int)⟩⟩ := by
  have hsrc := mem_shape b (r + 1) c hb hc
  have he : Tube_is_empty (b ++ List.replicate (r + 1) c ++ List.replicate ms EMPTY_COLOR_INDEX)
      = false := by
    rw [Tube_is_empty_shape _ ms hsrc]; simp
  dsimp only [Tube_pour, Tube_push_chunk]
  rw [he, Tube_is_full_shape a md ha, Tube_get_top_chunk_shape b r ms c hb hc hoff]
  rw [Tube_push_chunk_aux_checked a md c (r + 1) ha, Tube_pop_chunk_shape b r ms c hb hc hoff]
  by_cases h0 : md = 0
  · simp [h0]
  · by_cases h1 : a ≠ [] ∧ a.getLast? ≠ some c
    · simp [h0, h1, TUBE_FAILURE]
    · by_cases h2 : md < r + 1
      · simp [h0, h1, h2, TUBE_FAILURE]
      · simp [h0, h1, h2, TUBE_FAILURE, TUBE_SUCCESS]


theorem Tube_revert_shape (b : Tube) (r ms : Nat) (c : Int) (a : Tube) (md : Nat)
    (hb : ∀ x ∈ b, x ≠ EMPTY_COLOR_INDEX) (hc : c ≠ EMPTY_COLOR_INDEX)
    (ha : ∀ x ∈ a, x ≠ EMPTY_COLOR_INDEX) (hfit : r + 1 ≤ md) :
    Tube_revert (b ++ List.replicate (r + 1 + ms) EMPTY_COLOR_INDEX)
        (a ++ List.replicate (r + 1) c ++ List.replicate (md - (r + 1)) EMPTY_COLOR_INDEX)
        ⟨c, ((r + 1 : Nat) : Int)⟩
      = some (b ++ List.replicate (r + 1) c ++ List.replicate ms EMPTY_COLOR_INDEX,
          a ++ List.replicate md EMPTY_COLOR_INDEX) := by
  unfold Tube_revert
  rw [Tube_remove_chunk_shape a (r + 1) (md - (r + 1)) c ha hc,
    Tube_add_chunk_shape b (r + 1 + ms) c (r + 1) (by omega) hb]
  simp only [Option.some.injEq, Prod.mk.injEq]
  constructor
  · rw [show r + 1 + ms - (r + 1) = ms by omega]
  · rw [show r + 1 + (md - (r + 1)) = md by omega]

theorem Tube_push_chunk_aux_failure (t : Tube) (chunk : ColorChunk) (check : Bool)
    (ret : Int) (t1 : Tube) (h : Tube_push_chunk_aux t chunk check = some (ret, t1))
    (hf : ret ≠ TUBE_SUCCESS) : t1 = t := by
  dsimp only [Tube_push_chunk_aux] at h
  split_ifs at h <;>
    first
    | (simp only [Option.some.injEq, Prod.mk.injEq] at h; exact h.2.symm)
    | (simp only [Option.map_eq_some', Prod.mk.injEq] at h
       obtain ⟨_, _, h1, _⟩ := h
       exact absurd h1.symm hf)

theorem scan_top_le (t : Tube) (i : Nat) : scan_top t i ≤ i := by
  induction i with
  | zero => simp [scan_top]
  | succ i ih =>
    simp only [scan_top]
    split_ifs
    · exact le_refl _
    · omega

theorem write_run_isSome (c : Int) (n : Nat) :
    ∀ (i : Nat) (t : Tube), i + n ≤ t.length → (write_run c n i t).isSome = true := by
  induction n with
  | zero => intro i t _; simp [write_run]
  | succ n ih =>
    intro i t h
    simp only [write_run]
    rw [if_pos (by omega)]
    exact ih (i + 1) _ (by simp; omega)

/-- `Tube_pour` on two different tubes never leaves an array, whatever the
tubes hold. -/
theorem Tube_pour_defined (src dst : Tube) : ∃ r, Tube_pour src dst = some r := by
  dsimp only [Tube_pour]
  split_ifs with h0
  · exact ⟨_, rfl⟩
  · have hpush : ∃ p, Tube_push_chunk dst (Tube_get_top_chunk src) = some p := by
      dsimp only [Tube_push_chunk, Tube_push_chunk_aux]
      simp only [if_true, true_and]
      split_ifs with h1 h2
      · exact ⟨_, rfl⟩
      · exact ⟨_, rfl⟩
      · have hle := scan_top_le dst dst.length
        have hw := write_run_isSome (Tube_get_top_chunk src).color
          (Tube_get_top_chunk src).count.toNat (scan_top dst dst.length) dst (by
            simp only [gt_iff_lt, not_lt] at h2
            omega)
        obtain ⟨t, ht⟩ := Option.isSome_iff_exists.1 hw
        exact ⟨_, by rw [ht]; rfl⟩
    obtain ⟨⟨ret, dst1⟩, hp⟩ := hpush
    rw [hp]
    simp only
    split_ifs
    · exact ⟨_, rfl⟩
    · simp [Tube_pop_chunk, Tube_pop_chunk_aux]

theorem failure_ne_success : TUBE_FAILURE ≠ TUBE_SUCCESS := by decide

/-! ## Claims on `Tube_pour` and `Tube_revert` -/

/-- C1 (pour legality).  On two different packed tubes `Tube_pour` returns,
its code is success or failure, and it is success exactly when the source is
not empty, the destination has an empty slot, the destination is empty or
its outermost non-empty slot has the colour of the source's top chunk, and
the length of that chunk is at most the number of empty slots of the
destination. -/
theorem Tube_pour_legality (src dst : Tube) (hs : packed src) (hd : packed dst) :
    ∃ r, Tube_pour src dst = some r ∧
      (r.ret = TUBE_SUCCESS ∨ r.ret = TUBE_FAILURE) ∧
      (r.ret = TUBE_SUCCESS ↔
        (¬ all_empty src ∧ EMPTY_COLOR_INDEX ∈ dst ∧
          (all_empty dst ∨ top_color dst = some (top_chunk_of src).color) ∧
          (top_chunk_of src).count ≤ (empty_slots dst : Int))) := by
  obtain ⟨a, md, rfl, ha⟩ := packed_split dst hd
  rcases packed_cases src hs with ⟨m, rfl⟩ | ⟨b, r, ms, c, rfl, hb, hc, hoff⟩
  · refine ⟨_, Tube_pour_empty_src m _, Or.inr rfl, ?_⟩
    have he : all_empty (List.replicate m EMPTY_COLOR_INDEX) := by
      intro x hx; exact (List.mem_replicate.1 hx).2
    constructor
    · intro h; exact absurd h failure_ne_success
    · intro h; exact absurd he h.1
  · have hsrc := mem_shape b (r + 1) c hb hc
    rw [Tube_pour_shape b r ms c a md hb hc hoff ha, top_chunk_of_shape b r ms c hb hc hoff,
      top_color_shape a md ha, empty_slots_shape a md ha, mem_empty_shape a md ha,
      all_empty_shape a md ha, all_empty_shape _ ms hsrc]
    by_cases hfail : md = 0 ∨ (a ≠ [] ∧ a.getLast? ≠ some c) ∨ md < r + 1
    · rw [if_pos hfail]
      refine ⟨_, rfl, Or.inr rfl, ?_⟩
      constructor
      · intro h; exact absurd h failure_ne_success
      · rintro ⟨_, h0, h1, h2⟩
        exfalso
        have h2n : r + 1 ≤ md := by
          have h2c : ((r + 1 : Nat) : Int) ≤ (md : Int) := h2
          exact_mod_cast h2c
        rcases hfail with h | ⟨h3, h4⟩ | h
        · exact h0 h
        · rcases h1 with h1 | h1
          · exact h3 h1
          · exact h4 h1
        · omega
    · rw [if_neg hfail]
      refine ⟨_, rfl, Or.inl rfl, ?_⟩
      simp only [true_iff]
      push_neg at hfail
      obtain ⟨h0, h1, h2⟩ := hfail
      refine ⟨by simp, h0, ?_, ?_⟩
      swap
      · show ((r + 1 : Nat) : Int) ≤ (md : Int)
        exact_mod_cast h2
      by_cases hnil : a = []
      · exact Or.inl hnil
      · exact Or.inr (h1 hnil)

theorem Tube_pour_legality_witness :
    packed [0, 1, 1] ∧ packed [1, -1, -1] ∧
    ∃ r, Tube_pour [0, 1, 1] [1, -1, -1] = some r ∧
      (r.ret = TUBE_SUCCESS ∨ r.ret = TUBE_FAILURE) ∧
      (r.ret = TUBE_SUCCESS ↔
        (¬ all_empty [0, 1, 1] ∧ EMPTY_COLOR_INDEX ∈ ([1, -1, -1] : Tube) ∧
          (all_empty [1, -1, -1] ∨ top_color [1, -1, -1] = some (top_chunk_of [0, 1, 1]).color) ∧
          (top_chunk_of [0, 1, 1]).count ≤ (empty_slots [1, -1, -1] : Int))) :=
  ⟨by decide, by decide, Tube_pour_legality [0, 1, 1] [1, -1, -1] (by decide) (by decide)⟩

/-- What a successful pour between two different packed tubes does, in terms
of the shapes of the two tubes. -/
theorem Tube_pour_success_shape (src dst : Tube) (hs : packed src) (hd : packed dst)
    (res : PourResult) (h : Tube_pour src dst = some res) (hok : res.ret = TUBE_SUCCESS) :
    ∃ (b : Tube) (r ms : Nat) (c : Int) (a : Tube) (md : Nat),
      src = b ++ List.replicate (r + 1) c ++ List.replicate ms EMPTY_COLOR_INDEX ∧
      dst = a ++ List.replicate md EMPTY_COLOR_INDEX ∧
      (∀ x ∈ b, x ≠ EMPTY_COLOR_INDEX) ∧ c ≠ EMPTY_COLOR_INDEX ∧ ends_off b c ∧
      (∀ x ∈ a, x ≠ EMPTY_COLOR_INDEX) ∧ r + 1 ≤ md ∧ (a = [] ∨ a.getLast? = some c) ∧
      res = ⟨TUBE_SUCCESS, b ++ List.replicate (r + 1 + ms) EMPTY_COLOR_INDEX,
        a ++ List.replicate (r + 1) c ++ List.replicate (md - (r + 1)) EMPTY_COLOR_INDEX,
        some ⟨c, ((r + 1 : Nat) : Int)⟩⟩ := by
  obtain ⟨a, md, rfl, ha⟩ := packed_split dst hd
  rcases packed_cases src hs with ⟨m, rfl⟩ | ⟨b, r, ms, c, rfl, hb, hc, hoff⟩
  · rw [Tube_pour_empty_src] at h
    simp only [Option.some.injEq] at h
    rw [← h] at hok
    exact absurd hok failure_ne_success
  · rw [Tube_pour_shape b r ms c a md hb hc hoff ha] at h
    by_cases hfail : md = 0 ∨ (a ≠ [] ∧ a.getLast? ≠ some c) ∨ md < r + 1
    · rw [if_pos hfail] at h
      simp only [Option.some.injEq] at h
      rw [← h] at hok
      exact absurd hok failure_ne_success
    · rw [if_neg hfail] at h
      simp only [Option.some.injEq] at h
      push_neg at hfail
      refine ⟨b, r, ms, c, a, md, rfl, rfl, hb, hc, hoff, ha, hfail.2.2, ?_, h.symm⟩
      by_cases hnil : a = []
      · exact Or.inl hnil
      · exact Or.inr (hfail.2.1 hnil)

/-- C2 (pour/revert round trip).  After a successful `Tube_pour` between two
different packed tubes, `Tube_revert` with the chunk the pour returned gives
back exactly the two slot sequences from before the pour. -/
theorem Tube_pour_revert_roundtrip (src dst : Tube) (hs : packed src) (hd : packed dst)
    (res : PourResult) (chunk : ColorChunk) (h : Tube_pour src dst = some res)
    (hok : res.ret = TUBE_SUCCESS) (hchunk : res.chunk = some chunk) :
    Tube_revert res.src res.dst chunk = some (src, dst) := by
  obtain ⟨b, r, ms, c, a, md, rfl, rfl, hb, hc, _, ha, hfit, _, rfl⟩ :=
    Tube_pour_success_shape src dst hs hd res h hok
  simp only [Option.some.injEq] at hchunk
  subst hchunk
  exact Tube_revert_shape b r ms c a md hb hc ha hfit

theorem Tube_pour_revert_roundtrip_witness :
    packed [0, 1, 1] ∧ packed [1, -1, -1] ∧
    Tube_pour [0, 1, 1] [1, -1, -1] = some ⟨TUBE_SUCCESS, [0, -1, -1], [1, 1, 1], some ⟨1, 2⟩⟩ ∧
    Tube_revert [0, -1, -1] [1, 1, 1] ⟨1, 2⟩ = some ([0, 1, 1], [1, -1, -1]) :=
  ⟨by decide, by decide, by decide,
    Tube_pour_revert_roundtrip [0, 1, 1] [1, -1, -1] (by decide) (by decide)
      ⟨TUBE_SUCCESS, [0, -1, -1], [1, 1, 1], some ⟨1, 2⟩⟩ ⟨1, 2⟩ (by decide) rfl rfl⟩

theorem Tube_pour_failure_unchanged (src dst : Tube) (res : PourResult)
    (h : Tube_pour src dst = some res) (hf : res.ret ≠ TUBE_SUCCESS) :
    res.src = src ∧ res.dst = dst ∧ res.chunk = none := by
  dsimp only [Tube_pour] at h
  split_ifs at h with h0
  · simp only [Option.some.injEq] at h; subst h; exact ⟨rfl, rfl, rfl⟩
  · cases hp : Tube_push_chunk dst (Tube_get_top_chunk src) with
    | none => rw [hp] at h; exact absurd h (by simp)
    | some p =>
      obtain ⟨ret, dst1⟩ := p
      rw [hp] at h
      simp only at h
      split_ifs at h with h1
      · simp only [Option.some.injEq] at h; subst h
        exact ⟨rfl, Tube_push_chunk_aux_failure dst _ true ret dst1 hp
          (by rw [h1]; exact failure_ne_success), rfl⟩
      · cases hq : Tube_pop_chunk src with
        | none => rw [hq] at h; exact absurd h (by simp)
        | some src1 =>
          rw [hq] at h
          simp only [Option.some.injEq] at h; subst h
          exact absurd rfl hf

theorem Tube_pour_same_failure_unchanged (tube : Tube) (res : PourResult)
    (h : Tube_pour_same tube = some res) (hf : res.ret ≠ TUBE_SUCCESS) :
    res.src = tube ∧ res.dst = tube ∧ res.chunk = none := by
  dsimp only [Tube_pour_same] at h
  split_ifs at h with h0
  · simp only [Option.some.injEq] at h; subst h; exact ⟨rfl, rfl, rfl⟩
  · cases hp : Tube_push_chunk tube (Tube_get_top_chunk tube) with
    | none => rw [hp] at h; exact absurd h (by simp)
    | some p =>
      obtain ⟨ret, t1⟩ := p
      rw [hp] at h
      simp only at h
      split_ifs at h with h1
      · simp only [Option.some.injEq] at h; subst h
        have := Tube_push_chunk_aux_failure tube _ true ret t1 hp
          (by rw [h1]; exact failure_ne_success)
        exact ⟨this, this, rfl⟩
      · cases hq : Tube_pop_chunk t1 with
        | none => rw [hq] at h; exact absurd h (by simp)
        | some t2 =>
          rw [hq] at h
          simp only [Option.some.injEq] at h; subst h
          exact absurd rfl hf

/-- C3 (pour atomicity).  Whatever the two tubes hold, and also when both
arguments are one and the same tube, a call of `Tube_pour` that does not
return success leaves the slots of both tubes as they were and writes no
chunk. -/
theorem Tube_pour_failure_atomic (src dst : Tube) (res : PourResult)
    (h : Tube_pour src dst = some res ∨ (dst = src ∧ Tube_pour_same src = some res))
    (hf : res.ret ≠ TUBE_SUCCESS) :
    res.src = src ∧ res.dst = dst ∧ res.chunk = none := by
  rcases h with h | ⟨hsame, h⟩
  · exact Tube_pour_failure_unchanged src dst res h hf
  · rw [hsame]
    exact Tube_pour_same_failure_unchanged src res h hf

theorem Tube_pour_failure_atomic_witness :
    Tube_pour [0, -1, 1] [0, 0, -1] = some ⟨TUBE_FAILURE, [0, -1, 1], [0, 0, -1], none⟩ ∧
    (([0, -1, 1] : Tube) = [0, -1, 1] ∧ ([0, 0, -1] : Tube) = [0, 0, -1] ∧
      (none : Option ColorChunk) = none) :=
  ⟨by decide,
    Tube_pour_failure_atomic [0, -1, 1] [0, 0, -1] ⟨TUBE_FAILURE, [0, -1, 1], [0, 0, -1], none⟩
      (Or.inl (by decide)) (by decide)⟩

theorem slot_color_three (a : Tube) (n m : Nat) (x : Int) (i : Nat) :
    slot_color (a ++ List.replicate n x ++ List.replicate m EMPTY_COLOR_INDEX) i
      = if i < a.length then slot_color a i
        else if i < a.length + n then x else EMPTY_COLOR_INDEX := by
  by_cases h1 : i < a.length
  · rw [if_pos h1, List.append_assoc, slot_color_append_left _ _ _ h1]
  · rw [if_neg h1]
    obtain ⟨j, rfl⟩ : ∃ j, i = a.length + j := ⟨i - a.length, by omega⟩
    rw [List.append_assoc, slot_color_append_right]
    by_cases h2 : j < n
    · rw [if_pos (by omega), slot_color_append_left _ _ _ (by simpa using h2),
        slot_color_replicate _ _ _ h2]
    · rw [if_neg (by omega)]
      obtain ⟨k, rfl⟩ : ∃ k, j = n + k := ⟨j - n, by omega⟩
      have := slot_color_append_right (List.replicate n x) (List.replicate m EMPTY_COLOR_INDEX) k
      rw [List.length_replicate] at this
      rw [this]
      unfold slot_color
      by_cases h3 : k < m
      · simp [List.getElem?_replicate, h3]
      · simp [List.getElem?_replicate, h3]

theorem slot_color_two (a : Tube) (m : Nat) (i : Nat) :
    slot_color (a ++ List.replicate m EMPTY_COLOR_INDEX) i
      = if i < a.length then slot_color a i else EMPTY_COLOR_INDEX := by
  have := slot_color_three a 0 m EMPTY_COLOR_INDEX i
  simp only [List.replicate_zero, List.append_nil, Nat.add_zero] at this
  rw [this]
  split_ifs <;> rfl

/-- C4 (effect of a successful pour).  After a successful `Tube_pour` between
two different packed tubes the chunk written is the top chunk `(c, k)` the
source had, with `c` not empty and `k >= 1`; the destination is its old
content with `c` written into its `k` lowest-index empty slots, the source
is its old content with its `k` outermost non-empty slots emptied, both
tubes keep their length, and a slot that changed was an empty slot of the
destination that now holds `c`, or a slot of the source that held `c` and is
now empty. -/
theorem Tube_pour_success_effect (src dst : Tube) (hs : packed src) (hd : packed dst)
    (res : PourResult) (h : Tube_pour src dst = some res) (hok : res.ret = TUBE_SUCCESS) :
    ∃ (c : Int) (k : Nat),
      res.chunk = some ⟨c, (k : Int)⟩ ∧
      top_chunk_of src = ⟨c, (k : Int)⟩ ∧ Tube_get_top_chunk src = ⟨c, (k : Int)⟩ ∧
      c ≠ EMPTY_COLOR_INDEX ∧ 1 ≤ k ∧
      res.dst = fill_lowest_empty c k dst ∧
      res.src = clear_outermost k src ∧
      res.dst.length = dst.length ∧ res.src.length = src.length ∧
      (∀ i : Nat, slot_color res.dst i ≠ slot_color dst i →
        slot_color dst i = EMPTY_COLOR_INDEX ∧ slot_color res.dst i = c) ∧
      (∀ i : Nat, slot_color res.src i ≠ slot_color src i →
        slot_color src i = c ∧ slot_color res.src i = EMPTY_COLOR_INDEX) := by
  obtain ⟨b, r, ms, c, a, md, rfl, rfl, hb, hc, hoff, ha, hfit, _, rfl⟩ :=
    Tube_pour_success_shape src dst hs hd res h hok
  refine ⟨c, r + 1, rfl, top_chunk_of_shape b r ms c hb hc hoff,
    Tube_get_top_chunk_shape b r ms c hb hc hoff, hc, by omega, ?_, ?_, ?_, ?_, ?_, ?_⟩
  · exact (fill_lowest_empty_shape c (r + 1) md hfit a ha).symm
  · exact (clear_outermost_shape b (r + 1) ms c hc).symm
  · simp only [List.length_append, List.length_replicate]; omega
  · simp only [List.length_append, List.length_replicate]; omega
  · intro i hne
    simp only at hne ⊢
    rw [slot_color_three, slot_color_two] at hne
    rw [slot_color_three, slot_color_two]
    split_ifs at hne ⊢ with h1 h2
    · exact absurd rfl hne
    · exact ⟨rfl, rfl⟩
    · exact absurd rfl hne
  · intro i hne
    simp only at hne ⊢
    rw [slot_color_three, slot_color_two] at hne
    rw [slot_color_three, slot_color_two]
    split_ifs at hne ⊢ with h1 h2
    · exact absurd rfl hne
    · exact ⟨rfl, rfl⟩
    · exact absurd rfl hne

theorem Tube_pour_success_effect_witness :
    packed [0, 0] ∧ packed [-1, -1] ∧
    Tube_pour [0, 0] [-1, -1] = some ⟨TUBE_SUCCESS, [-1, -1], [0, 0], some ⟨0, 2⟩⟩ ∧
    ∃ (c : Int) (k : Nat),
      (some ⟨0, 2⟩ : Option ColorChunk) = some ⟨c, (k : Int)⟩ ∧
      top_chunk_of [0, 0] = ⟨c, (k : Int)⟩ ∧ Tube_get_top_chunk [0, 0] = ⟨c, (k : Int)⟩ ∧
      c ≠ EMPTY_COLOR_INDEX ∧ 1 ≤ k ∧
      ([0, 0] : Tube) = fill_lowest_empty c k [-1, -1] ∧
      ([-1, -1] : Tube) = clear_outermost k [0, 0] ∧
      ([0, 0] : Tube).length = ([-1, -1] : Tube).length ∧
      ([-1, -1] : Tube).length = ([0, 0] : Tube).length ∧
      (∀ i : Nat, slot_color [0, 0] i ≠ slot_color [-1, -1] i →
        slot_color [-1, -1] i = EMPTY_COLOR_INDEX ∧ slot_color [0, 0] i = c) ∧
      (∀ i : Nat, slot_color [-1, -1] i ≠ slot_color [0, 0] i →
        slot_color [0, 0] i = c ∧ slot_color [-1, -1] i = EMPTY_COLOR_INDEX) :=
  ⟨by decide, by decide, by decide,
    Tube_pour_success_effect [0, 0] [-1, -1] (by decide) (by decide)
      ⟨TUBE_SUCCESS, [-1, -1], [0, 0], some ⟨0, 2⟩⟩ (by decide) rfl⟩

/-! ## The action log -/

theorem ActionLog_create_wf : ActionLog_create.wf := by decide

theorem ActionLog_create_entries : ActionLog_create.entries = [] := by
  simp [ActionLog.entries, ActionLog_create]

theorem take_succ_set {α : Type} (l : List α) (i : Nat) (a : α) (h : i < l.length) :
    (l.set i a).take (i + 1) = l.take i ++ [a] := by
  induction l generalizing i with
  | nil => simp at h
  | cons x l ih =>
    cases i with
    | zero => simp
    | succ i =>
      simp only [List.set_cons_succ, List.take_succ_cons, List.cons_append, List.cons.injEq,
        true_and]
      exact ih i (by simpa using h)

theorem ActionLog_push_back_some (log log1 : ActionLog) (a : Action)
    (h : ActionLog_push_back log a = some log1) :
    log1.entries = log.entries ++ [a] ∧ log1.wf ∧ log1.counter = log.counter + 1 := by
  dsimp only [ActionLog_push_back, ActionLog.capacity] at h
  by_cases hc : log.counter = log.actions.length
  · rw [if_pos hc] at h
    split_ifs at h with h1
    simp only [Option.some.injEq] at h
    subst h
    refine ⟨?_, ⟨?_, ?_⟩, rfl⟩
    · simp only [ActionLog.entries]
      rw [take_succ_set _ _ _ h1, hc, List.take_left', List.take_length]
      rfl
    · simp only [List.length_set]; omega
    · simp only [List.length_set]; omega
  · rw [if_neg hc] at h
    split_ifs at h with h1
    simp only [Option.some.injEq] at h
    subst h
    refine ⟨?_, ⟨?_, ?_⟩, rfl⟩
    · simp only [ActionLog.entries]
      rw [take_succ_set _ _ _ h1]
    · simp only [List.length_set]; omega
    · simp only [List.length_set]; omega

theorem ActionLog_push_back_wf (log : ActionLog) (a : Action) (h : log.wf) :
    ∃ log1, ActionLog_push_back log a = some log1 := by
  dsimp only [ActionLog_push_back, ActionLog.capacity]
  obtain ⟨h1, h2⟩ := h
  by_cases hc : log.counter = log.actions.length
  · rw [if_pos hc, if_pos (by simp; omega)]
    exact ⟨_, rfl⟩
  · rw [if_neg hc, if_pos (by omega)]
    exact ⟨_, rfl⟩


theorem take_pred_append {α : Type} (l : List α) (n : Nat) (a : α) (hn : 0 < n)
    (h : l[n - 1]? = some a) : l.take n = l.take (n - 1) ++ [a] := by
  obtain ⟨m, rfl⟩ : ∃ m, n = m + 1 := ⟨n - 1, by omega⟩
  simp only [Nat.add_sub_cancel] at h ⊢
  rw [List.take_succ, h]
  rfl

theorem ActionLog_pop_some (log log1 : ActionLog) (ret : Int) (w : Option Action)
    (h : ActionLog_pop log = some (ret, log1, w)) :
    (ret = TUBE_FAILURE ∧ log1 = log ∧ w = none ∧ log.entries = []) ∨
    (ret = TUBE_SUCCESS ∧ ∃ a, w = some a ∧ log.entries = log1.entries ++ [a] ∧
      log1.counter + 1 = log.counter ∧ log1.actions = log.actions) := by
  dsimp only [ActionLog_pop] at h
  split_ifs at h with h0
  · simp only [Option.some.injEq, Prod.mk.injEq] at h
    obtain ⟨rfl, rfl, rfl⟩ := h
    exact Or.inl ⟨rfl, rfl, rfl, by simp [ActionLog.entries, h0]⟩
  · cases hget : log.actions[log.counter - 1]? with
    | none => rw [hget] at h; exact absurd h (by simp)
    | some a =>
      rw [hget] at h
      simp only [Option.some.injEq, Prod.mk.injEq] at h
      obtain ⟨rfl, rfl, rfl⟩ := h
      refine Or.inr ⟨rfl, a, rfl, ?_, by simp only; omega, rfl⟩
      exact take_pred_append _ _ _ (by omega) hget

theorem ActionLog_pop_wf (log : ActionLog) (h : log.wf) :
    ∃ ret log1 w, ActionLog_pop log = some (ret, log1, w) ∧ log1.wf := by
  dsimp only [ActionLog_pop]
  split_ifs with h0
  · exact ⟨_, _, _, rfl, h⟩
  · obtain ⟨h1, h2⟩ := h
    have hlt : log.counter - 1 < log.actions.length := by omega
    rw [List.getElem?_eq_getElem hlt]
    exact ⟨_, _, _, rfl, by constructor <;> simp only <;> omega⟩

theorem ActionLog_entries_length (log : ActionLog) (h : log.wf) :
    log.entries.length = log.counter := by
  simp only [ActionLog.entries, List.length_take]
  exact Nat.min_eq_left h.1

/-! ## Tubes of a board -/

theorem set_of_getElem? {α : Type} (l : List α) (i : Nat) (x : α) (h : l[i]? = some x) :
    l.set i x = l := by
  induction l generalizing i with
  | nil => rfl
  | cons y l ih =>
    cases i with
    | zero => simp at h; simp [h]
    | succ i => simp at h; simp [ih i h]

theorem set_set_restore {α : Type} (l : List α) (i j : Nat) (a b x y : α) (hij : i ≠ j)
    (hi : l[i]? = some x) (hj : l[j]? = some y) :
    (((l.set i a).set j b).set i x).set j y = l := by
  rw [List.set_comm a b l hij, List.set_set, List.set_comm b x l (Ne.symm hij), List.set_set,
    set_of_getElem? l i x hi, set_of_getElem? l j y hj]

theorem tube_at_some (info : GameInfo) (i : Int) (t : Tube) (h : info.tube_at i = some t) :
    0 ≤ i ∧ info.tubes[i.toNat]? = some t := by
  unfold GameInfo.tube_at at h
  split_ifs at h with h0
  exact ⟨by omega, h⟩

theorem tube_at_of_range (info : GameInfo) (i : Int) (h0 : 0 ≤ i) (h1 : i < info.num_tubes) :
    ∃ t, info.tube_at i = some t := by
  unfold GameInfo.tube_at
  rw [if_neg (by omega)]
  have : i.toNat < info.tubes.length := by
    unfold GameInfo.num_tubes at h1; omega
  exact ⟨_, List.getElem?_eq_getElem this⟩

theorem tube_at_mem (info : GameInfo) (i : Int) (t : Tube) (h : info.tube_at i = some t) :
    t ∈ info.tubes :=
  List.getElem?_mem (tube_at_some info i t h).2

theorem set_tube_self (info : GameInfo) (i : Int) (t : Tube) (h : info.tube_at i = some t) :
    info.set_tube i t = info := by
  cases info with
  | mk ne tubes seed =>
    simp only [GameInfo.set_tube, GameInfo.mk.injEq, true_and]
    exact ⟨set_of_getElem? tubes _ t (tube_at_some _ i t h).2, trivial⟩

theorem board_packed_set (info : GameInfo) (i : Int) (t : Tube) (hp : board_packed info)
    (ht : packed t) : board_packed (info.set_tube i t) := by
  intro u hu
  rcases List.mem_or_eq_of_mem_set hu with h | h
  · exact hp u h
  · rw [h]; exact ht

theorem num_tubes_set_tube (info : GameInfo) (i : Int) (t : Tube) :
    (info.set_tube i t).num_tubes = info.num_tubes := by
  simp [GameInfo.set_tube, GameInfo.num_tubes]

theorem tube_at_set_tube_ne (info : GameInfo) (i j : Int) (t : Tube) (hi : 0 ≤ i) (hj : 0 ≤ j)
    (hij : i ≠ j) : (info.set_tube i t).tube_at j = info.tube_at j := by
  unfold GameInfo.tube_at GameInfo.set_tube
  split_ifs
  · rfl
  · exact List.getElem?_set_ne (by omega)

theorem tube_at_set_tube_self (info : GameInfo) (i : Int) (t u : Tube)
    (h : info.tube_at i = some u) : (info.set_tube i t).tube_at i = some t := by
  have h1 := tube_at_some info i u h
  unfold GameInfo.tube_at GameInfo.set_tube
  rw [if_neg (by omega)]
  have hlt : i.toNat < info.tubes.length := by
    by_contra hge
    rw [List.getElem?_eq_none (by omega)] at h1
    exact absurd h1.2 (by simp)
  exact List.getElem?_set_self hlt

theorem set_tube_restore (info : GameInfo) (i j : Int) (a b x y : Tube) (hij : i ≠ j)
    (hi : info.tube_at i = some x) (hj : info.tube_at j = some y) :
    (((info.set_tube i a).set_tube j b).set_tube i x).set_tube j y = info := by
  have h1 := tube_at_some info i x hi
  have h2 := tube_at_some info j y hj
  cases info with
  | mk ne tubes seed =>
    simp only [GameInfo.set_tube, GameInfo.mk.injEq, true_and, and_true]
    exact set_set_restore tubes _ _ a b x y (by omega) h1.2 h2.2

/-! ## Pouring and reverting on a board -/

theorem Tube_pour_packed (src dst : Tube) (hs : packed src) (hd : packed dst)
    (res : PourResult) (h : Tube_pour src dst = some res) :
    packed res.src ∧ packed res.dst := by
  by_cases hok : res.ret = TUBE_SUCCESS
  · obtain ⟨b, r, ms, c, a, md, rfl, rfl, hb, hc, _, ha, hfit, _, rfl⟩ :=
      Tube_pour_success_shape src dst hs hd res h hok
    exact ⟨packed_of_split b _ hb, packed_of_split _ _ (mem_shape a (r + 1) c ha hc)⟩
  · obtain ⟨h1, h2, _⟩ := Tube_pour_failure_unchanged src dst res h hok
    rw [h1, h2]; exact ⟨hs, hd⟩

theorem GameInfo_pour_tubes_failure (info info1 : GameInfo) (i j : Int) (res : PourResult)
    (h : GameInfo_pour_tubes info i j = some (res, info1)) (hf : res.ret ≠ TUBE_SUCCESS) :
    info1 = info := by
  unfold GameInfo_pour_tubes at h
  cases hi : info.tube_at i with
  | none => rw [hi] at h; simp at h
  | some src =>
    cases hj : info.tube_at j with
    | none => rw [hi, hj] at h; simp at h
    | some dst =>
      rw [hi, hj] at h
      simp only at h
      split_ifs at h with hij
      · simp only [Option.map_eq_some', Prod.mk.injEq] at h
        obtain ⟨r, hr, rfl, rfl⟩ := h
        have := Tube_pour_same_failure_unchanged src r hr hf
        rw [this.1]
        exact set_tube_self info i src hi
      · simp only [Option.map_eq_some', Prod.mk.injEq] at h
        obtain ⟨r, hr, rfl, rfl⟩ := h
        have := Tube_pour_failure_unchanged src dst r hr hf
        rw [this.1, this.2.1, set_tube_self info i src hi]
        exact set_tube_self info j dst hj

theorem GameInfo_pour_tubes_success (info info1 : GameInfo) (i j : Int) (res : PourResult)
    (hp : board_packed info) (hij : i ≠ j)
    (h : GameInfo_pour_tubes info i j = some (res, info1)) (hok : res.ret = TUBE_SUCCESS) :
    ∃ c, res.chunk = some c ∧ GameInfo_revert_tubes info1 ⟨i, j, c⟩ = some info ∧
      board_packed info1 ∧ info1.num_tubes = info.num_tubes := by
  unfold GameInfo_pour_tubes at h
  cases hi : info.tube_at i with
  | none => rw [hi] at h; simp at h
  | some src =>
    cases hj : info.tube_at j with
    | none => rw [hi, hj] at h; simp at h
    | some dst =>
      rw [hi, hj] at h
      simp only at h
      rw [if_neg hij] at h
      simp only [Option.map_eq_some', Prod.mk.injEq] at h
      obtain ⟨r, hr, rfl, rfl⟩ := h
      have hs := hp src (tube_at_mem info i src hi)
      have hd := hp dst (tube_at_mem info j dst hj)
      have hpk := Tube_pour_packed src dst hs hd r hr
      obtain ⟨b, r0, ms, c, a, md, hsrc, hdst, hb, hc, _, ha, hfit, _, hres⟩ :=
        Tube_pour_success_shape src dst hs hd r hr hok
      have hchunk : r.chunk = some ⟨c, ((r0 + 1 : Nat) : Int)⟩ := by rw [hres]
      have hrt : Tube_revert r.src r.dst ⟨c, ((r0 + 1 : Nat) : Int)⟩ = some (src, dst) := by
        rw [hres, hsrc, hdst]
        exact Tube_revert_shape b r0 ms c a md hb hc ha hfit
      have hi0 := (tube_at_some info i src hi).1
      have hj0 := (tube_at_some info j dst hj).1
      refine ⟨_, hchunk, ?_, ?_, ?_⟩
      · unfold GameInfo_revert_tubes
        simp only
        have e1 : ((info.set_tube i r.src).set_tube j r.dst).tube_at i = some r.src := by
          rw [tube_at_set_tube_ne _ j i _ hj0 hi0 (Ne.symm hij)]
          exact tube_at_set_tube_self info i _ src hi
        have e2 : ((info.set_tube i r.src).set_tube j r.dst).tube_at j = some r.dst := by
          apply tube_at_set_tube_self _ j _ dst
          rw [tube_at_set_tube_ne _ i j _ hi0 hj0 hij]
          exact hj
        rw [e1, e2]
        simp only
        rw [if_neg hij, hrt]
        simp only [Option.map_some']
        rw [set_tube_restore info i j _ _ src dst hij hi hj]
      · exact board_packed_set _ _ _ (board_packed_set _ _ _ hp hpk.1) hpk.2
      · rw [num_tubes_set_tube, num_tubes_set_tube]

theorem GameInfo_pour_failure (info info1 : GameInfo) (i j : Int) (log log1 : ActionLog)
    (ret : Int) (h : GameInfo_pour info i j log = some (ret, info1, log1))
    (hf : ret ≠ TUBE_SUCCESS) : info1 = info ∧ log1 = log := by
  unfold GameInfo_pour at h
  split_ifs at h with h0
  · simp only [Option.some.injEq, Prod.mk.injEq] at h
    exact ⟨h.2.1.symm, h.2.2.symm⟩
  · cases hp : GameInfo_pour_tubes info i j with
    | none => rw [hp] at h; simp at h
    | some p =>
      obtain ⟨r, i1⟩ := p
      rw [hp] at h
      simp only at h
      split_ifs at h with h1
      · simp only [Option.some.injEq, Prod.mk.injEq] at h
        obtain ⟨_, rfl, rfl⟩ := h
        exact ⟨GameInfo_pour_tubes_failure info _ i j r hp h1, rfl⟩
      · cases hq : ActionLog_push_back log
            ⟨i, j, r.chunk.getD blank_action.chunk⟩ with
        | none => rw [hq] at h; simp at h
        | some l1 =>
          rw [hq] at h
          simp only [Option.some.injEq, Prod.mk.injEq] at h
          exact absurd h.1.symm hf

theorem GameInfo_pour_ret (info info1 : GameInfo) (i j : Int) (log log1 : ActionLog)
    (ret : Int) (h : GameInfo_pour info i j log = some (ret, info1, log1)) :
    ret = TUBE_SUCCESS ∨ ret = TUBE_FAILURE := by
  unfold GameInfo_pour at h
  split_ifs at h with h0
  · simp only [Option.some.injEq, Prod.mk.injEq] at h
    exact Or.inr h.1.symm
  · cases hp : GameInfo_pour_tubes info i j with
    | none => rw [hp] at h; simp at h
    | some p =>
      obtain ⟨r, i1⟩ := p
      rw [hp] at h
      simp only at h
      split_ifs at h with h1
      · simp only [Option.some.injEq, Prod.mk.injEq] at h
        exact Or.inr h.1.symm
      · cases hq : ActionLog_push_back log
            ⟨i, j, r.chunk.getD blank_action.chunk⟩ with
        | none => rw [hq] at h; simp at h
        | some l1 =>
          rw [hq] at h
          simp only [Option.some.injEq, Prod.mk.injEq] at h
          exact Or.inl h.1.symm

theorem GameInfo_pour_success (info info1 : GameInfo) (i j : Int) (log log1 : ActionLog)
    (hp : board_packed info) (hij : i ≠ j)
    (h : GameInfo_pour info i j log = some (TUBE_SUCCESS, info1, log1)) :
    ∃ a : Action, a.i_src = i ∧ a.i_dst = j ∧ log1.entries = log.entries ++ [a] ∧ log1.wf ∧
      GameInfo_revert_tubes info1 a = some info ∧ board_packed info1 ∧
      info1.num_tubes = info.num_tubes ∧ replay_actions info [a] = some info1 := by
  unfold GameInfo_pour at h
  split_ifs at h with h0
  · simp only [Option.some.injEq, Prod.mk.injEq] at h
    exact absurd h.1 failure_ne_success
  · cases hpt : GameInfo_pour_tubes info i j with
    | none => rw [hpt] at h; simp at h
    | some p =>
      obtain ⟨r, i1⟩ := p
      rw [hpt] at h
      simp only at h
      split_ifs at h with h1
      · simp only [Option.some.injEq, Prod.mk.injEq] at h
        exact absurd h.1 failure_ne_success
      · cases hq : ActionLog_push_back log
            ⟨i, j, r.chunk.getD blank_action.chunk⟩ with
        | none => rw [hq] at h; simp at h
        | some l1 =>
          rw [hq] at h
          simp only [Option.some.injEq, Prod.mk.injEq, true_and] at h
          obtain ⟨rfl, rfl⟩ := h
          have hok : r.ret = TUBE_SUCCESS := by
            by_contra hne; exact h1 hne
          obtain ⟨c, hc, hrev, hpk, hnum⟩ :=
            GameInfo_pour_tubes_success info i1 i j r hp hij hpt hok
          have hpush := ActionLog_push_back_some log l1 _ hq
          rw [hc] at hq hpush
          simp only [Option.getD_some] at hq hpush
          refine ⟨⟨i, j, c⟩, rfl, rfl, hpush.1, hpush.2.1, hrev, hpk, hnum, ?_⟩
          obtain ⟨lc, hlc⟩ := ActionLog_push_back_wf ActionLog_create ⟨i, j, c⟩ ActionLog_create_wf
          have hlce := (ActionLog_push_back_some _ _ _ hlc).1
          rw [ActionLog_create_entries, List.nil_append] at hlce
          have hpc : GameInfo_pour info i j ActionLog_create = some (TUBE_SUCCESS, i1, lc) := by
            unfold GameInfo_pour
            rw [if_neg h0, hpt]
            simp only
            rw [if_neg h1, hc]
            simp only [Option.getD_some]
            rw [hlc]
          simp only [replay_actions, hpc, hlce, and_self, if_true]

theorem GameInfo_revert_one_last (info info0 : GameInfo) (log : ActionLog) (a : Action)
    (es : List Action) (he : log.entries = es ++ [a])
    (hr : GameInfo_revert_tubes info a = some info0)
    (ret : Int) (info3 : GameInfo) (log3 : ActionLog)
    (h : GameInfo_revert_one info log = some (ret, info3, log3)) :
    ret = TUBE_SUCCESS ∧ info3 = info0 ∧ log3.entries = es ∧ log3.actions = log.actions ∧
      log3.counter + 1 = log.counter := by
  unfold GameInfo_revert_one at h
  cases hp : ActionLog_pop log with
  | none => rw [hp] at h; simp at h
  | some p =>
    obtain ⟨r, l1, w⟩ := p
    rw [hp] at h
    simp only at h
    rcases ActionLog_pop_some log l1 r w hp with ⟨_, _, _, hnil⟩ | ⟨rfl, a1, rfl, hent, hcnt, hact⟩
    · rw [hnil] at he
      exact absurd he (by simp)
    · rw [he] at hent
      obtain ⟨h1, h2⟩ := List.append_inj' hent rfl
      simp only [List.cons.injEq, and_true] at h2
      subst h2
      rw [if_neg (by simp)] at h
      simp only [Option.getD_some, hr, Option.some.injEq, Prod.mk.injEq] at h
      obtain ⟨rfl, rfl, rfl⟩ := h
      exact ⟨rfl, rfl, h1.symm, hact, hcnt⟩

/-! ## The search -/

theorem GameInfo_solver_loop_dst_from_spec (i_src : Nat) :
    ∀ (n i_dst : Nat) (info : GameInfo) (log : ActionLog) (ret : Int) (info1 : GameInfo)
      (log1 : ActionLog), board_packed info →
      GameInfo_solver_loop_dst_from i_src n i_dst info log = some (ret, info1, log1) →
      (ret = TUBE_FAILURE ∧ info1 = info ∧ log1 = log) ∨
      (ret = TUBE_SUCCESS ∧ ∃ a : Action, log1.entries = log.entries ++ [a] ∧
        GameInfo_revert_tubes info1 a = some info ∧ board_packed info1 ∧
        replay_actions info [a] = some info1) := by
  intro n
  induction n with
  | zero =>
    intro i_dst info log ret info1 log1 _ h
    simp only [GameInfo_solver_loop_dst_from, Option.some.injEq, Prod.mk.injEq] at h
    exact Or.inl ⟨h.1.symm, h.2.1.symm, h.2.2.symm⟩
  | succ n ih =>
    intro i_dst info log ret info1 log1 hp h
    simp only [GameInfo_solver_loop_dst_from] at h
    split_ifs at h with h0
    · exact ih _ _ _ _ _ _ hp h
    · cases hpl : GameInfo_pour_is_pointless info i_src i_dst with
      | none => rw [hpl] at h; simp at h
      | some b =>
        rw [hpl] at h
        cases b with
        | true => exact ih _ _ _ _ _ _ hp h
        | false =>
          simp only at h
          cases hpour : GameInfo_pour info (i_src : Int) (i_dst : Int) log with
          | none => rw [hpour] at h; simp at h
          | some p =>
            obtain ⟨r, i1, l1⟩ := p
            rw [hpour] at h
            simp only at h
            split_ifs at h with h1
            · simp only [Option.some.injEq, Prod.mk.injEq] at h
              obtain ⟨rfl, rfl, rfl⟩ := h
              subst h1
              have hne : (i_src : Int) ≠ (i_dst : Int) := by
                intro e; exact h0 (by exact_mod_cast e.symm)
              obtain ⟨a, _, _, hent, _, hrev, hpk, _, hrep⟩ :=
                GameInfo_pour_success info i1 _ _ log l1 hp hne hpour
              exact Or.inr ⟨rfl, a, hent, hrev, hpk, hrep⟩
            · obtain ⟨rfl, rfl⟩ := GameInfo_pour_failure info i1 _ _ log l1 r hpour h1
              exact ih _ _ _ _ _ _ hp h

theorem replay_actions_cons (info info1 info2 : GameInfo) (a : Action) (acts : List Action)
    (h1 : replay_actions info [a] = some info1) (h2 : replay_actions info1 acts = some info2) :
    replay_actions info (a :: acts) = some info2 := by
  simp only [replay_actions] at h1 ⊢
  cases hp : GameInfo_pour info a.i_src a.i_dst ActionLog_create with
  | none => rw [hp] at h1; simp at h1
  | some p =>
    obtain ⟨r, i1, l1⟩ := p
    rw [hp] at h1
    simp only at h1 ⊢
    split_ifs at h1 with hc
    simp only [Option.some.injEq] at h1
    subst h1
    rw [if_pos hc]
    exact h2

theorem GameInfo_solver_loop_src_from_spec
    (again : GameInfo → ActionLog → Option (Bool × GameInfo × ActionLog))
    (hag : search_contract again) :
    ∀ n i_src : Nat, search_contract (GameInfo_solver_loop_src_from again n i_src) := by
  intro n
  induction n with
  | zero =>
    intro i_src info log res info1 log1 hp h
    simp only [GameInfo_solver_loop_src_from, Option.some.injEq, Prod.mk.injEq] at h
    obtain ⟨rfl, rfl, rfl⟩ := h
    exact ⟨hp, fun _ => ⟨rfl, rfl⟩, fun h => absurd h (by simp)⟩
  | succ n ih =>
    intro i_src info log res info1 log1 hp h
    simp only [GameInfo_solver_loop_src_from] at h
    cases ht : info.tubes[i_src]? with
    | none => rw [ht] at h; simp at h
    | some tube =>
      rw [ht] at h
      simp only at h
      cases hpure : Tube_is_pure tube with
      | none => rw [hpure] at h; simp at h
      | some b =>
        rw [hpure] at h
        cases b with
        | true => exact ih _ _ _ _ _ _ hp h
        | false =>
          simp only at h
          cases hd : GameInfo_solver_loop_dst info log i_src with
          | none => rw [hd] at h; simp at h
          | some p =>
            obtain ⟨r, i1, l1⟩ := p
            rw [hd] at h
            simp only at h
            rcases GameInfo_solver_loop_dst_from_spec i_src _ _ info log r i1 l1 hp hd with
              ⟨rfl, rfl, rfl⟩ | ⟨rfl, a, hent, hrev, hpk, hrep⟩
            · rw [if_neg failure_ne_success] at h
              exact ih _ _ _ _ _ _ hp h
            · rw [if_pos rfl] at h
              cases hs : GameInfo_is_solved i1 with
              | none => rw [hs] at h; simp at h
              | some sb =>
                rw [hs] at h
                cases sb with
                | true =>
                  simp only [Option.some.injEq, Prod.mk.injEq] at h
                  obtain ⟨rfl, rfl, rfl⟩ := h
                  exact ⟨hpk, fun h => absurd h (by simp),
                    fun _ => ⟨[a], by simp, hent, hrep, hs⟩⟩
                | false =>
                  simp only at h
                  cases hr : again i1 l1 with
                  | none => rw [hr] at h; simp at h
                  | some q =>
                    obtain ⟨rb, i2, l2⟩ := q
                    rw [hr] at h
                    obtain ⟨hpk2, hfalse, htrue⟩ := hag i1 l1 rb i2 l2 hpk hr
                    cases rb with
                    | true =>
                      simp only [Option.some.injEq, Prod.mk.injEq] at h
                      obtain ⟨rfl, rfl, rfl⟩ := h
                      obtain ⟨acts, _, hent2, hrep2, hsol⟩ := htrue rfl
                      refine ⟨hpk2, fun h => absurd h (by simp), fun _ => ⟨a :: acts, by simp, ?_, ?_, hsol⟩⟩
                      · rw [hent2, hent]; simp
                      · exact replay_actions_cons info i1 i2 a acts hrep hrep2
                    | false =>
                      simp only at h
                      obtain ⟨rfl, hent2⟩ := hfalse rfl
                      cases hrv : GameInfo_revert_one i2 l2 with
                      | none => rw [hrv] at h; simp at h
                      | some q3 =>
                        obtain ⟨r3, i3, l3⟩ := q3
                        rw [hrv] at h
                        simp only at h
                        obtain ⟨_, rfl, hent3, _, _⟩ := GameInfo_revert_one_last i2 info l2 a
                          log.entries (by rw [hent2, hent]) hrev r3 i3 l3 hrv
                        obtain ⟨hpk4, hf4, ht4⟩ := ih _ _ _ _ _ _ hp h
                        refine ⟨hpk4, fun hres => ?_, fun hres => ?_⟩
                        · obtain ⟨e1, e2⟩ := hf4 hres
                          exact ⟨e1, by rw [e2, hent3]⟩
                        · obtain ⟨acts, hne, e1, e2, e3⟩ := ht4 hres
                          exact ⟨acts, hne, by rw [e1, hent3], e2, e3⟩

theorem GameInfo_solver_loop_src_spec :
    ∀ fuel : Nat, search_contract (GameInfo_solver_loop_src fuel) := by
  intro fuel
  induction fuel with
  | zero =>
    intro info log res info1 log1 _ h
    simp [GameInfo_solver_loop_src] at h
  | succ fuel ih =>
    intro info log res info1 log1 hp h
    simp only [GameInfo_solver_loop_src] at h
    exact GameInfo_solver_loop_src_from_spec _ ih _ _ info log res info1 log1 hp h

/-! ## Claims on the solver -/

/-- C5 (solver soundness).  When `GameInfo_find_solution`, called on a board
of packed tubes with a log of the caller, returns true, the log handed back
is not empty, its actions replay in order from the board at invocation as
successful pours that each log exactly the recorded action, the replay ends
in the board the solver left behind, and that board is solved. -/
theorem GameInfo_find_solution_sound (fuel : Nat) (info info1 : GameInfo) (log : ActionLog)
    (out : Option ActionLog) (hp : board_packed info)
    (h : GameInfo_find_solution fuel info (some log) = some (true, info1, out)) :
    ∃ log1, out = some log1 ∧ log1.entries ≠ [] ∧
      replay_actions info log1.entries = some info1 ∧
      GameInfo_is_solved info1 = some true := by
  dsimp only [GameInfo_find_solution] at h
  cases hs : GameInfo_solver_loop_src fuel info ActionLog_create with
  | none => rw [hs] at h; simp at h
  | some p =>
    obtain ⟨res, i1, l1⟩ := p
    rw [hs] at h
    simp only at h
    obtain ⟨_, _, htrue⟩ := GameInfo_solver_loop_src_spec fuel info ActionLog_create res i1 l1 hp hs
    split_ifs at h with hc
    · simp only [Option.some.injEq, Prod.mk.injEq] at h
      obtain ⟨rfl, rfl, rfl⟩ := h
      obtain ⟨acts, hne, hent, hrep, hsol⟩ := htrue rfl
      rw [ActionLog_create_entries, List.nil_append] at hent
      exact ⟨l1, rfl, by rw [hent]; exact hne, by rw [hent]; exact hrep, hsol⟩
    · simp only [Option.some.injEq, Prod.mk.injEq] at h
      exact absurd ⟨rfl, h.1⟩ hc

theorem GameInfo_find_solution_sound_witness :
    board_packed ⟨1, [[0, 1], [1, 0], [-1, -1]], 0⟩ ∧
    ∃ log1 : ActionLog,
      (some ⟨⟨0, 2, ⟨1, 1⟩⟩ :: ⟨1, 0, ⟨0, 1⟩⟩ :: ⟨1, 2, ⟨1, 1⟩⟩ :: List.replicate 61 blank_action, 3⟩
        : Option ActionLog) = some log1 ∧
      log1.entries ≠ [] ∧
      replay_actions ⟨1, [[0, 1], [1, 0], [-1, -1]], 0⟩ log1.entries
        = some ⟨1, [[0, 0], [-1, -1], [1, 1]], 0⟩ ∧
      GameInfo_is_solved ⟨1, [[0, 0], [-1, -1], [1, 1]], 0⟩ = some true :=
  ⟨by decide,
    GameInfo_find_solution_sound 3 ⟨1, [[0, 1], [1, 0], [-1, -1]], 0⟩
      ⟨1, [[0, 0], [-1, -1], [1, 1]], 0⟩ ActionLog_create _ (by decide) (by rfl)⟩

/-- C6 (solver rollback on failure).  When the search on a board of packed
tubes returns false, the board is the board at entry and the log holds the
entries it held at entry; and when `GameInfo_find_solution` returns false,
the board is the board at entry and the caller's log is untouched. -/
theorem GameInfo_solver_rollback (fuel : Nat) (info : GameInfo) (log : ActionLog)
    (hp : board_packed info) :
    (∀ info1 log1, GameInfo_solver_loop_src fuel info log = some (false, info1, log1) →
      info1 = info ∧ log1.entries = log.entries) ∧
    (∀ info1 out, GameInfo_find_solution fuel info (some log) = some (false, info1, out) →
      info1 = info ∧ out = some log) := by
  constructor
  · intro info1 log1 h
    exact (GameInfo_solver_loop_src_spec fuel info log false info1 log1 hp h).2.1 rfl
  · intro info1 out h
    dsimp only [GameInfo_find_solution] at h
    cases hs : GameInfo_solver_loop_src fuel info ActionLog_create with
    | none => rw [hs] at h; simp at h
    | some p =>
      obtain ⟨res, i1, l1⟩ := p
      rw [hs] at h
      simp only at h
      split_ifs at h with hc
      · simp only [Option.some.injEq, Prod.mk.injEq] at h
        rw [hc.2] at h
        exact absurd h.1 (by simp)
      · simp only [Option.some.injEq, Prod.mk.injEq] at h
        obtain ⟨rfl, rfl, rfl⟩ := h
        exact ⟨((GameInfo_solver_loop_src_spec fuel info ActionLog_create false i1 l1 hp hs).2.1
          rfl).1, rfl⟩

theorem GameInfo_solver_rollback_witness :
    board_packed ⟨0, [[0, 1], [1, -1]], 0⟩ ∧
    GameInfo_solver_loop_src 2 ⟨0, [[0, 1], [1, -1]], 0⟩ ActionLog_create
      = some (false, ⟨0, [[0, 1], [1, -1]], 0⟩,
          ⟨⟨0, 1, ⟨1, 1⟩⟩ :: List.replicate 63 blank_action, 0⟩) ∧
    ((⟨0, [[0, 1], [1, -1]], 0⟩ : GameInfo) = ⟨0, [[0, 1], [1, -1]], 0⟩ ∧
      (⟨⟨0, 1, ⟨1, 1⟩⟩ :: List.replicate 63 blank_action, 0⟩ : ActionLog).entries
        = ActionLog_create.entries) :=
  ⟨by decide, by rfl,
    (GameInfo_solver_rollback 2 ⟨0, [[0, 1], [1, -1]], 0⟩ ActionLog_create (by decide)).1
      _ _ (by rfl)⟩

/-- C7, as the code behaves: on the example board every tube is pure, so the
search skips every source; for every recursion bound that lets it run,
`GameInfo_find_solution` returns false, leaves the board as it is and hands
the caller's log back untouched. -/
theorem GameInfo_find_solution_example_board (fuel : Nat) (log : ActionLog) :
    GameInfo_find_solution (fuel + 1) example_board (some log)
      = some (false, example_board, some log) := by
  rfl

/-- C7, as stated, fails: for no recursion bound does the solver report
success on the example board, so it emits no action from tube 1 to tube 3. -/
theorem GameInfo_find_solution_example_board_no_success :
    ¬ ∃ (fuel : Nat) (log : ActionLog) (info1 : GameInfo) (out : Option ActionLog),
      GameInfo_find_solution fuel example_board (some log) = some (true, info1, out) := by
  rintro ⟨fuel, log, info1, out, h⟩
  cases fuel with
  | zero => exact absurd h (by simp [GameInfo_find_solution, GameInfo_solver_loop_src])
  | succ fuel =>
    have h2 : GameInfo_find_solution (fuel + 1) example_board (some log)
        = some (false, example_board, some log) := rfl
    rw [h2] at h
    exact absurd h (by simp)

/-! ## Sessions of play and `GameInfo_revert_all` -/

theorem GameInfo_pour_defined (info : GameInfo) (i j : Int) (log : ActionLog)
    (hi0 : 0 ≤ i) (hi1 : i < info.num_tubes) (hj0 : 0 ≤ j) (hj1 : j < info.num_tubes)
    (hij : i ≠ j) (hwf : log.wf) :
    ∃ ret info1 log1, GameInfo_pour info i j log = some (ret, info1, log1) := by
  obtain ⟨src, hsrc⟩ := tube_at_of_range info i hi0 hi1
  obtain ⟨dst, hdst⟩ := tube_at_of_range info j hj0 hj1
  obtain ⟨r, hr⟩ := Tube_pour_defined src dst
  have hpt : GameInfo_pour_tubes info i j
      = some (r, (info.set_tube i r.src).set_tube j r.dst) := by
    unfold GameInfo_pour_tubes
    rw [hsrc, hdst]
    simp only
    rw [if_neg hij, hr]
    rfl
  unfold GameInfo_pour
  rw [if_neg (by omega), hpt]
  simp only
  split_ifs with h1
  · exact ⟨_, _, _, rfl⟩
  · obtain ⟨l1, hl1⟩ := ActionLog_push_back_wf log
      ⟨i, j, r.chunk.getD blank_action.chunk⟩ hwf
    rw [hl1]
    exact ⟨_, _, _, rfl⟩

theorem GameInfo_revert_one_defined (info info0 : GameInfo) (log : ActionLog) (a : Action)
    (es : List Action) (hwf : log.wf) (he : log.entries = es ++ [a])
    (hr : GameInfo_revert_tubes info a = some info0) :
    ∃ log3, GameInfo_revert_one info log = some (TUBE_SUCCESS, info0, log3) ∧
      log3.entries = es ∧ log3.wf := by
  obtain ⟨ret, l1, w, hpop, hwf1⟩ := ActionLog_pop_wf log hwf
  have hsome : ∃ q, GameInfo_revert_one info log = some q := by
    unfold GameInfo_revert_one
    rw [hpop]
    simp only
    rcases ActionLog_pop_some log l1 ret w hpop with ⟨_, _, _, hnil⟩ | ⟨rfl, a1, rfl, hent, _, _⟩
    · rw [hnil] at he
      exact absurd he (by simp)
    · rw [he] at hent
      obtain ⟨_, h2⟩ := List.append_inj' hent rfl
      simp only [List.cons.injEq, and_true] at h2
      subst h2
      rw [if_neg (by simp)]
      simp only [Option.getD_some, hr]
      exact ⟨_, rfl⟩
  obtain ⟨⟨r3, i3, l3⟩, hq⟩ := hsome
  obtain ⟨rfl, rfl, hent3, hact, hcnt⟩ := GameInfo_revert_one_last info info0 log a es he hr r3 i3 l3 hq
  refine ⟨l3, hq, hent3, ?_⟩
  unfold ActionLog.wf at hwf ⊢
  rw [hact]
  omega

theorem GameInfo_revert_all_loop_unwind (B : GameInfo) :
    ∀ (rs : List Action) (info : GameInfo) (log : ActionLog), log.wf →
      log.entries.reverse = rs → unwind_actions info rs = some B →
      ∃ log2, GameInfo_revert_all_loop (rs.length + 1) info log = some (B, log2) ∧
        log2.entries = [] ∧ log2.counter = 0 := by
  intro rs
  induction rs with
  | nil =>
    intro info log hwf he hu
    simp only [unwind_actions, Option.some.injEq] at hu
    subst hu
    have hent : log.entries = [] := by simpa using he
    have hc : log.counter = 0 := by
      rw [← ActionLog_entries_length log hwf, hent]; rfl
    refine ⟨log, ?_, hent, hc⟩
    simp [GameInfo_revert_all_loop, GameInfo_revert_one, ActionLog_pop, hc, failure_ne_success]
  | cons a rest ih =>
    intro info log hwf he hu
    simp only [unwind_actions] at hu
    cases hr : GameInfo_revert_tubes info a with
    | none => rw [hr] at hu; simp at hu
    | some info0 =>
      rw [hr] at hu
      simp only at hu
      have hent : log.entries = rest.reverse ++ [a] := by
        have := congrArg List.reverse he
        simpa using this
      obtain ⟨log3, h3, hent3, hwf3⟩ :=
        GameInfo_revert_one_defined info info0 log a rest.reverse hwf hent hr
      obtain ⟨log2, h2, e2, c2⟩ := ih info0 log3 hwf3 (by rw [hent3]; simp) hu
      refine ⟨log2, ?_, e2, c2⟩
      rw [List.length_cons]
      simp only [GameInfo_revert_all_loop, h3, if_true]
      exact h2

theorem play_pours_invariant (B : GameInfo) :
    ∀ (moves : List (Int × Int)) (info : GameInfo) (log : ActionLog),
      (∀ m ∈ moves, 0 ≤ m.1 ∧ m.1 < B.num_tubes ∧ 0 ≤ m.2 ∧ m.2 < B.num_tubes ∧ m.1 ≠ m.2) →
      board_packed info → info.num_tubes = B.num_tubes → log.wf →
      unwind_actions info log.entries.reverse = some B →
      ∃ info1 log1, play_pours info log moves = some (info1, log1) ∧ log1.wf ∧
        unwind_actions info1 log1.entries.reverse = some B := by
  intro moves
  induction moves with
  | nil =>
    intro info log _ _ _ hwf hu
    exact ⟨info, log, rfl, hwf, hu⟩
  | cons m rest ih =>
    intro info log hm hp hn hwf hu
    obtain ⟨h1, h2, h3, h4, h5⟩ := hm m (by simp)
    obtain ⟨ret, i1, l1, hpour⟩ := GameInfo_pour_defined info m.1 m.2 log h1
      (by rw [hn]; exact h2) h3 (by rw [hn]; exact h4) h5 hwf
    have hrest : ∀ m ∈ rest, 0 ≤ m.1 ∧ m.1 < B.num_tubes ∧ 0 ≤ m.2 ∧ m.2 < B.num_tubes ∧
        m.1 ≠ m.2 := fun x hx => hm x (by simp [hx])
    simp only [play_pours, hpour]
    by_cases hok : ret = TUBE_SUCCESS
    · subst hok
      obtain ⟨a, _, _, hent, hwf1, hrev, hpk, hnum, _⟩ :=
        GameInfo_pour_success info i1 m.1 m.2 log l1 hp h5 hpour
      apply ih i1 l1 hrest hpk (by rw [hnum, hn]) hwf1
      rw [hent, List.reverse_append]
      simp only [List.reverse_cons, List.reverse_nil, List.nil_append, List.singleton_append,
        unwind_actions, hrev]
      exact hu
    · obtain ⟨rfl, rfl⟩ := GameInfo_pour_failure info i1 m.1 m.2 log l1 ret hpour hok
      exact ih _ _ hrest hp hn hwf hu

/-- C8 (revert_all undoes a whole session).  From a board `B` of packed tubes
and the empty log of `ActionLog_create`, every finite sequence of
`GameInfo_pour` calls whose indices are in range and differ within each call
runs to its end (each call may succeed or fail), and `GameInfo_revert_all` on
the board and log it leaves returns the board `B` with a log that has no
entry. -/
theorem GameInfo_revert_all_undoes_session (B : GameInfo) (moves : List (Int × Int))
    (hp : board_packed B)
    (hm : ∀ m ∈ moves, 0 ≤ m.1 ∧ m.1 < B.num_tubes ∧ 0 ≤ m.2 ∧ m.2 < B.num_tubes ∧ m.1 ≠ m.2) :
    ∃ B1 log1 log2, play_pours B ActionLog_create moves = some (B1, log1) ∧
      GameInfo_revert_all B1 log1 = some (B, log2) ∧
      log2.entries = [] ∧ log2.counter = 0 := by
  obtain ⟨B1, log1, hplay, hwf1, hu⟩ := play_pours_invariant B moves B ActionLog_create hm hp rfl
    ActionLog_create_wf (by rw [ActionLog_create_entries]; rfl)
  obtain ⟨log2, h2, e2, c2⟩ :=
    GameInfo_revert_all_loop_unwind B log1.entries.reverse B1 log1 hwf1 rfl hu
  refine ⟨B1, log1, log2, hplay, ?_, e2, c2⟩
  unfold GameInfo_revert_all
  rw [← ActionLog_entries_length log1 hwf1, ← List.length_reverse]
  exact h2

theorem GameInfo_revert_all_undoes_session_witness :
    board_packed ⟨1, [[0, 1], [1, 0], [-1, -1]], 0⟩ ∧
    ∃ B1 log1 log2,
      play_pours ⟨1, [[0, 1], [1, 0], [-1, -1]], 0⟩ ActionLog_create
        [(0, 2), (1, 2), (1, 0), (2, 1)] = some (B1, log1) ∧
      GameInfo_revert_all B1 log1 = some (⟨1, [[0, 1], [1, 0], [-1, -1]], 0⟩, log2) ∧
      log2.entries = [] ∧ log2.counter = 0 :=
  ⟨by decide,
    GameInfo_revert_all_undoes_session ⟨1, [[0, 1], [1, 0], [-1, -1]], 0⟩
      [(0, 2), (1, 2), (1, 0), (2, 1)] (by decide) (by decide)⟩

/-! ## Board generation -/

theorem Tube_add_color_loop_some (color : Int) (hc : color ≠ EMPTY_COLOR_INDEX) :
    ∀ (t t1 : Tube), Tube_add_color_loop color t = some t1 →
      t1.length = t.length ∧
      t1.count EMPTY_COLOR_INDEX + 1 = t.count EMPTY_COLOR_INDEX ∧
      t1.count color = t.count color + 1 ∧
      ∀ c, c ≠ color → c ≠ EMPTY_COLOR_INDEX → t1.count c = t.count c := by
  intro t
  induction t with
  | nil => intro t1 h; simp [Tube_add_color_loop] at h
  | cons x rest ih =>
    intro t1 h
    simp only [Tube_add_color_loop] at h
    split_ifs at h with hx
    · simp only [Option.some.injEq] at h
      subst h; subst hx
      refine ⟨rfl, ?_, ?_, ?_⟩
      · rw [List.count_cons_of_ne (Ne.symm hc), List.count_cons_self]
      · rw [List.count_cons_self, List.count_cons_of_ne hc]
      · intro c h1 h2
        rw [List.count_cons_of_ne h1, List.count_cons_of_ne h2]
    · simp only [Option.map_eq_some'] at h
      obtain ⟨r, hr, rfl⟩ := h
      obtain ⟨e1, e2, e3, e4⟩ := ih r hr
      refine ⟨by simp [e1], ?_, ?_, ?_⟩
      · rw [List.count_cons_of_ne (Ne.symm hx), List.count_cons_of_ne (Ne.symm hx), e2]
      · simp only [List.count_cons, e3]; omega
      · intro c h1 h2
        simp only [List.count_cons, e4 c h1 h2]

theorem Tube_add_color_cases (t : Tube) (color : Int) :
    ((Tube_add_color t color).1 = TUBE_SUCCESS ∧
      Tube_add_color_loop color t = some (Tube_add_color t color).2) ∨
    ((Tube_add_color t color).1 = TUBE_FAILURE ∧ (Tube_add_color t color).2 = t) := by
  unfold Tube_add_color
  split_ifs
  · exact Or.inr ⟨rfl, rfl⟩
  · cases h : Tube_add_color_loop color t with
    | none => exact Or.inr ⟨rfl, rfl⟩
    | some t1 => exact Or.inl ⟨rfl, rfl⟩

theorem sum_map_set {α : Type} (f : α → Nat) (l : List α) (i : Nat) (x y : α)
    (h : l[i]? = some x) :
    ((l.set i y).map f).sum + f x = (l.map f).sum + f y := by
  induction l generalizing i with
  | nil => simp at h
  | cons z l ih =>
    cases i with
    | zero =>
      simp only [List.getElem?_cons_zero, Option.some.injEq] at h
      subst h
      simp only [List.set_cons_zero, List.map_cons, List.sum_cons]
      omega
    | succ i =>
      simp only [List.getElem?_cons_succ] at h
      have := ih i h
      simp only [List.set_cons_succ, List.map_cons, List.sum_cons]
      omega

theorem take_set_lt {α : Type} (l : List α) (i n : Nat) (y : α) (h : i < n) :
    (l.set i y).take n = (l.take n).set i y := by
  induction l generalizing i n with
  | nil => simp
  | cons z l ih =>
    cases n with
    | zero => omega
    | succ n =>
      cases i with
      | zero => simp
      | succ i => simp [ih i n (by omega)]

theorem getElem?_take_lt {α : Type} (l : List α) (i n : Nat) (h : i < n) :
    (l.take n)[i]? = l[i]? := by
  induction l generalizing i n with
  | nil => simp
  | cons z l ih =>
    cases n with
    | zero => omega
    | succ n =>
      cases i with
      | zero => simp
      | succ i => simp [ih i n (by omega)]

theorem ColorPool_pick_color_some (pool : ColorPool) :
    ∀ (draws rest : List Nat) (color : Nat) (pool1 : ColorPool),
      ColorPool_pick_color pool draws = some (color, pool1, rest) →
      color < pool.num_colors ∧ pool1.num_colors = pool.num_colors ∧
      ∃ d, pool.data[color]? = some (d + 1) ∧ pool1.data = pool.data.set color d := by
  intro draws
  induction draws with
  | nil => intro rest color pool1 h; simp [ColorPool_pick_color] at h
  | cons r rs ih =>
    intro rest color pool1 h
    simp only [ColorPool_pick_color] at h
    split_ifs at h with h0
    cases hd : pool.data[r % pool.num_colors]? with
    | none => rw [hd] at h; simp at h
    | some v =>
      rw [hd] at h
      cases v with
      | zero => exact ih _ _ _ h
      | succ d =>
        simp only [Option.some.injEq, Prod.mk.injEq] at h
        obtain ⟨rfl, rfl, rfl⟩ := h
        exact ⟨Nat.mod_lt _ (Nat.pos_of_ne_zero h0), rfl, d, hd, rfl⟩

theorem pick_tube_loop_some (num_colors : Nat) (color : Int) :
    ∀ (draws rest : List Nat) (info info1 : GameInfo),
      pick_tube_loop num_colors color info draws = some (info1, rest) →
      ∃ (i : Nat) (t t1 : Tube), i < num_colors ∧ info.tubes[i]? = some t ∧
        Tube_add_color_loop color t = some t1 ∧
        info1 = { info with tubes := info.tubes.set i t1 } := by
  intro draws
  induction draws with
  | nil => intro rest info info1 h; simp [pick_tube_loop] at h
  | cons r rs ih =>
    intro rest info info1 h
    simp only [pick_tube_loop] at h
    split_ifs at h with h0
    cases ht : info.tubes[r % num_colors]? with
    | none => rw [ht] at h; simp at h
    | some tube =>
      rw [ht] at h
      simp only at h
      rcases Tube_add_color_cases tube color with ⟨hs, hl⟩ | ⟨hf, hsame⟩
      · rw [if_neg (by rw [hs]; simp)] at h
        simp only [Option.some.injEq, Prod.mk.injEq] at h
        obtain ⟨rfl, rfl⟩ := h
        exact ⟨_, tube, _, Nat.mod_lt _ (Nat.pos_of_ne_zero h0), ht, hl, rfl⟩
      · rw [if_pos (by rw [hf]; exact failure_ne_success), hsame,
          set_of_getElem? info.tubes _ tube ht] at h
        exact ih _ _ _ h

theorem nat_color_ne_empty (c : Nat) : (c : Int) ≠ EMPTY_COLOR_INDEX := by
  unfold EMPTY_COLOR_INDEX; omega

theorem board_count_replicate (c : Int) (hc : c ≠ EMPTY_COLOR_INDEX) (n ns : Nat) :
    board_count c (List.replicate n (List.replicate ns EMPTY_COLOR_INDEX)) = 0 := by
  unfold board_count
  induction n with
  | zero => rfl
  | succ n ih =>
    rw [List.replicate_succ, List.map_cons, List.sum_cons, ih,
      List.count_eq_zero.2 (by intro h; exact hc (List.mem_replicate.1 h).2)]

theorem board_count_empty_replicate (n ns : Nat) :
    board_count EMPTY_COLOR_INDEX (List.replicate n (List.replicate ns EMPTY_COLOR_INDEX))
      = (List.replicate n ns).sum := by
  unfold board_count
  induction n with
  | zero => rfl
  | succ n ih =>
    rw [List.replicate_succ, List.map_cons, List.sum_cons, ih, List.count_replicate_self,
      List.replicate_succ, List.sum_cons]

theorem generation_invariant_init (nc ne ns seed : Nat) :
    generation_invariant nc ne ns
      { GameInfo_create nc ne ns with seed := seed } (ColorPool_create_full nc ns) := by
  refine ⟨by simp [GameInfo_create], ?_, ?_, rfl, by simp [ColorPool_create_full], ?_, ?_⟩
  · intro t ht
    simp only [GameInfo_create, Tube_create] at ht
    rw [(List.mem_replicate.1 ht).2, List.length_replicate]
  · intro i _ h2
    simp only [GameInfo_create, Tube_create]
    rw [List.getElem?_replicate, if_pos h2]
  · intro c hc
    refine ⟨ns, ?_, ?_⟩
    · simp only [ColorPool_create_full]
      rw [List.getElem?_replicate, if_pos hc]
    · simp only [GameInfo_create, Tube_create]
      rw [board_count_replicate _ (nat_color_ne_empty c)]
      omega
  · simp only [GameInfo_create, Tube_create, ColorPool_create_full]
    rw [List.take_replicate, Nat.min_eq_left (Nat.le_add_right _ _), board_count_empty_replicate]

theorem generation_invariant_step (nc ne ns : Nat) (info : GameInfo) (pool pool1 : ColorPool)
    (color i d : Nat) (t t1 : Tube) (hinv : generation_invariant nc ne ns info pool)
    (hcol : color < nc) (hnum : pool1.num_colors = pool.num_colors)
    (hd : pool.data[color]? = some (d + 1)) (hd1 : pool1.data = pool.data.set color d)
    (hi : i < nc) (ht : info.tubes[i]? = some t)
    (hadd : Tube_add_color_loop (color : Int) t = some t1) :
    generation_invariant nc ne ns { info with tubes := info.tubes.set i t1 } pool1 := by
  obtain ⟨h1, h2, h3, h4, h5, h6, h7⟩ := hinv
  obtain ⟨a1, a2, a3, a4⟩ := Tube_add_color_loop_some (color : Int) (nat_color_ne_empty color) t t1 hadd
  have htm : t ∈ info.tubes := List.getElem?_mem ht
  refine ⟨by simp [h1], ?_, ?_, by rw [hnum, h4], by rw [hd1]; simp [h5], ?_, ?_⟩
  · intro u hu
    rcases List.mem_or_eq_of_mem_set hu with h | h
    · exact h2 u h
    · rw [h, a1]; exact h2 t htm
  · intro j hj1 hj2
    simp only
    rw [List.getElem?_set_ne (by omega)]
    exact h3 j hj1 hj2
  · intro c hc
    simp only
    have hsum := sum_map_set (fun u : Tube => u.count (c : Int)) info.tubes i t t1 ht
    by_cases hcc : c = color
    · subst hcc
      refine ⟨d, by rw [hd1]; exact List.getElem?_set_self (by omega), ?_⟩
      obtain ⟨d0, e1, e2⟩ := h6 c hc
      rw [hd] at e1
      simp only [Option.some.injEq] at e1
      unfold board_count at e2 ⊢
      simp only at hsum
      omega
    · obtain ⟨d0, e1, e2⟩ := h6 c hc
      refine ⟨d0, by rw [hd1, List.getElem?_set_ne (Ne.symm hcc)]; exact e1, ?_⟩
      have := a4 (c : Int) (by intro h; exact hcc (by exact_mod_cast h)) (nat_color_ne_empty c)
      unfold board_count at e2 ⊢
      simp only at hsum
      omega
  · simp only
    rw [take_set_lt _ _ _ _ hi]
    have hsum := sum_map_set (fun u : Tube => u.count EMPTY_COLOR_INDEX) (info.tubes.take nc) i t t1
      (by rw [getElem?_take_lt _ _ _ hi]; exact ht)
    have hpool := sum_map_set (fun n : Nat => n) pool.data color (d + 1) d hd
    simp only [List.map_id'] at hpool
    unfold board_count at h7 ⊢
    rw [hd1]
    simp only at hsum
    omega

theorem ColorPool_is_empty_loop_true (data : List Nat) (h : ColorPool_is_empty_loop data = true) :
    ∀ d ∈ data, d = 0 := by
  induction data with
  | nil => intro d hd; simp at hd
  | cons x rest ih =>
    simp only [ColorPool_is_empty_loop] at h
    split_ifs at h with hx
    intro d hd
    rcases List.mem_cons.1 hd with rfl | hd
    · simpa using hx
    · exact ih h d hd

theorem sum_eq_zero_of_all_zero (l : List Nat) (h : ∀ d ∈ l, d = 0) : l.sum = 0 := by
  induction l with
  | nil => rfl
  | cons x rest ih =>
    rw [List.sum_cons, h x (by simp), ih (fun d hd => h d (by simp [hd]))]

theorem all_zero_of_sum_map {α : Type} (f : α → Nat) (l : List α) (h : (l.map f).sum = 0) :
    ∀ x ∈ l, f x = 0 := by
  induction l with
  | nil => intro x hx; simp at hx
  | cons y rest ih =>
    simp only [List.map_cons, List.sum_cons] at h
    intro x hx
    rcases List.mem_cons.1 hx with rfl | hx
    · omega
    · exact ih (by omega) x hx

theorem GameInfo_create_from_seed_loop_invariant (nc ne ns : Nat) :
    ∀ (fuel : Nat) (info : GameInfo) (pool : ColorPool) (draws rest : List Nat)
      (info1 : GameInfo), generation_invariant nc ne ns info pool →
      GameInfo_create_from_seed_loop nc fuel info pool draws = some (info1, rest) →
      ∃ pool1, generation_invariant nc ne ns info1 pool1 ∧ ColorPool_is_empty pool1 = true ∧
        info1.seed = info.seed ∧ info1.num_extra = info.num_extra := by
  intro fuel
  induction fuel with
  | zero => intro info pool draws rest info1 _ h; simp [GameInfo_create_from_seed_loop] at h
  | succ fuel ih =>
    intro info pool draws rest info1 hinv h
    simp only [GameInfo_create_from_seed_loop] at h
    split_ifs at h with he
    · simp only [Option.some.injEq, Prod.mk.injEq] at h
      obtain ⟨rfl, rfl⟩ := h
      exact ⟨pool, hinv, he, rfl, rfl⟩
    · cases hpick : ColorPool_pick_color pool draws with
      | none => rw [hpick] at h; simp at h
      | some p =>
        obtain ⟨color, pool1, d1⟩ := p
        rw [hpick] at h
        simp only at h
        cases htube : pick_tube_loop nc (color : Int) info d1 with
        | none => rw [htube] at h; simp at h
        | some q =>
          obtain ⟨i1, d2⟩ := q
          rw [htube] at h
          simp only at h
          obtain ⟨hcol, hnum, d, hd, hd1⟩ := ColorPool_pick_color_some pool draws d1 color pool1 hpick
          obtain ⟨i, t, t1, hi, ht, hadd, rfl⟩ := pick_tube_loop_some nc (color : Int) d1 d2 info i1 htube
          have hstep := generation_invariant_step nc ne ns info pool pool1 color i d t t1 hinv
            (by rw [← hinv.2.2.2.1]; exact hcol) hnum hd hd1 hi ht hadd
          obtain ⟨p, hp1, hp2, hs, hn⟩ := ih _ _ _ _ _ hstep h
          exact ⟨p, hp1, hp2, hs, hn⟩

/-- C9 (generation invariant).  Whenever `GameInfo_create_from_seed` finishes
on the values `rand()` returns, the board has `num_colors + num_extra` tubes
of `num_slots` slots each, none of the first `num_colors` tubes has an empty
slot, each of the last `num_extra` tubes is empty, and every colour below
`num_colors` is held by exactly `num_slots` slots of the board. -/
theorem GameInfo_create_from_seed_invariant (num_colors num_extra num_slots seed : Nat)
    (draws : List Nat) (info : GameInfo)
    (h : GameInfo_create_from_seed num_colors num_extra num_slots seed draws = some info) :
    info.tubes.length = num_colors + num_extra ∧
    (∀ t ∈ info.tubes, t.length = num_slots) ∧
    (∀ i : Nat, i < num_colors → ∃ t, info.tubes[i]? = some t ∧ EMPTY_COLOR_INDEX ∉ t) ∧
    (∀ i : Nat, num_colors ≤ i → i < num_colors + num_extra →
      info.tubes[i]? = some (List.replicate num_slots EMPTY_COLOR_INDEX)) ∧
    (∀ c : Nat, c < num_colors → board_count (c : Int) info.tubes = num_slots) := by
  dsimp only [GameInfo_create_from_seed] at h
  simp only [Option.map_eq_some'] at h
  obtain ⟨⟨info1, rest⟩, hloop, rfl⟩ := h
  obtain ⟨pool1, ⟨h1, h2, h3, h4, h5, h6, h7⟩, hempty, _, _⟩ :=
    GameInfo_create_from_seed_loop_invariant num_colors num_extra num_slots _ _ _ draws rest info1
      (generation_invariant_init num_colors num_extra num_slots seed) hloop
  have hz := ColorPool_is_empty_loop_true pool1.data hempty
  refine ⟨h1, h2, ?_, h3, ?_⟩
  · intro i hi
    have hlt : i < info1.tubes.length := by omega
    refine ⟨info1.tubes[i], List.getElem?_eq_getElem hlt, ?_⟩
    rw [sum_eq_zero_of_all_zero _ hz] at h7
    have hall := all_zero_of_sum_map (fun u : Tube => u.count EMPTY_COLOR_INDEX)
      (info1.tubes.take num_colors) h7.symm
    have hmem : info1.tubes[i] ∈ info1.tubes.take num_colors := by
      apply List.getElem?_mem (n := i)
      rw [getElem?_take_lt _ _ _ hi]
      exact List.getElem?_eq_getElem hlt
    exact List.count_eq_zero.1 (hall _ hmem)
  · intro c hc
    obtain ⟨d, e1, e2⟩ := h6 c hc
    have hd0 : d = 0 := hz d (List.getElem?_mem e1)
    show board_count (c : Int) info1.tubes = num_slots
    omega

theorem GameInfo_create_from_seed_invariant_witness :
    GameInfo_create_from_seed 2 1 2 7 [0, 1, 1, 0, 3, 2, 5, 5, 5, 4, 1, 1, 0, 1, 1, 1]
      = some ⟨1, [[1, 1], [0, 0], [-1, -1]], 7⟩ ∧
    (([[1, 1], [0, 0], [-1, -1]] : List Tube).length = 2 + 1 ∧
    (∀ t ∈ ([[1, 1], [0, 0], [-1, -1]] : List Tube), t.length = 2) ∧
    (∀ i : Nat, i < 2 → ∃ t, ([[1, 1], [0, 0], [-1, -1]] : List Tube)[i]? = some t ∧
      EMPTY_COLOR_INDEX ∉ t) ∧
    (∀ i : Nat, 2 ≤ i → i < 2 + 1 →
      ([[1, 1], [0, 0], [-1, -1]] : List Tube)[i]? = some (List.replicate 2 EMPTY_COLOR_INDEX)) ∧
    (∀ c : Nat, c < 2 → board_count (c : Int) [[1, 1], [0, 0], [-1, -1]] = 2)) :=
  ⟨by decide,
    GameInfo_create_from_seed_invariant 2 1 2 7
      [0, 1, 1, 0, 3, 2, 5, 5, 5, 4, 1, 1, 0, 1, 1, 1] ⟨1, [[1, 1], [0, 0], [-1, -1]], 7⟩
      (by decide)⟩

/-! ## Validation of a loaded board -/

/-- C10 at the input `num_slots = 2`, `num_tubes = 3`, rows `-1 -1`, `0 0`,
`0 0`: the value 0 occurs four times, not `num_slots = 2` times, and
`Input_sanity_check` returns success and stores `num_colors = 2`; its loop
compares the length of a run with `num_slots` only when the next value
differs, so the last run is never compared. -/
theorem Input_sanity_check_last_run_unchecked :
    Input_sanity_check ⟨3, 0, 2, [-1, -1, 0, 0, 0, 0]⟩
      = some (TUBE_SUCCESS, ⟨3, 2, 2, [-1, -1, 0, 0, 0, 0]⟩) ∧
    List.count (0 : Int) [-1, -1, 0, 0, 0, 0] = 4 ∧
    List.count EMPTY_COLOR_INDEX [-1, -1, 0, 0, 0, 0] = 2 := by
  decide

/-! ## Win detection -/

theorem Tube_is_pure_loop_iff (color : Int) (l : List Int) :
    Tube_is_pure_loop color l = true ↔ ∀ x ∈ l, x = color := by
  induction l with
  | nil => simp [Tube_is_pure_loop]
  | cons c rest ih =>
    simp only [Tube_is_pure_loop]
    by_cases hc : c = color
    · subst hc
      simp [ih]
    · simp [hc]

theorem Tube_is_pure_cons (color : Int) (rest : List Int) :
    Tube_is_pure (color :: rest) = some (decide (pure_tube (color :: rest))) := by
  simp only [Tube_is_pure, Option.some.injEq]
  by_cases h : Tube_is_pure_loop color rest = true
  · rw [h]
    have h1 := (Tube_is_pure_loop_iff color rest).1 h
    symm
    rw [decide_eq_true_iff]
    intro x hx y hy
    have ex : x = color := by
      rcases List.mem_cons.1 hx with e | e
      · exact e
      · exact h1 x e
    have ey : y = color := by
      rcases List.mem_cons.1 hy with e | e
      · exact e
      · exact h1 y e
    rw [ex, ey]
  · have hf : Tube_is_pure_loop color rest = false := by simpa using h
    rw [hf]
    symm
    rw [decide_eq_false_iff_not]
    intro hp
    apply h
    rw [Tube_is_pure_loop_iff]
    intro x hx
    exact hp x (by simp [hx]) color (by simp)

theorem Tube_is_pure_of_ne_nil (t : Tube) (h : t ≠ []) :
    Tube_is_pure t = some (decide (pure_tube t)) := by
  cases t with
  | nil => exact absurd rfl h
  | cons c rest => exact Tube_is_pure_cons c rest

theorem GameInfo_is_solved_loop_spec (tubes : List Tube) (h : ∀ t ∈ tubes, t ≠ []) :
    GameInfo_is_solved_loop tubes = some (decide (∀ t ∈ tubes, pure_tube t)) := by
  induction tubes with
  | nil => simp [GameInfo_is_solved_loop]
  | cons t rest ih =>
    have ih1 := ih (fun u hu => h u (by simp [hu]))
    simp only [GameInfo_is_solved_loop]
    rw [Tube_is_pure_of_ne_nil t (h t (by simp))]
    by_cases hp : pure_tube t
    · simp only [hp, decide_True]
      rw [ih1]
      simp [hp]
    · simp only [hp, decide_False]
      simp [hp]

theorem all_empty_pure (t : Tube) (h : all_empty t) : pure_tube t := by
  intro x hx y hy
  rw [h x hx, h y hy]

/-- C14 (win detection).  On a board whose tubes all have at least one slot
`GameInfo_is_solved` returns, and it returns true exactly when in every tube
all slots hold the same value; in particular it returns true when every tube
is empty. -/
theorem GameInfo_is_solved_iff (info : GameInfo) (h : ∀ t ∈ info.tubes, t ≠ []) :
    (∃ b, GameInfo_is_solved info = some b ∧
      (b = true ↔ ∀ t ∈ info.tubes, ∀ x ∈ t, ∀ y ∈ t, x = y)) ∧
    ((∀ t ∈ info.tubes, all_empty t) → GameInfo_is_solved info = some true) := by
  have hs := GameInfo_is_solved_loop_spec info.tubes h
  constructor
  · refine ⟨_, hs, ?_⟩
    rw [decide_eq_true_iff]
    rfl
  · intro he
    have hall : ∀ t ∈ info.tubes, pure_tube t := fun t ht => all_empty_pure t (he t ht)
    unfold GameInfo_is_solved
    rw [hs, decide_eq_true hall]

theorem GameInfo_is_solved_iff_witness :
    (∀ t ∈ (⟨1, [[0, 0], [-1, -1], [1, 1]], 0⟩ : GameInfo).tubes, t ≠ []) ∧
    ((∃ b, GameInfo_is_solved ⟨1, [[0, 0], [-1, -1], [1, 1]], 0⟩ = some b ∧
      (b = true ↔ ∀ t ∈ (⟨1, [[0, 0], [-1, -1], [1, 1]], 0⟩ : GameInfo).tubes,
        ∀ x ∈ t, ∀ y ∈ t, x = y)) ∧
    ((∀ t ∈ (⟨1, [[0, 0], [-1, -1], [1, 1]], 0⟩ : GameInfo).tubes, all_empty t) →
      GameInfo_is_solved ⟨1, [[0, 0], [-1, -1], [1, 1]], 0⟩ = some true)) :=
  ⟨by decide, GameInfo_is_solved_iff ⟨1, [[0, 0], [-1, -1], [1, 1]], 0⟩ (by decide)⟩

/-! ## Popping an empty log -/

/-- C17 (pop on an empty log).  On a log with `counter == 0`, `ActionLog_pop`
returns failure, writes no action and leaves the log (counter, array and so
capacity) as it is; and `GameInfo_revert_one` with such a log returns failure
and leaves board and log as they are. -/
theorem ActionLog_pop_empty (log : ActionLog) (info : GameInfo) (h : log.counter = 0) :
    ActionLog_pop log = some (TUBE_FAILURE, log, none) ∧
    GameInfo_revert_one info log = some (TUBE_FAILURE, info, log) := by
  have hp : ActionLog_pop log = some (TUBE_FAILURE, log, none) := by
    unfold ActionLog_pop
    rw [if_pos h]
  refine ⟨hp, ?_⟩
  unfold GameInfo_revert_one
  rw [hp]
  simp only
  rw [if_pos failure_ne_success]

theorem ActionLog_pop_empty_witness :
    ActionLog_create.counter = 0 ∧
    (ActionLog_pop ActionLog_create = some (TUBE_FAILURE, ActionLog_create, none) ∧
    GameInfo_revert_one example_board ActionLog_create
      = some (TUBE_FAILURE, example_board, ActionLog_create)) :=
  ⟨rfl, ActionLog_pop_empty ActionLog_create example_board rfl⟩

/-! ## Adding one colour -/

theorem Tube_is_full_iff (t : Tube) : Tube_is_full t = true ↔ EMPTY_COLOR_INDEX ∉ t := by
  induction t with
  | nil => simp [Tube_is_full]
  | cons c rest ih =>
    simp only [Tube_is_full]
    by_cases hc : c = EMPTY_COLOR_INDEX
    · simp [hc]
    · rw [if_neg hc, ih]
      simp [Ne.symm hc]

theorem Tube_add_color_loop_first (color : Int) (t : Tube) (h : EMPTY_COLOR_INDEX ∈ t) :
    ∃ i, i < t.length ∧ slot_color t i = EMPTY_COLOR_INDEX ∧
      (∀ j, j < i → slot_color t j ≠ EMPTY_COLOR_INDEX) ∧
      Tube_add_color_loop color t = some (t.set i color) := by
  induction t with
  | nil => simp at h
  | cons c rest ih =>
    by_cases hc : c = EMPTY_COLOR_INDEX
    · refine ⟨0, by simp, by rw [slot_color_cons_zero]; exact hc, by intro j hj; omega, ?_⟩
      simp [Tube_add_color_loop, hc]
    · have hr : EMPTY_COLOR_INDEX ∈ rest := by
        rcases List.mem_cons.1 h with e | e
        · exact absurd e.symm hc
        · exact e
      obtain ⟨i, h1, h2, h3, h4⟩ := ih hr
      refine ⟨i + 1, by simpa using h1, by rw [slot_color_cons_succ]; exact h2, ?_, ?_⟩
      · intro j hj
        cases j with
        | zero => rw [slot_color_cons_zero]; exact hc
        | succ j => rw [slot_color_cons_succ]; exact h3 j (by omega)
      · simp [Tube_add_color_loop, hc, h4]

/-- C19 (add_color).  If the tube has an empty slot, `Tube_add_color` returns
success and the tube afterwards is the old one with the colour written into
the empty slot of lowest index, no other slot changed; if the tube has no
empty slot it returns failure and the tube is as it was. -/
theorem Tube_add_color_spec (t : Tube) (color : Int) :
    (EMPTY_COLOR_INDEX ∈ t →
      ∃ i, i < t.length ∧ slot_color t i = EMPTY_COLOR_INDEX ∧
        (∀ j, j < i → slot_color t j ≠ EMPTY_COLOR_INDEX) ∧
        Tube_add_color t color = (TUBE_SUCCESS, t.set i color)) ∧
    (EMPTY_COLOR_INDEX ∉ t → Tube_add_color t color = (TUBE_FAILURE, t)) := by
  constructor
  · intro h
    obtain ⟨i, h1, h2, h3, h4⟩ := Tube_add_color_loop_first color t h
    refine ⟨i, h1, h2, h3, ?_⟩
    unfold Tube_add_color
    have hf : ¬ (Tube_is_full t = true) := by rw [Tube_is_full_iff]; exact fun hn => hn h
    rw [if_neg hf, h4]
  · intro h
    unfold Tube_add_color
    rw [if_pos ((Tube_is_full_iff t).2 h)]

/-! ## The log as a stack -/

theorem ActionLog_pop_last (log : ActionLog) (es : List Action) (a : Action) (hwf : log.wf)
    (he : log.entries = es ++ [a]) :
    ∃ log2, ActionLog_pop log = some (TUBE_SUCCESS, log2, some a) ∧ log2.entries = es ∧
      log2.wf ∧ log2.counter + 1 = log.counter ∧ log2.actions = log.actions := by
  obtain ⟨ret, l1, w, hpop, hwf1⟩ := ActionLog_pop_wf log hwf
  rcases ActionLog_pop_some log l1 ret w hpop with ⟨_, _, _, hnil⟩ | ⟨rfl, a1, rfl, hent, hcnt, hact⟩
  · rw [hnil] at he
    exact absurd he (by simp)
  · rw [he] at hent
    obtain ⟨h1, h2⟩ := List.append_inj' hent rfl
    simp only [List.cons.injEq, and_true] at h2
    subst h2
    exact ⟨l1, hpop, h1.symm, hwf1, hcnt, hact⟩

theorem push_all_spec :
    ∀ (acts : List Action) (log : ActionLog), log.wf →
      ∃ logn, push_all log acts = some logn ∧ logn.wf ∧
        logn.entries = log.entries ++ acts := by
  intro acts
  induction acts with
  | nil => intro log hwf; exact ⟨log, rfl, hwf, by simp⟩
  | cons a rest ih =>
    intro log hwf
    obtain ⟨l1, h1⟩ := ActionLog_push_back_wf log a hwf
    obtain ⟨e1, w1, _⟩ := ActionLog_push_back_some log l1 a h1
    obtain ⟨ln, h2, w2, e2⟩ := ih l1 w1
    refine ⟨ln, ?_, w2, ?_⟩
    · simp only [push_all, h1]
      exact h2
    · rw [e2, e1]; simp

theorem pop_n_spec :
    ∀ (acts es : List Action) (log : ActionLog), log.wf → log.entries = es ++ acts →
      ∃ logf, pop_n acts.length log = some (acts.reverse, logf) ∧ logf.entries = es ∧
        logf.wf := by
  intro acts
  induction acts using List.reverseRecOn with
  | nil =>
    intro es log hwf he
    exact ⟨log, rfl, by simpa using he, hwf⟩
  | append_singleton rest a ih =>
    intro es log hwf he
    obtain ⟨l2, hpop, e2, w2, _, _⟩ := ActionLog_pop_last log (es ++ rest) a hwf
      (by rw [he, List.append_assoc])
    obtain ⟨lf, hf, ef, wf⟩ := ih es l2 w2 e2
    refine ⟨lf, ?_, ef, wf⟩
    rw [List.length_append, List.length_singleton]
    simp only [pop_n, hpop, if_true, hf, Option.map_some', List.reverse_append,
      List.reverse_cons, List.reverse_nil, List.nil_append, List.singleton_append]

/-- C16 (log LIFO).  On a log as `log.c` keeps it, `ActionLog_push_back` of an
action followed by `ActionLog_pop` returns success and that action, and the
log then holds exactly the entries (and the counter) it had before the push;
and after pushing any list of actions, of any length, as many pops return
the actions in reverse push order and leave the entries the log had at the
start. -/
theorem ActionLog_push_pop_lifo (log : ActionLog) (a : Action) (acts : List Action)
    (hwf : log.wf) :
    (∃ log1 log2, ActionLog_push_back log a = some log1 ∧
      ActionLog_pop log1 = some (TUBE_SUCCESS, log2, some a) ∧
      log2.entries = log.entries ∧ log2.counter = log.counter) ∧
    (∃ logn logf, push_all log acts = some logn ∧
      pop_n acts.length logn = some (acts.reverse, logf) ∧ logf.entries = log.entries) := by
  constructor
  · obtain ⟨l1, h1⟩ := ActionLog_push_back_wf log a hwf
    obtain ⟨e1, w1, c1⟩ := ActionLog_push_back_some log l1 a h1
    obtain ⟨l2, hpop, e2, _, c2, _⟩ := ActionLog_pop_last l1 log.entries a w1 e1
    exact ⟨l1, l2, h1, hpop, e2, by omega⟩
  · obtain ⟨ln, h1, w1, e1⟩ := push_all_spec acts log hwf
    obtain ⟨lf, h2, e2, _⟩ := pop_n_spec acts log.entries ln w1 e1
    exact ⟨ln, lf, h1, h2, e2⟩

theorem ActionLog_push_pop_lifo_witness :
    ActionLog_create.wf ∧
    ((∃ log1 log2, ActionLog_push_back ActionLog_create ⟨0, 2, ⟨1, 1⟩⟩ = some log1 ∧
      ActionLog_pop log1 = some (TUBE_SUCCESS, log2, some ⟨0, 2, ⟨1, 1⟩⟩) ∧
      log2.entries = ActionLog_create.entries ∧ log2.counter = ActionLog_create.counter) ∧
    (∃ logn logf,
      push_all ActionLog_create [⟨0, 2, ⟨1, 1⟩⟩, ⟨1, 0, ⟨0, 1⟩⟩, ⟨1, 2, ⟨1, 1⟩⟩] = some logn ∧
      pop_n ([⟨0, 2, ⟨1, 1⟩⟩, ⟨1, 0, ⟨0, 1⟩⟩, ⟨1, 2, ⟨1, 1⟩⟩] : List Action).length logn
        = some (([⟨0, 2, ⟨1, 1⟩⟩, ⟨1, 0, ⟨0, 1⟩⟩, ⟨1, 2, ⟨1, 1⟩⟩] : List Action).reverse, logf) ∧
      logf.entries = ActionLog_create.entries)) :=
  ⟨by decide,
    ActionLog_push_pop_lifo ActionLog_create ⟨0, 2, ⟨1, 1⟩⟩
      [⟨0, 2, ⟨1, 1⟩⟩, ⟨1, 0, ⟨0, 1⟩⟩, ⟨1, 2, ⟨1, 1⟩⟩] (by decide)⟩

/-! ## What `GameInfo_pour` does to board and log -/

theorem Tube_pour_success_chunk (src dst : Tube) (res : PourResult)
    (h : Tube_pour src dst = some res) (hok : res.ret = TUBE_SUCCESS) :
    res.chunk = some (Tube_get_top_chunk src) := by
  dsimp only [Tube_pour] at h
  split_ifs at h with h0
  · simp only [Option.some.injEq] at h; subst h; exact absurd hok failure_ne_success
  · cases hp : Tube_push_chunk dst (Tube_get_top_chunk src) with
    | none => rw [hp] at h; exact absurd h (by simp)
    | some p =>
      obtain ⟨ret, dst1⟩ := p
      rw [hp] at h
      simp only at h
      split_ifs at h with h1
      · simp only [Option.some.injEq] at h; subst h; exact absurd hok failure_ne_success
      · cases hq : Tube_pop_chunk src with
        | none => rw [hq] at h; exact absurd h (by simp)
        | some src1 =>
          rw [hq] at h
          simp only [Option.some.injEq] at h; subst h
          rfl

theorem tube_at_set_tube_other (info : GameInfo) (i k : Int) (t : Tube) (hi : 0 ≤ i)
    (hik : k ≠ i) : (info.set_tube i t).tube_at k = info.tube_at k := by
  by_cases hk : 0 ≤ k
  · exact tube_at_set_tube_ne info i k t hi hk (Ne.symm hik)
  · unfold GameInfo.tube_at
    rw [if_pos (by omega), if_pos (by omega)]

/-- C15 (board pour logs exactly what it did).  For two different in-range
indices and a log as `log.c` keeps it, `GameInfo_pour` returns what
`Tube_pour` returns on the two addressed tubes: on success the board has
the two tubes as `Tube_pour` left them and every other tube as it was, and
the log holds its old entries followed by the one action (`i_src`, `i_dst`,
chunk moved); on failure board and log are as they were. -/
theorem GameInfo_pour_logs (info : GameInfo) (log : ActionLog) (i j : Int)
    (hi0 : 0 ≤ i) (hi1 : i < info.num_tubes) (hj0 : 0 ≤ j) (hj1 : j < info.num_tubes)
    (hij : i ≠ j) (hwf : log.wf) :
    ∃ src dst r, info.tube_at i = some src ∧ info.tube_at j = some dst ∧
      Tube_pour src dst = some r ∧
      (r.ret = TUBE_SUCCESS →
        ∃ c info1 log1, r.chunk = some c ∧
          GameInfo_pour info i j log = some (TUBE_SUCCESS, info1, log1) ∧
          log1.entries = log.entries ++ [⟨i, j, c⟩] ∧
          info1.tube_at i = some r.src ∧ info1.tube_at j = some r.dst ∧
          (∀ k : Int, k ≠ i → k ≠ j → info1.tube_at k = info.tube_at k) ∧
          info1.num_tubes = info.num_tubes) ∧
      (r.ret ≠ TUBE_SUCCESS → GameInfo_pour info i j log = some (TUBE_FAILURE, info, log)) := by
  obtain ⟨src, hsrc⟩ := tube_at_of_range info i hi0 hi1
  obtain ⟨dst, hdst⟩ := tube_at_of_range info j hj0 hj1
  obtain ⟨r, hr⟩ := Tube_pour_defined src dst
  have hpt : GameInfo_pour_tubes info i j
      = some (r, (info.set_tube i r.src).set_tube j r.dst) := by
    unfold GameInfo_pour_tubes
    rw [hsrc, hdst]
    simp only
    rw [if_neg hij, hr]
    rfl
  refine ⟨src, dst, r, hsrc, hdst, hr, ?_, ?_⟩
  · intro hok
    have hc := Tube_pour_success_chunk src dst r hr hok
    obtain ⟨l1, hl1⟩ := ActionLog_push_back_wf log ⟨i, j, Tube_get_top_chunk src⟩ hwf
    refine ⟨_, (info.set_tube i r.src).set_tube j r.dst, l1, hc, ?_,
      (ActionLog_push_back_some log l1 _ hl1).1, ?_, ?_, ?_, ?_⟩
    · unfold GameInfo_pour
      rw [if_neg (by omega), hpt]
      simp only
      rw [if_neg (by rw [hok]; simp), hc]
      simp only [Option.getD_some]
      rw [hl1]
    · rw [tube_at_set_tube_other _ j i _ hj0 hij]
      exact tube_at_set_tube_self info i _ src hsrc
    · apply tube_at_set_tube_self _ j _ dst
      rw [tube_at_set_tube_other _ i j _ hi0 (Ne.symm hij)]
      exact hdst
    · intro k hki hkj
      rw [tube_at_set_tube_other _ j k _ hj0 hkj, tube_at_set_tube_other _ i k _ hi0 hki]
    · rw [num_tubes_set_tube, num_tubes_set_tube]
  · intro hf
    have hunch := Tube_pour_failure_unchanged src dst r hr hf
    unfold GameInfo_pour
    rw [if_neg (by omega), hpt]
    simp only
    rw [if_pos hf, hunch.1, hunch.2.1, set_tube_self info i src hsrc,
      set_tube_self info j dst hdst]

theorem GameInfo_pour_logs_witness :
    (0 : Int) ≤ 0 ∧ (0 : Int) < (⟨1, [[0, 1], [1, 0], [-1, -1]], 0⟩ : GameInfo).num_tubes ∧
    (0 : Int) ≤ 2 ∧ (2 : Int) < (⟨1, [[0, 1], [1, 0], [-1, -1]], 0⟩ : GameInfo).num_tubes ∧
    (0 : Int) ≠ 2 ∧ ActionLog_create.wf ∧
    ∃ src dst r,
      (⟨1, [[0, 1], [1, 0], [-1, -1]], 0⟩ : GameInfo).tube_at 0 = some src ∧
      (⟨1, [[0, 1], [1, 0], [-1, -1]], 0⟩ : GameInfo).tube_at 2 = some dst ∧
      Tube_pour src dst = some r ∧
      (r.ret = TUBE_SUCCESS →
        ∃ c info1 log1, r.chunk = some c ∧
          GameInfo_pour ⟨1, [[0, 1], [1, 0], [-1, -1]], 0⟩ 0 2 ActionLog_create
            = some (TUBE_SUCCESS, info1, log1) ∧
          log1.entries = ActionLog_create.entries ++ [⟨0, 2, c⟩] ∧
          info1.tube_at 0 = some r.src ∧ info1.tube_at 2 = some r.dst ∧
          (∀ k : Int, k ≠ 0 → k ≠ 2 →
            info1.tube_at k = (⟨1, [[0, 1], [1, 0], [-1, -1]], 0⟩ : GameInfo).tube_at k) ∧
          info1.num_tubes = (⟨1, [[0, 1], [1, 0], [-1, -1]], 0⟩ : GameInfo).num_tubes) ∧
      (r.ret ≠ TUBE_SUCCESS →
        GameInfo_pour ⟨1, [[0, 1], [1, 0], [-1, -1]], 0⟩ 0 2 ActionLog_create
          = some (TUBE_FAILURE, ⟨1, [[0, 1], [1, 0], [-1, -1]], 0⟩, ActionLog_create)) :=
  ⟨by decide, by decide, by decide, by decide, by decide, by decide,
    GameInfo_pour_logs ⟨1, [[0, 1], [1, 0], [-1, -1]], 0⟩ ActionLog_create 0 2
      (by decide) (by decide) (by decide) (by decide) (by decide) (by decide)⟩

/-! ## Indices `GameInfo_pour` does not guard against -/

/-- C13 at the board `[A,A]`, `[B,B]`, `[]` with `i_src = -1`, `i_dst = 0`
(the interactive input `0 1`): `GameInfo_pour` only compares the indices with
`num_tubes` from above, so it goes on to read `info->tubes[-1]`, outside the
array, and has no defined result; an index that is too large does give
failure with board and log as they were. -/
theorem GameInfo_pour_negative_index :
    GameInfo_pour example_board (-1) 0 ActionLog_create = none ∧
    GameInfo_pour example_board 3 0 ActionLog_create
      = some (TUBE_FAILURE, example_board, ActionLog_create) := by
  constructor
  · rfl
  · rfl

/-- C12 at the board `[A,-]`, `[B,A]`, `[B,-]` (reached from `[A,B]`, `[B,A]`,
`[]` by the pour 1 to 3) with `i_src = i_dst = 0`: `GameInfo_pour` returns
success, and colour `A = 0`, held by two slots before the call, is held by
one slot after it, because the chunk is pushed onto the tube it is then
popped from together with the slot below it. -/
theorem GameInfo_pour_same_index_loses_colour :
    board_packed ⟨1, [[0, -1], [1, 0], [1, -1]], 0⟩ ∧
    (∃ log1, GameInfo_pour ⟨1, [[0, -1], [1, 0], [1, -1]], 0⟩ 0 0 ActionLog_create
      = some (TUBE_SUCCESS, ⟨1, [[-1, -1], [1, 0], [1, -1]], 0⟩, log1)) ∧
    board_count 0 [[0, -1], [1, 0], [1, -1]] = 2 ∧
    board_count 0 [[-1, -1], [1, 0], [1, -1]] = 1 := by
  refine ⟨by decide, ⟨_, rfl⟩, by decide, by decide⟩

/-! ## The top chunk of an arbitrary tube -/

theorem scan_top_spec (t : Tube) (i : Nat) :
    scan_top t i ≤ i ∧
    (∀ j, scan_top t i ≤ j → j < i → slot_color t j = EMPTY_COLOR_INDEX) ∧
    (0 < scan_top t i → slot_color t (scan_top t i - 1) ≠ EMPTY_COLOR_INDEX) := by
  induction i with
  | zero => simp [scan_top]
  | succ i ih =>
    simp only [scan_top]
    by_cases h : slot_color t i ≠ EMPTY_COLOR_INDEX
    · rw [if_pos h]
      refine ⟨le_refl _, fun j h1 h2 => by omega, fun _ => by simpa using h⟩
    · rw [if_neg h]
      obtain ⟨h1, h2, h3⟩ := ih
      refine ⟨by omega, ?_, h3⟩
      intro j hj1 hj2
      by_cases hji : j = i
      · subst hji; simpa using h
      · exact h2 j hj1 (by omega)

theorem count_run_spec (t : Tube) (c : Int) (i : Nat) :
    count_run t c i ≤ i ∧
    (∀ j, i - count_run t c i ≤ j → j < i → slot_color t j = c) ∧
    (count_run t c i < i → slot_color t (i - count_run t c i - 1) ≠ c) := by
  induction i with
  | zero => simp [count_run]
  | succ i ih =>
    simp only [count_run]
    by_cases h : slot_color t i ≠ c
    · rw [if_pos h]
      refine ⟨by omega, fun j h1 h2 => by omega, fun _ => by simpa using h⟩
    · rw [if_neg h]
      obtain ⟨h1, h2, h3⟩ := ih
      refine ⟨by omega, ?_, ?_⟩
      · intro j hj1 hj2
        by_cases hji : j = i
        · subst hji; simpa using h
        · exact h2 j (by omega) (by omega)
      · intro hlt
        have := h3 (by omega)
        rw [show i + 1 - (count_run t c i + 1) - 1 = i - count_run t c i - 1 by omega]
        exact this

theorem all_empty_iff_slots (t : Tube) :
    all_empty t ↔ ∀ j, j < t.length → slot_color t j = EMPTY_COLOR_INDEX := by
  constructor
  · intro h j hj
    exact h _ (slot_color_mem t j hj)
  · intro h x hx
    obtain ⟨n, hn, rfl⟩ := List.getElem_of_mem hx
    have := h n hn
    unfold slot_color at this
    rw [List.getD_eq_getElem _ _ hn] at this
    exact this

theorem split_trailing_empty (t : Tube) :
    ∃ (p : Tube) (m : Nat), t = p ++ List.replicate m EMPTY_COLOR_INDEX ∧
      ends_off p EMPTY_COLOR_INDEX := by
  induction t using List.reverseRecOn with
  | nil => exact ⟨[], 0, rfl, by intro x hx; simp at hx⟩
  | append_singleton t1 x ih =>
    by_cases hx : x = EMPTY_COLOR_INDEX
    · obtain ⟨p, m, rfl, hp⟩ := ih
      refine ⟨p, m + 1, ?_, hp⟩
      rw [hx, List.append_assoc, ← List.replicate_succ']
    · refine ⟨t1 ++ [x], 0, by simp, ?_⟩
      intro y hy
      simp only [List.getLast?_append, List.getLast?_singleton, Option.or_some,
        Option.some.injEq] at hy
      rw [← hy]; exact hx

theorem scan_top_ends_off (p : Tube) (hp : ends_off p EMPTY_COLOR_INDEX) :
    scan_top p p.length = p.length := by
  rcases List.eq_nil_or_concat p with rfl | ⟨b, x, rfl⟩
  · rfl
  · simp only [List.concat_eq_append] at *
    have hx : x ≠ EMPTY_COLOR_INDEX := hp x (by simp)
    rw [List.length_append, List.length_singleton]
    simp only [scan_top]
    rw [slot_color_append_length, slot_color_cons_zero]
    simp [hx]

theorem scan_top_general (p : Tube) (m : Nat) (hp : ends_off p EMPTY_COLOR_INDEX) :
    scan_top (p ++ List.replicate m EMPTY_COLOR_INDEX)
      (p ++ List.replicate m EMPTY_COLOR_INDEX).length = p.length := by
  rw [List.length_append, List.length_replicate, scan_top_skip p m m (le_refl _),
    scan_top_ends_off p hp]

theorem open_end_view_general (p : Tube) (m : Nat) (hp : ends_off p EMPTY_COLOR_INDEX) :
    open_end_view (p ++ List.replicate m EMPTY_COLOR_INDEX) = p.reverse := by
  unfold open_end_view
  rw [List.reverse_append, List.reverse_replicate,
    List.dropWhile_append_of_pos (by intro x hx; simp [(List.mem_replicate.1 hx).2])]
  cases h : p.reverse with
  | nil => rfl
  | cons x rest =>
    have hx : x ≠ EMPTY_COLOR_INDEX := hp x (by rw [← List.head?_reverse, h]; rfl)
    rw [List.dropWhile_cons_of_neg (by simpa using hx)]

theorem ends_off_run (b : Tube) (r : Nat) (c : Int) (hc : c ≠ EMPTY_COLOR_INDEX) :
    ends_off (b ++ List.replicate (r + 1) c) EMPTY_COLOR_INDEX := by
  intro x hx
  simp [List.getLast?_replicate] at hx
  rw [← hx]; exact hc

theorem Tube_get_top_chunk_general (b : Tube) (r m : Nat) (c : Int)
    (hc : c ≠ EMPTY_COLOR_INDEX) (hoff : ends_off b c) :
    Tube_get_top_chunk (b ++ List.replicate (r + 1) c ++ List.replicate m EMPTY_COLOR_INDEX)
      = ⟨c, ((r + 1 : Nat) : Int)⟩ := by
  dsimp only [Tube_get_top_chunk]
  rw [scan_top_general _ m (ends_off_run b r c hc), color_at_top_append]
  have hlast : (b ++ List.replicate (r + 1) c).getLast?.getD EMPTY_COLOR_INDEX = c := by
    simp [List.getLast?_replicate]
  simp only [hlast]
  rw [List.length_append, List.length_replicate,
    count_run_shape b _ c (r + 1) (r + 1) (le_refl _) hoff]

theorem top_chunk_of_general (b : Tube) (r m : Nat) (c : Int)
    (hc : c ≠ EMPTY_COLOR_INDEX) (hoff : ends_off b c) :
    top_chunk_of (b ++ List.replicate (r + 1) c ++ List.replicate m EMPTY_COLOR_INDEX)
      = ⟨c, ((r + 1 : Nat) : Int)⟩ := by
  have hview := open_end_view_general _ m (ends_off_run b r c hc)
  have htc : top_color (b ++ List.replicate (r + 1) c ++ List.replicate m EMPTY_COLOR_INDEX)
      = some c := by
    unfold top_color
    rw [hview, List.head?_reverse]
    simp [List.getLast?_replicate]
  have hrun : top_run (b ++ List.replicate (r + 1) c ++ List.replicate m EMPTY_COLOR_INDEX)
      = r + 1 := by
    unfold top_run
    rw [htc]
    simp only
    rw [hview, List.reverse_append, List.reverse_replicate,
      List.takeWhile_append_of_pos (by intro x hx; simp [(List.mem_replicate.1 hx).2])]
    have : List.takeWhile (fun x => x == c) b.reverse = [] := by
      cases h : b.reverse with
      | nil => rfl
      | cons x rest =>
        have hx : x ≠ c := hoff x (by
          rw [← List.head?_reverse, h]; rfl)
        rw [List.takeWhile_cons_of_neg (by simpa using hx)]
    rw [this]; simp
  unfold top_chunk_of
  rw [htc, hrun]; rfl

theorem Tube_get_top_chunk_eq_top_chunk_of (t : Tube) :
    Tube_get_top_chunk t = top_chunk_of t := by
  obtain ⟨p, m, rfl, hp⟩ := split_trailing_empty t
  by_cases hne : p = []
  · subst hne
    rw [List.nil_append, Tube_get_top_chunk_empty, top_chunk_of_empty]
  · obtain ⟨b, r, c, rfl, hoff⟩ := top_run_split p hne
    have hc : c ≠ EMPTY_COLOR_INDEX := hp c (by simp [List.getLast?_replicate])
    rw [Tube_get_top_chunk_general b r m c hc hoff, top_chunk_of_general b r m c hc hoff]

/-- C18 (top chunk).  For every tube: if every slot is empty,
`Tube_get_top_chunk` returns `(EMPTY_COLOR_INDEX, 0)`; otherwise it returns
the colour `c` of the non-empty slot of highest index `i` and the length `k`
of the maximal run of slots of colour `c` that ends at `i`, with
`1 <= k <= i + 1 <= num_slots`.  In both cases this is the top chunk as the
specification describes it, and the tube `[A,A]` has top chunk `(A,2)`. -/
theorem Tube_get_top_chunk_spec (t : Tube) :
    (all_empty t → Tube_get_top_chunk t = ⟨EMPTY_COLOR_INDEX, 0⟩) ∧
    (¬ all_empty t →
      ∃ (i k : Nat), i < t.length ∧ slot_color t i ≠ EMPTY_COLOR_INDEX ∧
        (∀ j, i < j → j < t.length → slot_color t j = EMPTY_COLOR_INDEX) ∧
        Tube_get_top_chunk t = ⟨slot_color t i, (k : Int)⟩ ∧
        1 ≤ k ∧ k ≤ i + 1 ∧
        (∀ j, i + 1 - k ≤ j → j ≤ i → slot_color t j = slot_color t i) ∧
        (k ≤ i → slot_color t (i - k) ≠ slot_color t i)) ∧
    Tube_get_top_chunk t = top_chunk_of t ∧
    Tube_get_top_chunk [0, 0] = ⟨0, 2⟩ := by
  obtain ⟨h1, h2, h3⟩ := scan_top_spec t t.length
  refine ⟨?_, ?_, Tube_get_top_chunk_eq_top_chunk_of t, by decide⟩
  · intro he
    have h0 : scan_top t t.length = 0 := by
      by_contra hne
      have hpos : 0 < scan_top t t.length := Nat.pos_of_ne_zero hne
      exact h3 hpos ((all_empty_iff_slots t).1 he _ (by omega))
    dsimp only [Tube_get_top_chunk]
    rw [h0]
    rfl
  · intro hne
    have hpos : 0 < scan_top t t.length := by
      by_contra h0
      apply hne
      rw [all_empty_iff_slots]
      intro j hj
      exact h2 j (by omega) hj
    obtain ⟨i, hi⟩ : ∃ i, scan_top t t.length = i + 1 := ⟨scan_top t t.length - 1, by omega⟩
    rw [hi] at h1 h2 h3
    simp only [Nat.add_sub_cancel] at h3
    have h3' := h3 (by omega)
    obtain ⟨c1, c2, c3⟩ := count_run_spec t (slot_color t i) (i + 1)
    have hk : 1 ≤ count_run t (slot_color t i) (i + 1) := by
      simp only [count_run]
      simp
    refine ⟨i, count_run t (slot_color t i) (i + 1), by omega, h3', ?_, ?_, hk, c1, ?_, ?_⟩
    · intro j hj1 hj2
      exact h2 j (by omega) hj2
    · dsimp only [Tube_get_top_chunk]
      rw [hi]
      rfl
    · intro j hj1 hj2
      exact c2 j hj1 (by omega)
    · intro hle
      have := c3 (by omega)
      rw [show i + 1 - count_run t (slot_color t i) (i + 1) - 1
        = i - count_run t (slot_color t i) (i + 1) by omega] at this
      exact this

/-! ## Undoing a found solution -/

theorem unwind_actions_append (info info1 info2 : GameInfo) (xs ys : List Action)
    (h1 : unwind_actions info xs = some info1) (h2 : unwind_actions info1 ys = some info2) :
    unwind_actions info (xs ++ ys) = some info2 := by
  induction xs generalizing info with
  | nil =>
    simp only [unwind_actions, Option.some.injEq] at h1
    subst h1
    exact h2
  | cons a rest ih =>
    simp only [unwind_actions, List.cons_append] at h1 ⊢
    cases hr : GameInfo_revert_tubes info a with
    | none => rw [hr] at h1; simp at h1
    | some i0 =>
      rw [hr] at h1
      simp only at h1 ⊢
      exact ih i0 h1

theorem GameInfo_solver_loop_dst_from_wf (i_src : Nat) :
    ∀ (n i_dst : Nat) (info : GameInfo) (log : ActionLog) (ret : Int) (info1 : GameInfo)
      (log1 : ActionLog), board_packed info → log.wf →
      GameInfo_solver_loop_dst_from i_src n i_dst info log = some (ret, info1, log1) →
      log1.wf := by
  intro n
  induction n with
  | zero =>
    intro i_dst info log ret info1 log1 _ hwf h
    simp only [GameInfo_solver_loop_dst_from, Option.some.injEq, Prod.mk.injEq] at h
    rw [← h.2.2]; exact hwf
  | succ n ih =>
    intro i_dst info log ret info1 log1 hp hwf h
    simp only [GameInfo_solver_loop_dst_from] at h
    split_ifs at h with h0
    · exact ih _ _ _ _ _ _ hp hwf h
    · cases hpl : GameInfo_pour_is_pointless info i_src i_dst with
      | none => rw [hpl] at h; simp at h
      | some b =>
        rw [hpl] at h
        cases b with
        | true => exact ih _ _ _ _ _ _ hp hwf h
        | false =>
          simp only at h
          cases hpour : GameInfo_pour info (i_src : Int) (i_dst : Int) log with
          | none => rw [hpour] at h; simp at h
          | some p =>
            obtain ⟨r, i1, l1⟩ := p
            rw [hpour] at h
            simp only at h
            split_ifs at h with h1
            · simp only [Option.some.injEq, Prod.mk.injEq] at h
              obtain ⟨rfl, rfl, rfl⟩ := h
              subst h1
              have hne : (i_src : Int) ≠ (i_dst : Int) := by
                intro e; exact h0 (by exact_mod_cast e.symm)
              obtain ⟨a, _, _, _, hwf1, _⟩ :=
                GameInfo_pour_success info i1 _ _ log l1 hp hne hpour
              exact hwf1
            · obtain ⟨rfl, rfl⟩ := GameInfo_pour_failure info i1 _ _ log l1 r hpour h1
              exact ih _ _ _ _ _ _ hp hwf h

theorem GameInfo_solver_loop_src_from_restore
    (again : GameInfo → ActionLog → Option (Bool × GameInfo × ActionLog))
    (hag : search_contract again) (hag2 : restore_contract again) :
    ∀ n i_src : Nat, restore_contract (GameInfo_solver_loop_src_from again n i_src) := by
  intro n
  induction n with
  | zero =>
    intro i_src info log res info1 log1 hp hwf h
    simp only [GameInfo_solver_loop_src_from, Option.some.injEq, Prod.mk.injEq] at h
    obtain ⟨rfl, rfl, rfl⟩ := h
    exact ⟨hwf, fun h => absurd h (by simp)⟩
  | succ n ih =>
    intro i_src info log res info1 log1 hp hwf h
    simp only [GameInfo_solver_loop_src_from] at h
    cases ht : info.tubes[i_src]? with
    | none => rw [ht] at h; simp at h
    | some tube =>
      rw [ht] at h
      simp only at h
      cases hpure : Tube_is_pure tube with
      | none => rw [hpure] at h; simp at h
      | some b =>
        rw [hpure] at h
        cases b with
        | true => exact ih _ _ _ _ _ _ hp hwf h
        | false =>
          simp only at h
          cases hd : GameInfo_solver_loop_dst info log i_src with
          | none => rw [hd] at h; simp at h
          | some p =>
            obtain ⟨r, i1, l1⟩ := p
            rw [hd] at h
            simp only at h
            have hwf1 := GameInfo_solver_loop_dst_from_wf i_src _ _ info log r i1 l1 hp hwf hd
            rcases GameInfo_solver_loop_dst_from_spec i_src _ _ info log r i1 l1 hp hd with
              ⟨rfl, rfl, rfl⟩ | ⟨rfl, a, hent, hrev, hpk, _⟩
            · rw [if_neg failure_ne_success] at h
              exact ih _ _ _ _ _ _ hp hwf h
            · rw [if_pos rfl] at h
              have hone : unwind_actions i1 [a] = some info := by
                simp only [unwind_actions, hrev]
              cases hs : GameInfo_is_solved i1 with
              | none => rw [hs] at h; simp at h
              | some sb =>
                rw [hs] at h
                cases sb with
                | true =>
                  simp only [Option.some.injEq, Prod.mk.injEq] at h
                  obtain ⟨rfl, rfl, rfl⟩ := h
                  exact ⟨hwf1, fun _ => ⟨[a], hent, hone⟩⟩
                | false =>
                  simp only at h
                  cases hr : again i1 l1 with
                  | none => rw [hr] at h; simp at h
                  | some q =>
                    obtain ⟨rb, i2, l2⟩ := q
                    rw [hr] at h
                    obtain ⟨_, hfalse, _⟩ := hag i1 l1 rb i2 l2 hpk hr
                    obtain ⟨hwf2, htrue2⟩ := hag2 i1 l1 rb i2 l2 hpk hwf1 hr
                    cases rb with
                    | true =>
                      simp only [Option.some.injEq, Prod.mk.injEq] at h
                      obtain ⟨rfl, rfl, rfl⟩ := h
                      obtain ⟨acts, hent2, hun⟩ := htrue2 rfl
                      refine ⟨hwf2, fun _ => ⟨a :: acts, ?_, ?_⟩⟩
                      · rw [hent2, hent]; simp
                      · rw [List.reverse_cons]
                        exact unwind_actions_append _ _ _ _ _ hun hone
                    | false =>
                      simp only at h
                      obtain ⟨rfl, hent2⟩ := hfalse rfl
                      cases hrv : GameInfo_revert_one i2 l2 with
                      | none => rw [hrv] at h; simp at h
                      | some q3 =>
                        obtain ⟨r3, i3, l3⟩ := q3
                        rw [hrv] at h
                        simp only at h
                        obtain ⟨_, rfl, hent3, hact3, hcnt3⟩ := GameInfo_revert_one_last i2 info
                          l2 a log.entries (by rw [hent2, hent]) hrev r3 i3 l3 hrv
                        have hwf3 : l3.wf := by
                          unfold ActionLog.wf at hwf2 ⊢
                          rw [hact3]; omega
                        obtain ⟨hwf4, ht4⟩ := ih _ _ _ _ _ _ hp hwf3 h
                        refine ⟨hwf4, fun hres => ?_⟩
                        obtain ⟨acts, e1, e2⟩ := ht4 hres
                        exact ⟨acts, by rw [e1, hent3], e2⟩

theorem GameInfo_solver_loop_src_restore :
    ∀ fuel : Nat, restore_contract (GameInfo_solver_loop_src fuel) := by
  intro fuel
  induction fuel with
  | zero =>
    intro info log res info1 log1 _ _ h
    simp [GameInfo_solver_loop_src] at h
  | succ fuel ih =>
    intro info log res info1 log1 hp hwf h
    simp only [GameInfo_solver_loop_src] at h
    exact GameInfo_solver_loop_src_from_restore _ (GameInfo_solver_loop_src_spec fuel) ih _ _
      info log res info1 log1 hp hwf h

/-- C20 (restoring after a solve).  When `GameInfo_find_solution` on a board
of packed tubes returns true and hands back the log `L`,
`GameInfo_revert_all` with `ActionLog_duplicate(L)` returns the board as it
was at the solver's invocation and a duplicate without entries, while `L`
itself still holds the non-empty list of actions that replays, in order,
from that board to the solved one. -/
theorem GameInfo_find_solution_revert_duplicate (fuel : Nat) (info info1 : GameInfo)
    (log L : ActionLog) (hp : board_packed info)
    (h : GameInfo_find_solution fuel info (some log) = some (true, info1, some L)) :
    ∃ dup2, GameInfo_revert_all info1 (ActionLog_duplicate L) = some (info, dup2) ∧
      dup2.entries = [] ∧ dup2.counter = 0 ∧
      L.entries ≠ [] ∧ replay_actions info L.entries = some info1 := by
  dsimp only [GameInfo_find_solution] at h
  cases hs : GameInfo_solver_loop_src fuel info ActionLog_create with
  | none => rw [hs] at h; simp at h
  | some p =>
    obtain ⟨res, i1, l1⟩ := p
    rw [hs] at h
    simp only at h
    split_ifs at h with hc
    · simp only [Option.some.injEq, Prod.mk.injEq] at h
      obtain ⟨rfl, rfl, rfl⟩ := h
      obtain ⟨_, _, htrue⟩ := GameInfo_solver_loop_src_spec fuel info ActionLog_create true i1 l1 hp hs
      obtain ⟨hwf, hun⟩ := GameInfo_solver_loop_src_restore fuel info ActionLog_create true i1 l1
        hp ActionLog_create_wf hs
      obtain ⟨acts, hne, hent, hrep, _⟩ := htrue rfl
      obtain ⟨acts2, hent2, hunw⟩ := hun rfl
      rw [ActionLog_create_entries, List.nil_append] at hent hent2
      have hdup : ActionLog_duplicate l1 = l1 := rfl
      obtain ⟨dup2, h2, e2, c2⟩ :=
        GameInfo_revert_all_loop_unwind info l1.entries.reverse i1 l1 hwf rfl
          (by rw [hent2]; exact hunw)
      refine ⟨dup2, ?_, e2, c2, by rw [hent]; exact hne, by rw [hent]; exact hrep⟩
      rw [hdup]
      unfold GameInfo_revert_all
      rw [← ActionLog_entries_length l1 hwf, ← List.length_reverse]
      exact h2
    · simp only [Option.some.injEq, Prod.mk.injEq] at h
      exact absurd ⟨rfl, h.1⟩ hc

theorem GameInfo_find_solution_revert_duplicate_witness :
    board_packed ⟨1, [[0, 1], [1, 0], [-1, -1]], 0⟩ ∧
    GameInfo_find_solution 3 ⟨1, [[0, 1], [1, 0], [-1, -1]], 0⟩ (some ActionLog_create)
      = some (true, ⟨1, [[0, 0], [-1, -1], [1, 1]], 0⟩,
          some ⟨⟨0, 2, ⟨1, 1⟩⟩ :: ⟨1, 0, ⟨0, 1⟩⟩ :: ⟨1, 2, ⟨1, 1⟩⟩
            :: List.replicate 61 blank_action, 3⟩) ∧
    ∃ dup2,
      GameInfo_revert_all ⟨1, [[0, 0], [-1, -1], [1, 1]], 0⟩
        (ActionLog_duplicate ⟨⟨0, 2, ⟨1, 1⟩⟩ :: ⟨1, 0, ⟨0, 1⟩⟩ :: ⟨1, 2, ⟨1, 1⟩⟩
          :: List.replicate 61 blank_action, 3⟩)
        = some (⟨1, [[0, 1], [1, 0], [-1, -1]], 0⟩, dup2) ∧
      dup2.entries = [] ∧ dup2.counter = 0 ∧
      (⟨⟨0, 2, ⟨1, 1⟩⟩ :: ⟨1, 0, ⟨0, 1⟩⟩ :: ⟨1, 2, ⟨1, 1⟩⟩
          :: List.replicate 61 blank_action, 3⟩ : ActionLog).entries ≠ [] ∧
      replay_actions ⟨1, [[0, 1], [1, 0], [-1, -1]], 0⟩
        (⟨⟨0, 2, ⟨1, 1⟩⟩ :: ⟨1, 0, ⟨0, 1⟩⟩ :: ⟨1, 2, ⟨1, 1⟩⟩
          :: List.replicate 61 blank_action, 3⟩ : ActionLog).entries
        = some ⟨1, [[0, 0], [-1, -1], [1, 1]], 0⟩ :=
  ⟨by decide, by rfl,
    GameInfo_find_solution_revert_duplicate 3 ⟨1, [[0, 1], [1, 0], [-1, -1]], 0⟩
      ⟨1, [[0, 0], [-1, -1], [1, 1]], 0⟩ ActionLog_create _ (by decide) (by rfl)⟩

/-! ## What an accepted slot list looks like -/

theorem count_empty_cells_spec :
    ∀ (l : List Int) (k idx : Nat), count_empty_cells l k = some idx →
      ∃ (m : Nat) (x : Int) (rest : List Int), idx = k + m ∧
        l = List.replicate m EMPTY_COLOR_INDEX ++ x :: rest ∧ x ≠ EMPTY_COLOR_INDEX := by
  intro l
  induction l with
  | nil => intro k idx h; simp [count_empty_cells] at h
  | cons c rest ih =>
    intro k idx h
    simp only [count_empty_cells] at h
    split_ifs at h with hc
    · obtain ⟨m, x, r, e1, e2, e3⟩ := ih (k + 1) idx h
      refine ⟨m + 1, x, r, by omega, ?_, e3⟩
      rw [hc, e2, List.replicate_succ, List.cons_append]
    · simp only [Option.some.injEq] at h
      exact ⟨0, c, rest, by omega, by simp, hc⟩

theorem check_color_runs_sorted (ns : Nat) :
    ∀ (rest : List Int) (a : Int) (ctr : Nat),
      List.Sorted (fun x y : Int => x ≤ y) (a :: rest) →
      check_color_runs ns (a :: rest) ctr = true →
      ((∃ w ∈ rest, a < w) → List.count a (a :: rest) + ctr = ns + 1) ∧
      (∀ v ∈ rest, v ≠ a → (∃ w ∈ rest, v < w) → List.count v rest = ns) := by
  intro rest
  induction rest with
  | nil =>
    intro a ctr _ _
    exact ⟨fun ⟨w, hw, _⟩ => by simp at hw, fun v hv => by simp at hv⟩
  | cons b rest1 ih =>
    intro a ctr hs hchk
    obtain ⟨hle, hs1⟩ := List.sorted_cons.1 hs
    obtain ⟨hle1, _⟩ := List.sorted_cons.1 hs1
    have hab : a ≤ b := hle b (by simp)
    simp only [check_color_runs] at hchk
    by_cases heq : a = b
    · subst heq
      rw [if_pos rfl] at hchk
      obtain ⟨p1, p2⟩ := ih a (ctr + 1) hs1 hchk
      constructor
      · rintro ⟨w, hw, haw⟩
        have hw1 : w ∈ rest1 := by
          rcases List.mem_cons.1 hw with e | e
          · omega
          · exact e
        have := p1 ⟨w, hw1, haw⟩
        rw [List.count_cons_self]
        omega
      · intro v hv hva ⟨w, hw, hvw⟩
        have hv1 : v ∈ rest1 := by
          rcases List.mem_cons.1 hv with e | e
          · exact absurd e hva
          · exact e
        have hw1 : w ∈ rest1 := by
          rcases List.mem_cons.1 hw with e | e
          · have := hle1 v hv1
            omega
          · exact e
        rw [List.count_cons_of_ne hva]
        exact p2 v hv1 hva ⟨w, hw1, hvw⟩
    · rw [if_neg heq] at hchk
      split_ifs at hchk with hctr
      have hctr1 : ctr = ns := by
        by_contra hne; exact hctr hne
      obtain ⟨p1, p2⟩ := ih b 1 hs1 hchk
      have hnot : a ∉ b :: rest1 := by
        intro hmem
        rcases List.mem_cons.1 hmem with e | e
        · exact heq e
        · have := hle1 a e
          omega
      constructor
      · intro _
        rw [List.count_cons_self, List.count_eq_zero.2 hnot]
        omega
      · intro v hv hva ⟨w, hw, hvw⟩
        by_cases hvb : v = b
        · subst hvb
          have hw1 : w ∈ rest1 := by
            rcases List.mem_cons.1 hw with e | e
            · omega
            · exact e
          have := p1 ⟨w, hw1, hvw⟩
          omega
        · have hv1 : v ∈ rest1 := by
            rcases List.mem_cons.1 hv with e | e
            · exact absurd e hvb
            · exact e
          have hw1 : w ∈ rest1 := by
            rcases List.mem_cons.1 hw with e | e
            · have := hle1 v hv1
              omega
            · exact e
          rw [List.count_cons_of_ne hvb]
          exact p2 v hv1 hvb ⟨w, hw1, hvw⟩

theorem qsort_int_sorted (l : List Int) : List.Sorted (fun x y : Int => x ≤ y) (qsort_int l) :=
  List.sorted_insertionSort (fun x y : Int => x ≤ y) l

theorem qsort_int_perm (l : List Int) : (qsort_int l).Perm l :=
  List.perm_insertionSort (fun x y : Int => x ≤ y) l


theorem Input_sanity_check_success (input input1 : Input)
    (hlen : input.data.length = input.num_slots * input.num_tubes)
    (h : Input_sanity_check input = some (TUBE_SUCCESS, input1)) :
    ∃ (m : Nat) (x : Int) (rest : List Int),
      qsort_int input.data = List.replicate m EMPTY_COLOR_INDEX ++ x :: rest ∧
      x ≠ EMPTY_COLOR_INDEX ∧ 0 < m ∧ input.num_slots ≠ 0 ∧ m % input.num_slots = 0 ∧
      input1 = { input with num_colors := (input.num_tubes : Int) - ((m / input.num_slots : Nat) : Int) } ∧
      check_color_runs input.num_slots (x :: rest) 1 = true := by
  dsimp only [Input_sanity_check] at h
  rw [if_neg (by omega), List.take_of_length_le (by omega)] at h
  cases hce : count_empty_cells (qsort_int input.data) 0 with
  | none => rw [hce] at h; simp at h
  | some idx =>
    rw [hce] at h
    simp only at h
    obtain ⟨m, x, rest, e1, e2, e3⟩ := count_empty_cells_spec _ 0 idx hce
    have hidx : idx = m := by omega
    subst hidx
    split_ifs at h with h0 h1 h2 h3
    · simp only [Option.some.injEq, Prod.mk.injEq] at h
      exact absurd h.1 failure_ne_success
    · simp only [Option.some.injEq, Prod.mk.injEq] at h
      exact absurd h.1 failure_ne_success
    · simp only [Option.some.injEq, Prod.mk.injEq, true_and] at h
      refine ⟨idx, x, rest, e2, e3, by omega, h1, by simpa using h2, h.symm, ?_⟩
      rw [e2, List.drop_left' (by simp)] at h3
      exact h3
    · simp only [Option.some.injEq, Prod.mk.injEq] at h
      exact absurd h.1 failure_ne_success

/-- C11, as the code behaves: in a slot list that `Input_sanity_check` accepts
the number of empty values is a non-zero multiple of `num_slots`, the stored
`num_colors` is `num_tubes` minus that multiple, and every non-empty value
of the list that is not its largest value occurs exactly `num_slots`
times. -/
theorem Input_sanity_check_accepted (input input1 : Input)
    (hlen : input.data.length = input.num_slots * input.num_tubes)
    (h : Input_sanity_check input = some (TUBE_SUCCESS, input1)) :
    0 < List.count EMPTY_COLOR_INDEX input.data ∧
    List.count EMPTY_COLOR_INDEX input.data % input.num_slots = 0 ∧
    input1.num_colors = (input.num_tubes : Int)
      - ((List.count EMPTY_COLOR_INDEX input.data / input.num_slots : Nat) : Int) ∧
    input1.data = input.data ∧
    ∀ v ∈ input.data, v ≠ EMPTY_COLOR_INDEX → (∃ w ∈ input.data, v < w) →
      List.count v input.data = input.num_slots := by
  obtain ⟨m, x, rest, hcpy, hx, hm, _, hmod, hin, hchk⟩ :=
    Input_sanity_check_success input input1 hlen h
  have hperm := qsort_int_perm input.data
  have hsorted := qsort_int_sorted input.data
  rw [hcpy] at hsorted hperm
  obtain ⟨_, hs2, hcross⟩ := List.pairwise_append.1 hsorted
  obtain ⟨hxle, _⟩ := List.sorted_cons.1 hs2
  have hEx : EMPTY_COLOR_INDEX ≤ x :=
    hcross EMPTY_COLOR_INDEX (List.mem_replicate.2 ⟨by omega, rfl⟩) x (by simp)
  have hgt : ∀ b ∈ x :: rest, EMPTY_COLOR_INDEX < b := by
    intro b hb
    rcases List.mem_cons.1 hb with e | e
    · rw [e]; omega
    · have := hxle b e
      omega
  have hnot : EMPTY_COLOR_INDEX ∉ x :: rest := fun hmem => by
    have := hgt _ hmem
    omega
  have hcountE : List.count EMPTY_COLOR_INDEX input.data = m := by
    rw [← hperm.count_eq, List.count_append, List.count_replicate_self,
      List.count_eq_zero.2 hnot]
    rfl
  have htail : ∀ v ∈ input.data, v ≠ EMPTY_COLOR_INDEX → v ∈ x :: rest := by
    intro v hv hne
    rcases List.mem_append.1 (hperm.mem_iff.2 hv) with e | e
    · exact absurd (List.mem_replicate.1 e).2 hne
    · exact e
  rw [hcountE]
  refine ⟨hm, hmod, by rw [hin], by rw [hin], ?_⟩
  intro v hv hne ⟨w, hw, hvw⟩
  have hv1 := htail v hv hne
  have hw1 : w ∈ x :: rest := htail w hw (by have := hgt v hv1; omega)
  obtain ⟨p1, p2⟩ := check_color_runs_sorted input.num_slots rest x 1 hs2 hchk
  have hcv : List.count v input.data = List.count v (x :: rest) := by
    rw [← hperm.count_eq, List.count_append,
      List.count_eq_zero.2 (fun hmem => hne (List.mem_replicate.1 hmem).2)]
    simp
  rw [hcv]
  by_cases hvx : v = x
  · subst hvx
    have hw2 : w ∈ rest := by
      rcases List.mem_cons.1 hw1 with e | e
      · omega
      · exact e
    have := p1 ⟨w, hw2, hvw⟩
    omega
  · have hv2 : v ∈ rest := by
      rcases List.mem_cons.1 hv1 with e | e
      · exact absurd e hvx
      · exact e
    have hw2 : w ∈ rest := by
      rcases List.mem_cons.1 hw1 with e | e
      · have := hxle v hv2
        omega
      · exact e
    rw [List.count_cons_of_ne hvx]
    exact p2 v hv2 hvx ⟨w, hw2, hvw⟩

theorem Input_sanity_check_accepted_witness :
    ([-1, 1, 0, -1, 1, 0] : List Int).length = 2 * 3 ∧
    Input_sanity_check ⟨3, 0, 2, [-1, 1, 0, -1, 1, 0]⟩
      = some (TUBE_SUCCESS, ⟨3, 2, 2, [-1, 1, 0, -1, 1, 0]⟩) ∧
    (0 < List.count EMPTY_COLOR_INDEX [-1, 1, 0, -1, 1, 0] ∧
    List.count EMPTY_COLOR_INDEX [-1, 1, 0, -1, 1, 0] % 2 = 0 ∧
    (2 : Int) = ((3 : Nat) : Int)
      - ((List.count EMPTY_COLOR_INDEX [-1, 1, 0, -1, 1, 0] / 2 : Nat) : Int) ∧
    ([-1, 1, 0, -1, 1, 0] : List Int) = [-1, 1, 0, -1, 1, 0] ∧
    ∀ v ∈ ([-1, 1, 0, -1, 1, 0] : List Int), v ≠ EMPTY_COLOR_INDEX →
      (∃ w ∈ ([-1, 1, 0, -1, 1, 0] : List Int), v < w) →
      List.count v [-1, 1, 0, -1, 1, 0] = 2) :=
  ⟨by decide, by decide,
    Input_sanity_check_accepted ⟨3, 0, 2, [-1, 1, 0, -1, 1, 0]⟩ ⟨3, 2, 2, [-1, 1, 0, -1, 1, 0]⟩
      (by decide) (by decide)⟩

/-- C11, as stated, fails: the rows `-1 -1`, `5 5`, `7 7` (`num_slots = 2`,
`num_tubes = 3`) are accepted with `num_colors = 2`, every value that occurs
does so exactly twice, and yet the colours 0 and 1 below `num_colors` do not
occur at all: the check looks at the lengths of runs of equal values, never
at the values. -/
theorem Input_sanity_check_ignores_labels :
    Input_sanity_check ⟨3, 0, 2, [-1, -1, 5, 5, 7, 7]⟩
      = some (TUBE_SUCCESS, ⟨3, 2, 2, [-1, -1, 5, 5, 7, 7]⟩) ∧
    ¬ (∀ c : Int, 0 ≤ c → c < 2 → List.count c [-1, -1, 5, 5, 7, 7] = 2) := by
  refine ⟨by decide, fun hall => ?_⟩
  have h0 := hall 0 (by decide) (by decide)
  exact absurd h0 (by decide)

/-! ## The single-coloured test -/

theorem Tube_is_one_color_loop_iff (color : Int) (l : List Int) :
    Tube_is_one_color_loop color l = true ↔ ∀ x ∈ l, x ≠ EMPTY_COLOR_INDEX → x = color := by
  induction l with
  | nil => simp [Tube_is_one_color_loop]
  | cons c rest ih =>
    rw [Tube_is_one_color_loop]
    by_cases hc : c = EMPTY_COLOR_INDEX
    · rw [if_pos hc, ih]
      constructor
      · intro h x hx hne
        rcases List.mem_cons.1 hx with rfl | hx
        · exact absurd hc hne
        · exact h x hx hne
      · intro h x hx hne
        exact h x (List.mem_cons_of_mem _ hx) hne
    · rw [if_neg hc]
      by_cases hcc : c = color
      · rw [if_neg (by simpa using hcc), ih]
        constructor
        · intro h x hx hne
          rcases List.mem_cons.1 hx with rfl | hx
          · exact hcc
          · exact h x hx hne
        · intro h x hx hne
          exact h x (List.mem_cons_of_mem _ hx) hne
      · rw [if_pos hcc]
        constructor
        · intro h; exact absurd h (by simp)
        · intro h
          exact absurd (h c (List.mem_cons_self _ _) hc) hcc

theorem Tube_is_one_color_cons (color : Int) (rest : List Int) :
    Tube_is_one_color (color :: rest)
      = some (decide (∀ x ∈ rest, x ≠ EMPTY_COLOR_INDEX → x = color)) := by
  rw [Tube_is_one_color]
  congr 1
  rw [Bool.eq_iff_iff, Tube_is_one_color_loop_iff]
  simp

/-- On a packed tube with a slot, `Tube_is_one_color` tells whether all
non-empty slots hold one colour. -/
theorem Tube_is_one_color_packed (t : Tube) (hp : packed t) (hne : t ≠ []) :
    Tube_is_one_color t
      = some (decide (∀ x ∈ t, ∀ y ∈ t,
          x ≠ EMPTY_COLOR_INDEX → y ≠ EMPTY_COLOR_INDEX → x = y)) := by
  cases t with
  | nil => exact absurd rfl hne
  | cons color rest =>
    rw [Tube_is_one_color_cons]
    congr 1
    rw [decide_eq_decide]
    by_cases hc : color = EMPTY_COLOR_INDEX
    · subst hc
      have hrest := packed_head_empty rest hp
      have hall : ∀ x ∈ rest, x = EMPTY_COLOR_INDEX := by
        intro x hx
        rw [hrest] at hx
        exact (List.mem_replicate.1 hx).2
      constructor
      · intro _ x hx y hy hxn hyn
        rcases List.mem_cons.1 hx with rfl | hx
        · exact absurd rfl hxn
        · exact absurd (hall x hx) hxn
      · intro _ x hx hxn
        exact absurd (hall x hx) hxn
    · constructor
      · intro h x hx y hy hxn hyn
        have hx1 : x = color := by
          rcases List.mem_cons.1 hx with rfl | hx
          · rfl
          · exact h x hx hxn
        have hy1 : y = color := by
          rcases List.mem_cons.1 hy with rfl | hy
          · rfl
          · exact h y hy hyn
        rw [hx1, hy1]
      · intro h x hx hxn
        exact h x (List.mem_cons_of_mem _ hx) color (List.mem_cons_self _ _) hxn hc

/-- C27. For every packed tube with at least one slot, `Tube_is_one_color`
returns a value, and that value is `true` exactly when all non-empty slots of
the tube hold the same colour; in particular it is `true` for a tube whose
slots are all empty. -/
theorem Tube_is_one_color_iff (t : Tube) (hp : packed t) (hne : t ≠ []) :
    ∃ b, Tube_is_one_color t = some b ∧
      (b = true ↔ ∀ x ∈ t, ∀ y ∈ t,
        x ≠ EMPTY_COLOR_INDEX → y ≠ EMPTY_COLOR_INDEX → x = y) ∧
      (all_empty t → b = true) := by
  refine ⟨_, Tube_is_one_color_packed t hp hne, ?_, ?_⟩
  · simp
  · intro he
    rw [decide_eq_true_iff]
    intro x hx y hy hxn hyn
    exact absurd (he x hx) hxn

theorem Tube_is_one_color_iff_witness :
    packed [3, 3, -1] ∧ ([3, 3, -1] : Tube) ≠ [] ∧
    ∃ b, Tube_is_one_color [3, 3, -1] = some b ∧
      (b = true ↔ ∀ x ∈ ([3, 3, -1] : Tube), ∀ y ∈ ([3, 3, -1] : Tube),
        x ≠ EMPTY_COLOR_INDEX → y ≠ EMPTY_COLOR_INDEX → x = y) ∧
      (all_empty [3, 3, -1] → b = true) :=
  ⟨by decide, by decide, Tube_is_one_color_iff [3, 3, -1] (by decide) (by decide)⟩

/-! ## The destination loop of the search -/

theorem tube_at_natCast (info : GameInfo) (n : Nat) :
    info.tube_at (n : Int) = info.tubes[n]? := by
  unfold GameInfo.tube_at
  rw [if_neg (by omega)]
  simp

theorem set_tube_natCast (info : GameInfo) (n : Nat) (t : Tube) :
    info.set_tube (n : Int) t = { info with tubes := info.tubes.set n t } := by
  unfold GameInfo.set_tube
  simp

/-- The call `GameInfo_pour` for two different indices of the board, from the
result of `Tube_pour` on the two tubes. -/
theorem GameInfo_pour_eval (info : GameInfo) (log : ActionLog) (i j : Nat) (src dst : Tube)
    (r : PourResult) (hij : i ≠ j) (hs : info.tubes[i]? = some src)
    (hd : info.tubes[j]? = some dst) (hr : Tube_pour src dst = some r) (hwf : log.wf) :
    (r.ret = TUBE_SUCCESS →
      ∃ log1, GameInfo_pour info i j log
          = some (TUBE_SUCCESS, { info with tubes := (info.tubes.set i r.src).set j r.dst }, log1) ∧
        log1.entries = log.entries ++ [⟨i, j, Tube_get_top_chunk src⟩] ∧ log1.wf) ∧
    (r.ret ≠ TUBE_SUCCESS → GameInfo_pour info i j log = some (TUBE_FAILURE, info, log)) := by
  have hi : i < info.tubes.length := by
    rcases Nat.lt_or_ge i info.tubes.length with h | h
    · exact h
    · rw [List.getElem?_eq_none h] at hs; simp at hs
  have hj : j < info.tubes.length := by
    rcases Nat.lt_or_ge j info.tubes.length with h | h
    · exact h
    · rw [List.getElem?_eq_none h] at hd; simp at hd
  have hne : (i : Int) ≠ (j : Int) := by
    intro e; exact hij (by exact_mod_cast e)
  have hpt : GameInfo_pour_tubes info i j
      = some (r, { info with tubes := (info.tubes.set i r.src).set j r.dst }) := by
    unfold GameInfo_pour_tubes
    rw [tube_at_natCast, tube_at_natCast, hs, hd]
    simp only
    rw [if_neg hne, hr]
    simp only [Option.map_some', set_tube_natCast]
  have hrange : ¬ ((i : Int) ≥ info.num_tubes ∨ (j : Int) ≥ info.num_tubes) := by
    unfold GameInfo.num_tubes
    omega
  constructor
  · intro hok
    have hc := Tube_pour_success_chunk src dst r hr hok
    obtain ⟨l1, hl1⟩ := ActionLog_push_back_wf log ⟨i, j, Tube_get_top_chunk src⟩ hwf
    refine ⟨l1, ?_, (ActionLog_push_back_some log l1 _ hl1).1,
      (ActionLog_push_back_some log l1 _ hl1).2.1⟩
    unfold GameInfo_pour
    rw [if_neg hrange, hpt]
    simp only
    rw [if_neg (by rw [hok]; simp), hc]
    simp only [Option.getD_some]
    rw [hl1]
  · intro hf
    have hunch := Tube_pour_failure_unchanged src dst r hr hf
    unfold GameInfo_pour
    rw [if_neg hrange, hpt]
    simp only
    rw [if_pos hf, hunch.1, hunch.2.1, set_of_getElem? _ _ _ hs, set_of_getElem? _ _ _ hd]

theorem getElem?_of_lt_tubes (info : GameInfo) (i : Nat) (h : i < info.num_tubes) :
    ∃ t, info.tubes[i]? = some t ∧ t ∈ info.tubes := by
  unfold GameInfo.num_tubes at h
  exact ⟨info.tubes[i], List.getElem?_eq_getElem h, List.getElem_mem h⟩

theorem Tube_is_one_color_defined (t : Tube) (h : t ≠ []) : ∃ b, Tube_is_one_color t = some b := by
  cases t with
  | nil => exact absurd rfl h
  | cons c rest => exact ⟨_, rfl⟩

theorem GameInfo_pour_is_pointless_defined (info : GameInfo) (i j : Nat)
    (hne : ∀ t ∈ info.tubes, t ≠ []) (hi : i < info.num_tubes) (hj : j < info.num_tubes) :
    ∃ b, GameInfo_pour_is_pointless info i j = some b := by
  obtain ⟨src, hs, hsm⟩ := getElem?_of_lt_tubes info i hi
  obtain ⟨dst, hd, hdm⟩ := getElem?_of_lt_tubes info j hj
  obtain ⟨b1, hb1⟩ := Tube_is_one_color_defined src (hne src hsm)
  have hb2 := Tube_is_pure_of_ne_nil dst (hne dst hdm)
  unfold GameInfo_pour_is_pointless
  rw [hs, hd]
  simp only
  rw [hb1, hb2]
  cases b1 <;> simp

/-- The loop of `GameInfo_solver_loop_dst` from the index `i_dst` on: it
returns, and either no index from `i_dst` on is an admissible destination and
nothing has changed, or it has poured into the first admissible destination
from `i_dst` on and logged that pour. -/
theorem GameInfo_solver_loop_dst_from_policy (info : GameInfo) (log : ActionLog) (i_src : Nat)
    (hne : ∀ t ∈ info.tubes, t ≠ []) (hwf : log.wf) (hi : i_src < info.num_tubes) :
    ∀ n i_dst : Nat, i_dst + n = info.num_tubes →
      ∃ ret info1 log1,
        GameInfo_solver_loop_dst_from i_src n i_dst info log = some (ret, info1, log1) ∧
        ((ret = TUBE_FAILURE ∧ info1 = info ∧ log1 = log ∧
            ∀ j, i_dst ≤ j → j < info.num_tubes → ¬ admissible_destination info i_src j) ∨
         (ret = TUBE_SUCCESS ∧ ∃ (j : Nat) (src dst : Tube) (r : PourResult),
            i_dst ≤ j ∧ j < info.num_tubes ∧ admissible_destination info i_src j ∧
            (∀ k, i_dst ≤ k → k < j → ¬ admissible_destination info i_src k) ∧
            info.tubes[i_src]? = some src ∧ info.tubes[j]? = some dst ∧
            Tube_pour src dst = some r ∧ r.ret = TUBE_SUCCESS ∧
            info1 = { info with tubes := (info.tubes.set i_src r.src).set j r.dst } ∧
            log1.entries = log.entries ++ [⟨i_src, j, Tube_get_top_chunk src⟩] ∧ log1.wf)) := by
  intro n
  induction n with
  | zero =>
    intro i_dst hn
    refine ⟨TUBE_FAILURE, info, log, by simp [GameInfo_solver_loop_dst_from], Or.inl ⟨rfl, rfl, rfl, ?_⟩⟩
    intro j h1 h2
    omega
  | succ n ih =>
    intro i_dst hn
    have hskip : ¬ admissible_destination info i_src i_dst →
        ∃ ret info1 log1,
          GameInfo_solver_loop_dst_from i_src n (i_dst + 1) info log = some (ret, info1, log1) ∧
          ((ret = TUBE_FAILURE ∧ info1 = info ∧ log1 = log ∧
              ∀ j, i_dst ≤ j → j < info.num_tubes → ¬ admissible_destination info i_src j) ∨
           (ret = TUBE_SUCCESS ∧ ∃ (j : Nat) (src dst : Tube) (r : PourResult),
              i_dst ≤ j ∧ j < info.num_tubes ∧ admissible_destination info i_src j ∧
              (∀ k, i_dst ≤ k → k < j → ¬ admissible_destination info i_src k) ∧
              info.tubes[i_src]? = some src ∧ info.tubes[j]? = some dst ∧
              Tube_pour src dst = some r ∧ r.ret = TUBE_SUCCESS ∧
              info1 = { info with tubes := (info.tubes.set i_src r.src).set j r.dst } ∧
              log1.entries = log.entries ++ [⟨i_src, j, Tube_get_top_chunk src⟩] ∧ log1.wf)) := by
      intro hnot
      obtain ⟨ret, info1, log1, hrun, hcase⟩ := ih (i_dst + 1) (by omega)
      refine ⟨ret, info1, log1, hrun, ?_⟩
      rcases hcase with ⟨h1, h2, h3, h4⟩ | ⟨h1, j, src, dst, r, hj1, hj2, hadm, hfirst, rest⟩
      · refine Or.inl ⟨h1, h2, h3, ?_⟩
        intro j hj1 hj2
        rcases Nat.eq_or_lt_of_le hj1 with e | l
        · rw [← e]; exact hnot
        · exact h4 j l hj2
      · refine Or.inr ⟨h1, j, src, dst, r, by omega, hj2, hadm, ?_, rest⟩
        intro k hk1 hk2
        rcases Nat.eq_or_lt_of_le hk1 with e | l
        · rw [← e]; exact hnot
        · exact hfirst k l hk2
    rw [GameInfo_solver_loop_dst_from]
    by_cases h0 : i_dst = i_src
    · rw [if_pos h0]
      exact hskip (fun hadm => hadm.1 h0)
    · rw [if_neg h0]
      have hd : i_dst < info.num_tubes := by omega
      obtain ⟨b, hb⟩ := GameInfo_pour_is_pointless_defined info i_src i_dst hne hi hd
      rw [hb]
      cases b with
      | true =>
        simp only
        exact hskip (fun hadm => by have h2 := hadm.2.1; rw [hb] at h2; simp at h2)
      | false =>
        simp only
        obtain ⟨src, hs, _⟩ := getElem?_of_lt_tubes info i_src hi
        obtain ⟨dst, hdd, _⟩ := getElem?_of_lt_tubes info i_dst hd
        obtain ⟨r, hr⟩ := Tube_pour_defined src dst
        obtain ⟨hsucc, hfail⟩ := GameInfo_pour_eval info log i_src i_dst src dst r
          (Ne.symm h0) hs hdd hr hwf
        by_cases hok : r.ret = TUBE_SUCCESS
        · obtain ⟨l1, hl1, hent, hwf1⟩ := hsucc hok
          rw [hl1]
          simp only [if_true]
          refine ⟨_, _, _, rfl, Or.inr ⟨rfl, i_dst, src, dst, r, le_refl _, hd,
            ⟨h0, hb, src, dst, r, hs, hdd, hr, hok⟩, ?_, hs, hdd, hr, hok, rfl, hent, hwf1⟩⟩
          intro k hk1 hk2
          omega
        · rw [hfail hok]
          simp only [if_neg failure_ne_success]
          apply hskip
          rintro ⟨_, _, s2, d2, r2, hs2, hd2, hr2, hok2⟩
          rw [hs] at hs2
          rw [hdd] at hd2
          simp only [Option.some.injEq] at hs2 hd2
          subst hs2
          subst hd2
          rw [hr] at hr2
          simp only [Option.some.injEq] at hr2
          subst hr2
          exact hok hok2

/-- C24. For every board whose tubes all have a slot, every log as `log.c`
keeps it and every source index of the board, `GameInfo_solver_loop_dst`
returns; it returns `TUBE_SUCCESS` exactly when some tube other than the
source is a destination for which the pour is not pointless and `Tube_pour`
succeeds; in that case it has performed exactly the pour into the smallest
such index (the two tubes hold the result of `Tube_pour`, all other tubes are
as before) and has appended exactly that action to the log; when it returns
`TUBE_FAILURE`, board and log are unchanged. -/
theorem GameInfo_solver_loop_dst_first_admissible (info : GameInfo) (log : ActionLog)
    (i_src : Nat) (hne : ∀ t ∈ info.tubes, t ≠ []) (hwf : log.wf)
    (hi : i_src < info.num_tubes) :
    ∃ ret info1 log1, GameInfo_solver_loop_dst info log i_src = some (ret, info1, log1) ∧
      (ret = TUBE_SUCCESS ∨ ret = TUBE_FAILURE) ∧
      (ret = TUBE_SUCCESS ↔
        ∃ j, j < info.num_tubes ∧ admissible_destination info i_src j) ∧
      (ret = TUBE_SUCCESS →
        ∃ (j : Nat) (src dst : Tube) (r : PourResult),
          j < info.num_tubes ∧ admissible_destination info i_src j ∧
          (∀ k, k < j → ¬ admissible_destination info i_src k) ∧
          info.tubes[i_src]? = some src ∧ info.tubes[j]? = some dst ∧
          Tube_pour src dst = some r ∧
          info1 = { info with tubes := (info.tubes.set i_src r.src).set j r.dst } ∧
          log1.entries = log.entries ++ [⟨i_src, j, Tube_get_top_chunk src⟩]) ∧
      (ret = TUBE_FAILURE → info1 = info ∧ log1 = log) := by
  obtain ⟨ret, info1, log1, hrun, hcase⟩ :=
    GameInfo_solver_loop_dst_from_policy info log i_src hne hwf hi info.num_tubes 0 (by omega)
  refine ⟨ret, info1, log1, hrun, ?_⟩
  rcases hcase with ⟨h1, h2, h3, h4⟩ | ⟨h1, j, src, dst, r, _, hj2, hadm, hfirst, hs, hd, hr, _, hinfo, hent, _⟩
  · subst h1
    refine ⟨Or.inr rfl, ?_, fun h => absurd h failure_ne_success, fun _ => ⟨h2, h3⟩⟩
    constructor
    · intro h; exact absurd h failure_ne_success
    · rintro ⟨j, hj, hadm⟩
      exact absurd hadm (h4 j (Nat.zero_le _) hj)
  · subst h1
    refine ⟨Or.inl rfl, ⟨fun _ => ⟨j, hj2, hadm⟩, fun _ => rfl⟩, ?_,
      fun h => absurd h.symm failure_ne_success⟩
    intro _
    exact ⟨j, src, dst, r, hj2, hadm, fun k hk => hfirst k (Nat.zero_le _) hk, hs, hd, hr,
      hinfo, hent⟩

theorem GameInfo_solver_loop_dst_first_admissible_witness :
    (∀ t ∈ (⟨1, [[0, 1], [1, 0], [-1, -1]], 0⟩ : GameInfo).tubes, t ≠ []) ∧
    ActionLog_create.wf ∧ 0 < (⟨1, [[0, 1], [1, 0], [-1, -1]], 0⟩ : GameInfo).num_tubes ∧
    ∃ ret info1 log1,
      GameInfo_solver_loop_dst ⟨1, [[0, 1], [1, 0], [-1, -1]], 0⟩ ActionLog_create 0
        = some (ret, info1, log1) ∧
      (ret = TUBE_SUCCESS ∨ ret = TUBE_FAILURE) ∧
      (ret = TUBE_SUCCESS ↔
        ∃ j, j < (⟨1, [[0, 1], [1, 0], [-1, -1]], 0⟩ : GameInfo).num_tubes ∧
          admissible_destination ⟨1, [[0, 1], [1, 0], [-1, -1]], 0⟩ 0 j) ∧
      (ret = TUBE_SUCCESS →
        ∃ (j : Nat) (src dst : Tube) (r : PourResult),
          j < (⟨1, [[0, 1], [1, 0], [-1, -1]], 0⟩ : GameInfo).num_tubes ∧
          admissible_destination ⟨1, [[0, 1], [1, 0], [-1, -1]], 0⟩ 0 j ∧
          (∀ k, k < j → ¬ admissible_destination ⟨1, [[0, 1], [1, 0], [-1, -1]], 0⟩ 0 k) ∧
          (⟨1, [[0, 1], [1, 0], [-1, -1]], 0⟩ : GameInfo).tubes[0]? = some src ∧
          (⟨1, [[0, 1], [1, 0], [-1, -1]], 0⟩ : GameInfo).tubes[j]? = some dst ∧
          Tube_pour src dst = some r ∧
          info1 = { (⟨1, [[0, 1], [1, 0], [-1, -1]], 0⟩ : GameInfo) with
            tubes := ((⟨1, [[0, 1], [1, 0], [-1, -1]], 0⟩ : GameInfo).tubes.set 0 r.src).set j
              r.dst } ∧
          log1.entries = ActionLog_create.entries ++ [⟨0, j, Tube_get_top_chunk src⟩]) ∧
      (ret = TUBE_FAILURE →
        info1 = ⟨1, [[0, 1], [1, 0], [-1, -1]], 0⟩ ∧ log1 = ActionLog_create) :=
  ⟨by decide, by decide, by decide,
    GameInfo_solver_loop_dst_first_admissible ⟨1, [[0, 1], [1, 0], [-1, -1]], 0⟩
      ActionLog_create 0 (by decide) (by decide) (by decide)⟩

/-! ## Pointless pours -/

theorem Tube_is_one_color_shape (b : Tube) (r m : Nat) (c : Int)
    (hb : ∀ x ∈ b, x ≠ EMPTY_COLOR_INDEX) (hc : c ≠ EMPTY_COLOR_INDEX) (hoff : ends_off b c) :
    Tube_is_one_color (b ++ List.replicate (r + 1) c ++ List.replicate m EMPTY_COLOR_INDEX)
      = some (decide (b = [])) := by
  have hpk : packed (b ++ List.replicate (r + 1) c ++ List.replicate m EMPTY_COLOR_INDEX) :=
    packed_of_split _ m (mem_shape b (r + 1) c hb hc)
  have hne : b ++ List.replicate (r + 1) c ++ List.replicate m EMPTY_COLOR_INDEX ≠ [] := by
    simp [List.replicate_succ]
  rw [Tube_is_one_color_packed _ hpk hne]
  congr 1
  rw [decide_eq_decide]
  constructor
  · intro h
    rcases List.eq_nil_or_concat b with hnil | ⟨b1, x, hx⟩
    · exact hnil
    · simp only [List.concat_eq_append] at hx
      exfalso
      have hxb : x ∈ b := by rw [hx]; simp
      have hlast : b.getLast? = some x := by rw [hx]; simp
      have hxc : x = c := by
        apply h x _ c _ (hb x hxb) hc
        · simp [hxb]
        · simp [List.replicate_succ]
      exact hoff x hlast hxc
  · intro hnil x hx y hy hxn hyn
    subst hnil
    simp only [List.nil_append, List.mem_append, List.mem_replicate] at hx hy
    rcases hx with ⟨_, rfl⟩ | ⟨_, rfl⟩
    · rcases hy with ⟨_, rfl⟩ | ⟨_, rfl⟩
      · rfl
      · exact absurd rfl hyn
    · exact absurd rfl hxn

theorem Tube_is_pure_shape (a : Tube) (m : Nat) (ha : ∀ x ∈ a, x ≠ EMPTY_COLOR_INDEX)
    (hm : 0 < m) :
    Tube_is_pure (a ++ List.replicate m EMPTY_COLOR_INDEX) = some (decide (a = [])) := by
  have hne : a ++ List.replicate m EMPTY_COLOR_INDEX ≠ [] := by
    obtain ⟨k, rfl⟩ : ∃ k, m = k + 1 := ⟨m - 1, by omega⟩
    simp [List.replicate_succ]
  rw [Tube_is_pure_of_ne_nil _ hne]
  congr 1
  rw [decide_eq_decide]
  have hE : EMPTY_COLOR_INDEX ∈ a ++ List.replicate m EMPTY_COLOR_INDEX :=
    (mem_empty_shape a m ha).2 (by omega)
  constructor
  · intro h
    cases a with
    | nil => rfl
    | cons x rest =>
      exfalso
      exact ha x (List.mem_cons_self _ _) (h x (by simp) _ hE)
  · intro hnil
    subst hnil
    apply all_empty_pure
    intro x hx
    simp only [List.nil_append, List.mem_replicate] at hx
    exact hx.2

/-- A successful pour that `GameInfo_pour_is_pointless` marks as pointless, on
the shapes of the two tubes: the source holds one run only and the destination
is empty. -/
theorem pointless_pour_shape (src dst : Tube) (hs : packed src) (hd : packed dst)
    (res : PourResult) (h : Tube_pour src dst = some res) (hok : res.ret = TUBE_SUCCESS)
    (h1 : Tube_is_one_color src = some true) (h2 : Tube_is_pure dst = some true) :
    ∃ (r ms md : Nat) (c : Int), c ≠ EMPTY_COLOR_INDEX ∧ r + 1 ≤ md ∧
      src = List.replicate (r + 1) c ++ List.replicate ms EMPTY_COLOR_INDEX ∧
      dst = List.replicate md EMPTY_COLOR_INDEX ∧
      res = ⟨TUBE_SUCCESS, List.replicate (r + 1 + ms) EMPTY_COLOR_INDEX,
        List.replicate (r + 1) c ++ List.replicate (md - (r + 1)) EMPTY_COLOR_INDEX,
        some ⟨c, ((r + 1 : Nat) : Int)⟩⟩ := by
  obtain ⟨b, r, ms, c, a, md, hsrc, hdst, hb, hc, hoff, ha, hfit, _, hres⟩ :=
    Tube_pour_success_shape src dst hs hd res h hok
  rw [hsrc, Tube_is_one_color_shape b r ms c hb hc hoff] at h1
  rw [hdst, Tube_is_pure_shape a md ha (by omega)] at h2
  simp only [Option.some.injEq, decide_eq_true_eq] at h1 h2
  subst h1
  subst h2
  refine ⟨r, ms, md, c, hc, hfit, by simpa using hsrc, by simpa using hdst, ?_⟩
  simpa using hres

/-- C26. On a board of packed tubes that all have the same number of slots
(as `GameInfo_create` builds it), for two different indices of the board: when
`GameInfo_pour_is_pointless` returns true for them and `Tube_pour` from the
source tube to the destination tube nevertheless succeeds, the destination
tube is empty, the chunk poured is the whole content of the source (all its
non-empty slots, which hold one colour), the source ends up as the
destination was and the destination as the source was, and `GameInfo_pour`
returns the board with the two tubes exchanged. -/
theorem GameInfo_pour_pointless_exchange (info : GameInfo) (log : ActionLog)
    (i_src i_dst : Nat) (src dst : Tube) (r : PourResult) (hp : board_packed info)
    (hlen : ∀ t ∈ info.tubes, ∀ u ∈ info.tubes, t.length = u.length) (hwf : log.wf)
    (hij : i_src ≠ i_dst) (hs : info.tubes[i_src]? = some src)
    (hd : info.tubes[i_dst]? = some dst)
    (hpl : GameInfo_pour_is_pointless info i_src i_dst = some true)
    (hr : Tube_pour src dst = some r) (hok : r.ret = TUBE_SUCCESS) :
    all_empty dst ∧
    (∃ (c : Int) (k : Nat), r.chunk = some ⟨c, (k : Int)⟩ ∧ k + empty_slots src = src.length ∧
      ∀ x ∈ src, x ≠ EMPTY_COLOR_INDEX → x = c) ∧
    r.src = dst ∧ r.dst = src ∧
    ∃ log1, GameInfo_pour info i_src i_dst log
      = some (TUBE_SUCCESS,
          { info with tubes := (info.tubes.set i_src dst).set i_dst src }, log1) := by
  have hsm : src ∈ info.tubes := List.getElem?_mem hs
  have hdm : dst ∈ info.tubes := List.getElem?_mem hd
  have h1 : Tube_is_one_color src = some true ∧ Tube_is_pure dst = some true := by
    unfold GameInfo_pour_is_pointless at hpl
    rw [hs, hd] at hpl
    simp only at hpl
    cases ho : Tube_is_one_color src with
    | none => rw [ho] at hpl; simp at hpl
    | some b =>
      rw [ho] at hpl
      cases b with
      | false => simp at hpl
      | true =>
        simp only at hpl
        cases hq : Tube_is_pure dst with
        | none => rw [hq] at hpl; simp at hpl
        | some b2 =>
          rw [hq] at hpl
          simp only [Option.some.injEq] at hpl
          subst hpl
          exact ⟨rfl, rfl⟩
  obtain ⟨k, ms, md, c, hc, hfit, hsrc, hdst, hres⟩ :=
    pointless_pour_shape src dst (hp src hsm) (hp dst hdm) r hr hok h1.1 h1.2
  have hl := hlen src hsm dst hdm
  rw [hsrc, hdst] at hl
  simp only [List.length_append, List.length_replicate] at hl
  have hrs : r.src = dst := by rw [hres, hdst, hl]
  have hrd : r.dst = src := by
    rw [hres, hsrc]
    have : md - (k + 1) = ms := by omega
    simp only [this]
  refine ⟨?_, ⟨c, k + 1, ?_, ?_, ?_⟩, hrs, hrd, ?_⟩
  · intro x hx
    rw [hdst] at hx
    exact (List.mem_replicate.1 hx).2
  · rw [hres]
  · have he : empty_slots src = ms := by
      rw [hsrc]
      exact empty_slots_shape _ ms (fun x hx => by rw [(List.mem_replicate.1 hx).2]; exact hc)
    rw [he, hsrc]
    simp
  · intro x hx hxn
    rw [hsrc] at hx
    rcases List.mem_append.1 hx with hx | hx
    · exact (List.mem_replicate.1 hx).2
    · exact absurd (List.mem_replicate.1 hx).2 hxn
  · obtain ⟨log1, hpour, _, _⟩ :=
      (GameInfo_pour_eval info log i_src i_dst src dst r hij hs hd hr hwf).1 hok
    rw [hrs, hrd] at hpour
    exact ⟨log1, hpour⟩

theorem GameInfo_pour_pointless_exchange_witness :
    board_packed ⟨1, [[0, 0, -1], [1, 1, 1], [-1, -1, -1]], 0⟩ ∧
    (∀ t ∈ (⟨1, [[0, 0, -1], [1, 1, 1], [-1, -1, -1]], 0⟩ : GameInfo).tubes,
      ∀ u ∈ (⟨1, [[0, 0, -1], [1, 1, 1], [-1, -1, -1]], 0⟩ : GameInfo).tubes,
        t.length = u.length) ∧
    ActionLog_create.wf ∧ (0 : Nat) ≠ 2 ∧
    GameInfo_pour_is_pointless ⟨1, [[0, 0, -1], [1, 1, 1], [-1, -1, -1]], 0⟩ 0 2 = some true ∧
    Tube_pour [0, 0, -1] [-1, -1, -1]
      = some ⟨TUBE_SUCCESS, [-1, -1, -1], [0, 0, -1], some ⟨0, 2⟩⟩ ∧
    (all_empty [-1, -1, -1] ∧
    (∃ (c : Int) (k : Nat), (some ⟨0, 2⟩ : Option ColorChunk) = some ⟨c, (k : Int)⟩ ∧
      k + empty_slots [0, 0, -1] = ([0, 0, -1] : Tube).length ∧
      ∀ x ∈ ([0, 0, -1] : Tube), x ≠ EMPTY_COLOR_INDEX → x = c) ∧
    ([-1, -1, -1] : Tube) = [-1, -1, -1] ∧ ([0, 0, -1] : Tube) = [0, 0, -1] ∧
    ∃ log1, GameInfo_pour ⟨1, [[0, 0, -1], [1, 1, 1], [-1, -1, -1]], 0⟩ 0 2 ActionLog_create
      = some (TUBE_SUCCESS,
          { (⟨1, [[0, 0, -1], [1, 1, 1], [-1, -1, -1]], 0⟩ : GameInfo) with
            tubes := ((⟨1, [[0, 0, -1], [1, 1, 1], [-1, -1, -1]], 0⟩ : GameInfo).tubes.set 0
              [-1, -1, -1]).set 2 [0, 0, -1] }, log1)) :=
  ⟨by decide, by decide, by decide, by decide, by decide, by decide,
    GameInfo_pour_pointless_exchange ⟨1, [[0, 0, -1], [1, 1, 1], [-1, -1, -1]], 0⟩
      ActionLog_create 0 2 [0, 0, -1] [-1, -1, -1]
      ⟨TUBE_SUCCESS, [-1, -1, -1], [0, 0, -1], some ⟨0, 2⟩⟩
      (by decide) (by decide) (by decide) (by decide) (by decide) (by decide) (by decide)
      (by decide) (by decide)⟩

/-! ## The measure of the search -/

theorem color_runs_cons_cons (x y : Int) (rest : List Int) :
    color_runs (x :: y :: rest) = (if x = y then 0 else 1) + color_runs (y :: rest) := rfl

theorem color_runs_singleton (x : Int) : color_runs [x] = 1 := rfl

theorem color_runs_replicate (k : Nat) (c : Int) : color_runs (List.replicate (k + 1) c) = 1 := by
  induction k with
  | zero => rfl
  | succ k ih =>
    rw [List.replicate_succ, List.replicate_succ, color_runs_cons_cons, if_pos rfl,
      ← List.replicate_succ, ih]

theorem ends_off_cons (x y : Int) (rest : List Int) (c : Int) (h : ends_off (x :: y :: rest) c) :
    ends_off (y :: rest) c := by
  intro z hz
  apply h z
  rw [List.getLast?_cons_cons]
  exact hz

theorem color_runs_append_run (c : Int) (r : Nat) :
    ∀ b : List Int, ends_off b c →
      color_runs (b ++ List.replicate (r + 1) c) = color_runs b + 1 := by
  intro b
  induction b with
  | nil => intro _; simpa using color_runs_replicate r c
  | cons x rest ih =>
    intro hoff
    cases rest with
    | nil =>
      have hx : x ≠ c := hoff x (by simp)
      rw [List.singleton_append, List.replicate_succ, color_runs_cons_cons, if_neg hx,
        ← List.replicate_succ, color_runs_replicate, color_runs_singleton]
    | cons y rest2 =>
      rw [List.cons_append, List.cons_append, color_runs_cons_cons, ← List.cons_append,
        ih (ends_off_cons x y rest2 c hoff), color_runs_cons_cons]
      omega

theorem color_runs_append_same (c : Int) (k : Nat) :
    ∀ a : List Int, a.getLast? = some c →
      color_runs (a ++ List.replicate k c) = color_runs a := by
  intro a
  induction a with
  | nil => intro h; simp at h
  | cons x rest ih =>
    intro hlast
    cases rest with
    | nil =>
      have hx : x = c := by simpa using hlast
      subst hx
      rw [List.singleton_append, ← List.replicate_succ, color_runs_replicate,
        color_runs_singleton]
    | cons y rest2 =>
      rw [List.getLast?_cons_cons] at hlast
      rw [List.cons_append, List.cons_append, color_runs_cons_cons, ← List.cons_append,
        ih hlast, color_runs_cons_cons]

theorem color_runs_le_length : ∀ l : List Int, color_runs l ≤ l.length := by
  intro l
  induction l with
  | nil => simp [color_runs]
  | cons x rest ih =>
    cases rest with
    | nil => simp [color_runs]
    | cons y rest2 =>
      rw [color_runs_cons_cons]
      simp only [List.length_cons] at ih ⊢
      split_ifs <;> omega

theorem color_runs_pos : ∀ l : List Int, l ≠ [] → 0 < color_runs l := by
  intro l
  induction l with
  | nil => intro h; exact absurd rfl h
  | cons x rest ih =>
    intro _
    cases rest with
    | nil => simp [color_runs_singleton]
    | cons y rest2 =>
      rw [color_runs_cons_cons]
      have := ih (by simp)
      omega

theorem tube_contents_shape (a : Tube) (m : Nat) (ha : ∀ x ∈ a, x ≠ EMPTY_COLOR_INDEX) :
    tube_contents (a ++ List.replicate m EMPTY_COLOR_INDEX) = a := by
  unfold tube_contents
  rw [List.filter_append]
  have h1 : a.filter (fun x => decide (x ≠ EMPTY_COLOR_INDEX)) = a := by
    rw [List.filter_eq_self]
    intro x hx
    simpa using ha x hx
  have h2 : (List.replicate m EMPTY_COLOR_INDEX).filter
      (fun x => decide (x ≠ EMPTY_COLOR_INDEX)) = [] := by
    rw [List.filter_eq_nil_iff]
    intro x hx
    simp [(List.mem_replicate.1 hx).2]
  rw [h1, h2, List.append_nil]

theorem tube_measure_le (t : Tube) : tube_measure t ≤ 2 * (tube_contents t).length := by
  unfold tube_measure
  have := color_runs_le_length (tube_contents t)
  omega

theorem board_measure_le (info : GameInfo) : board_measure info ≤ 2 * filled_slots info := by
  unfold board_measure filled_slots
  induction info.tubes with
  | nil => simp
  | cons t rest ih =>
    simp only [List.map_cons, List.sum_cons]
    have := tube_measure_le t
    omega

theorem color_runs_nil : color_runs [] = 0 := rfl

/-- A successful pour that is not pointless lowers the measure of the two
tubes; the tubes keep their numbers of slots. -/
theorem Tube_pour_measure (src dst : Tube) (hs : packed src) (hd : packed dst)
    (res : PourResult) (h : Tube_pour src dst = some res) (hok : res.ret = TUBE_SUCCESS)
    (hnp : ¬ (Tube_is_one_color src = some true ∧ Tube_is_pure dst = some true)) :
    tube_measure res.src + tube_measure res.dst < tube_measure src + tube_measure dst ∧
    res.src.length = src.length ∧ res.dst.length = dst.length := by
  obtain ⟨b, r, ms, c, a, md, hsrc, hdst, hb, hc, hoff, ha, hfit, hlast, hres⟩ :=
    Tube_pour_success_shape src dst hs hd res h hok
  rw [hsrc, Tube_is_one_color_shape b r ms c hb hc hoff, hdst,
    Tube_is_pure_shape a md ha (by omega)] at hnp
  simp only [Option.some.injEq, decide_eq_true_eq] at hnp
  have e1 : tube_contents src = b ++ List.replicate (r + 1) c := by
    rw [hsrc]; exact tube_contents_shape _ ms (mem_shape b (r + 1) c hb hc)
  have e2 : tube_contents dst = a := by rw [hdst]; exact tube_contents_shape a md ha
  have e3 : tube_contents res.src = b := by rw [hres]; exact tube_contents_shape b _ hb
  have e4 : tube_contents res.dst = a ++ List.replicate (r + 1) c := by
    rw [hres]; exact tube_contents_shape _ _ (mem_shape a (r + 1) c ha hc)
  refine ⟨?_, ?_, ?_⟩
  · unfold tube_measure
    rw [e1, e2, e3, e4, color_runs_append_run c r b hoff]
    by_cases hbn : b = []
    · have han : a ≠ [] := fun e => hnp ⟨hbn, e⟩
      have hl : a.getLast? = some c := by
        rcases hlast with e | e
        · exact absurd e han
        · exact e
      rw [color_runs_append_same c (r + 1) a hl, hbn, color_runs_nil]
      have := color_runs_pos a han
      omega
    · have hbp := color_runs_pos b hbn
      rcases hlast with e | e
      · rw [e, List.nil_append, color_runs_replicate, color_runs_nil]
        omega
      · rw [color_runs_append_same c (r + 1) a e]
        omega
  · rw [hres, hsrc]
    simp only [List.length_append, List.length_replicate]
    omega
  · rw [hres, hdst]
    simp only [List.length_append, List.length_replicate]
    omega

theorem board_measure_set_set (info : GameInfo) (i j : Nat) (src dst s1 d1 : Tube) (hij : i ≠ j)
    (hs : info.tubes[i]? = some src) (hd : info.tubes[j]? = some dst) :
    board_measure { info with tubes := (info.tubes.set i s1).set j d1 }
        + tube_measure src + tube_measure dst
      = board_measure info + tube_measure s1 + tube_measure d1 := by
  unfold board_measure
  have h1 := sum_map_set tube_measure info.tubes i src s1 hs
  have hd2 : (info.tubes.set i s1)[j]? = some dst := by
    rw [List.getElem?_set_ne hij]; exact hd
  have h2 := sum_map_set tube_measure (info.tubes.set i s1) j dst d1 hd2
  simp only
  omega

theorem mem_set_set {α : Type} (l : List α) (i j : Nat) (a b x : α)
    (h : x ∈ (l.set i a).set j b) : x = a ∨ x = b ∨ x ∈ l := by
  rcases List.mem_or_eq_of_mem_set h with h1 | h1
  · rcases List.mem_or_eq_of_mem_set h1 with h2 | h2
    · exact Or.inr (Or.inr h2)
    · exact Or.inl h2
  · exact Or.inr (Or.inl h1)

theorem pointless_false (info : GameInfo) (i j : Nat) (src dst : Tube)
    (hs : info.tubes[i]? = some src) (hd : info.tubes[j]? = some dst)
    (h : GameInfo_pour_is_pointless info i j = some false) :
    ¬ (Tube_is_one_color src = some true ∧ Tube_is_pure dst = some true) := by
  rintro ⟨h1, h2⟩
  unfold GameInfo_pour_is_pointless at h
  rw [hs, hd] at h
  simp only at h
  rw [h1] at h
  simp only at h
  rw [h2] at h
  simp at h

/-- One call of `GameInfo_solver_loop_dst` from a board of packed tubes that
all have a slot: it returns, and either nothing has changed or the measure of
the board has gone down and one action has been logged. -/
theorem GameInfo_solver_loop_dst_step (info : GameInfo) (log : ActionLog) (i_src : Nat)
    (hp : board_packed info) (hne : ∀ t ∈ info.tubes, t ≠ []) (hwf : log.wf)
    (hi : i_src < info.num_tubes) :
    ∃ ret info1 log1, GameInfo_solver_loop_dst info log i_src = some (ret, info1, log1) ∧
      ((ret = TUBE_FAILURE ∧ info1 = info ∧ log1 = log) ∨
       (ret = TUBE_SUCCESS ∧ board_measure info1 < board_measure info ∧ board_packed info1 ∧
          (∀ t ∈ info1.tubes, t ≠ []) ∧ info1.num_tubes = info.num_tubes ∧ log1.wf ∧
          ∃ a, log1.entries = log.entries ++ [a] ∧
            GameInfo_revert_tubes info1 a = some info)) := by
  obtain ⟨ret, info1, log1, hrun, hcase⟩ :=
    GameInfo_solver_loop_dst_from_policy info log i_src hne hwf hi info.num_tubes 0 (by omega)
  have hrun2 : GameInfo_solver_loop_dst info log i_src = some (ret, info1, log1) := hrun
  refine ⟨ret, info1, log1, hrun2, ?_⟩
  rcases hcase with ⟨h1, h2, h3, _⟩ |
    ⟨h1, j, src, dst, r, _, hj2, hadm, _, hs, hd, hr, hok, hinfo, hent, hwf1⟩
  · exact Or.inl ⟨h1, h2, h3⟩
  · refine Or.inr ⟨h1, ?_, ?_, ?_, ?_, hwf1, ?_⟩
    · have hsm : src ∈ info.tubes := List.getElem?_mem hs
      have hdm : dst ∈ info.tubes := List.getElem?_mem hd
      have hm := (Tube_pour_measure src dst (hp src hsm) (hp dst hdm) r hr hok
        (pointless_false info i_src j src dst hs hd hadm.2.1)).1
      have hb := board_measure_set_set info i_src j src dst r.src r.dst (Ne.symm hadm.1) hs hd
      rw [hinfo]
      omega
    · rcases GameInfo_solver_loop_dst_from_spec i_src _ _ info log ret info1 log1 hp hrun with
        ⟨hf, _, _⟩ | ⟨_, a, _, _, hpk, _⟩
      · rw [h1] at hf; exact absurd hf.symm failure_ne_success
      · exact hpk
    · have hsm : src ∈ info.tubes := List.getElem?_mem hs
      have hdm : dst ∈ info.tubes := List.getElem?_mem hd
      have hm := Tube_pour_measure src dst (hp src hsm) (hp dst hdm) r hr hok
        (pointless_false info i_src j src dst hs hd hadm.2.1)
      intro t ht
      rw [hinfo] at ht
      rcases mem_set_set _ _ _ _ _ _ ht with e | e | e
      · intro hnil
        have := hm.2.1
        rw [← e, hnil] at this
        exact hne src hsm (List.length_eq_zero.1 this.symm)
      · intro hnil
        have := hm.2.2
        rw [← e, hnil] at this
        exact hne dst hdm (List.length_eq_zero.1 this.symm)
      · exact hne t e
    · rw [hinfo]
      simp [GameInfo.num_tubes]
    · rcases GameInfo_solver_loop_dst_from_spec i_src _ _ info log ret info1 log1 hp hrun with
        ⟨hf, _, _⟩ | ⟨_, a, hent2, hrev, _, _⟩
      · rw [h1] at hf; exact absurd hf.symm failure_ne_success
      · exact ⟨a, hent2, hrev⟩

theorem GameInfo_is_solved_defined (info : GameInfo) (hne : ∀ t ∈ info.tubes, t ≠ []) :
    ∃ b, GameInfo_is_solved info = some b :=
  ⟨_, GameInfo_is_solved_loop_spec info.tubes hne⟩

theorem GameInfo_solver_loop_src_from_halts
    (again : GameInfo → ActionLog → Option (Bool × GameInfo × ActionLog)) (M : Nat)
    (hag : halting_contract M again) (hsc : search_contract again)
    (hrc : restore_contract again) :
    ∀ (n i_src : Nat) (info : GameInfo) (log : ActionLog), i_src + n = info.num_tubes →
      board_packed info → (∀ t ∈ info.tubes, t ≠ []) → log.wf → board_measure info ≤ M →
      ∃ res info1 log1,
        GameInfo_solver_loop_src_from again n i_src info log = some (res, info1, log1) ∧
        (res = true →
          log1.entries.length + board_measure info1
            ≤ log.entries.length + board_measure info) := by
  intro n
  induction n with
  | zero =>
    intro i_src info log _ _ _ _ _
    exact ⟨false, info, log, rfl, fun h => absurd h (by simp)⟩
  | succ n ih =>
    intro i_src info log hn hp hne hwf hM
    have hi : i_src < info.num_tubes := by omega
    obtain ⟨tube, ht, htm⟩ := getElem?_of_lt_tubes info i_src hi
    rw [GameInfo_solver_loop_src_from, ht]
    simp only
    rw [Tube_is_pure_of_ne_nil tube (hne tube htm)]
    by_cases hpure : pure_tube tube
    · rw [decide_eq_true hpure]
      simp only
      exact ih (i_src + 1) info log (by omega) hp hne hwf hM
    · rw [decide_eq_false hpure]
      simp only
      obtain ⟨ret, info1, log1, hrun, hcase⟩ :=
        GameInfo_solver_loop_dst_step info log i_src hp hne hwf hi
      rw [hrun]
      simp only
      rcases hcase with ⟨h1, h2, h3⟩ | ⟨h1, hless, hpk1, hne1, hnum, hwf1, a, hent, hrev⟩
      · subst h1
        subst h2
        subst h3
        rw [if_neg failure_ne_success]
        exact ih (i_src + 1) info1 log1 (by omega) hp hne hwf hM
      · subst h1
        rw [if_pos rfl]
        have hlen1 : log1.entries.length = log.entries.length + 1 := by
          rw [hent]; simp
        obtain ⟨sb, hsb⟩ := GameInfo_is_solved_defined info1 hne1
        rw [hsb]
        cases sb with
        | true =>
          simp only
          exact ⟨true, info1, log1, rfl, fun _ => by omega⟩
        | false =>
          simp only
          obtain ⟨rb, i2, l2, hr, hbound⟩ := hag info1 log1 hpk1 hne1 hwf1 (by omega)
          rw [hr]
          cases rb with
          | true =>
            simp only
            refine ⟨true, i2, l2, rfl, fun _ => ?_⟩
            have := hbound rfl
            omega
          | false =>
            simp only
            obtain ⟨_, hfalse, _⟩ := hsc info1 log1 false i2 l2 hpk1 hr
            obtain ⟨e1, e2⟩ := hfalse rfl
            have hwf2 := (hrc info1 log1 false i2 l2 hpk1 hwf1 hr).1
            subst e1
            obtain ⟨log3, hrv, hent3, hwf3⟩ := GameInfo_revert_one_defined i2 info l2 a
              log.entries hwf2 (by rw [e2, hent]) hrev
            rw [hrv]
            simp only
            obtain ⟨res, i4, l4, hrun4, hb4⟩ :=
              ih (i_src + 1) info log3 (by omega) hp hne hwf3 hM
            refine ⟨res, i4, l4, hrun4, fun hres => ?_⟩
            have := hb4 hres
            rw [hent3] at this
            exact this

theorem GameInfo_solver_loop_src_halts :
    ∀ fuel : Nat, halting_contract fuel (GameInfo_solver_loop_src fuel) := by
  intro fuel
  induction fuel with
  | zero =>
    intro info log _ _ _ h
    omega
  | succ fuel ih =>
    intro info log hp hne hwf hM
    rw [GameInfo_solver_loop_src]
    exact GameInfo_solver_loop_src_from_halts _ fuel ih (GameInfo_solver_loop_src_spec fuel)
      (GameInfo_solver_loop_src_restore fuel) info.num_tubes 0 info log (by omega) hp hne hwf
      (by omega)

/-- C23. The measure of the search is the number of maximal colour runs on the
board plus the number of those runs that do not rest on the closed end of a
tube.  On a board of packed tubes that all have a slot, with a log as `log.c`
keeps it: the measure is at most twice the number of filled slots; every pour
the search makes (a successful call of `GameInfo_solver_loop_dst`) strictly
lowers the measure; and so the recursion of `GameInfo_solver_loop_src` ends:
with a recursion bound above the measure (in particular above twice the
number of filled slots) it returns a result, and a solution it returns has no
more pours than the measure at entry. -/
theorem GameInfo_solver_loop_src_terminates (info : GameInfo) (log : ActionLog)
    (hp : board_packed info) (hne : ∀ t ∈ info.tubes, t ≠ []) (hwf : log.wf) :
    board_measure info ≤ 2 * filled_slots info ∧
    (∀ i_src info1 log1, i_src < info.num_tubes →
      GameInfo_solver_loop_dst info log i_src = some (TUBE_SUCCESS, info1, log1) →
      board_measure info1 < board_measure info) ∧
    (∀ fuel, board_measure info < fuel →
      ∃ res info1 log1, GameInfo_solver_loop_src fuel info log = some (res, info1, log1) ∧
        (res = true →
          log1.entries.length ≤ log.entries.length + board_measure info)) ∧
    (∃ res info1 log1,
      GameInfo_solver_loop_src (2 * filled_slots info + 1) info log
        = some (res, info1, log1)) := by
  have hle := board_measure_le info
  refine ⟨hle, ?_, ?_, ?_⟩
  · intro i_src info1 log1 hi hrun
    obtain ⟨ret, i1, l1, hrun2, hcase⟩ :=
      GameInfo_solver_loop_dst_step info log i_src hp hne hwf hi
    rw [hrun] at hrun2
    simp only [Option.some.injEq, Prod.mk.injEq] at hrun2
    obtain ⟨rfl, rfl, rfl⟩ := hrun2
    rcases hcase with ⟨h1, _, _⟩ | ⟨_, hless, _⟩
    · exact absurd h1.symm failure_ne_success
    · exact hless
  · intro fuel hfuel
    obtain ⟨res, info1, log1, hrun, hb⟩ :=
      GameInfo_solver_loop_src_halts fuel info log hp hne hwf hfuel
    refine ⟨res, info1, log1, hrun, fun hres => ?_⟩
    have := hb hres
    omega
  · obtain ⟨res, info1, log1, hrun, _⟩ :=
      GameInfo_solver_loop_src_halts (2 * filled_slots info + 1) info log hp hne hwf (by omega)
    exact ⟨res, info1, log1, hrun⟩

theorem GameInfo_solver_loop_src_terminates_witness :
    board_packed ⟨1, [[0, 1], [1, 0], [-1, -1]], 0⟩ ∧
    (∀ t ∈ (⟨1, [[0, 1], [1, 0], [-1, -1]], 0⟩ : GameInfo).tubes, t ≠ []) ∧
    ActionLog_create.wf ∧
    (board_measure ⟨1, [[0, 1], [1, 0], [-1, -1]], 0⟩
      ≤ 2 * filled_slots ⟨1, [[0, 1], [1, 0], [-1, -1]], 0⟩ ∧
    (∀ i_src info1 log1, i_src < (⟨1, [[0, 1], [1, 0], [-1, -1]], 0⟩ : GameInfo).num_tubes →
      GameInfo_solver_loop_dst ⟨1, [[0, 1], [1, 0], [-1, -1]], 0⟩ ActionLog_create i_src
        = some (TUBE_SUCCESS, info1, log1) →
      board_measure info1 < board_measure ⟨1, [[0, 1], [1, 0], [-1, -1]], 0⟩) ∧
    (∀ fuel, board_measure ⟨1, [[0, 1], [1, 0], [-1, -1]], 0⟩ < fuel →
      ∃ res info1 log1,
        GameInfo_solver_loop_src fuel ⟨1, [[0, 1], [1, 0], [-1, -1]], 0⟩ ActionLog_create
          = some (res, info1, log1) ∧
        (res = true →
          log1.entries.length
            ≤ ActionLog_create.entries.length
              + board_measure ⟨1, [[0, 1], [1, 0], [-1, -1]], 0⟩)) ∧
    (∃ res info1 log1,
      GameInfo_solver_loop_src (2 * filled_slots ⟨1, [[0, 1], [1, 0], [-1, -1]], 0⟩ + 1)
        ⟨1, [[0, 1], [1, 0], [-1, -1]], 0⟩ ActionLog_create = some (res, info1, log1))) :=
  ⟨by decide, by decide, by decide,
    GameInfo_solver_loop_src_terminates ⟨1, [[0, 1], [1, 0], [-1, -1]], 0⟩ ActionLog_create
      (by decide) (by decide) (by decide)⟩

/-! ## The recursion bound of the search -/

theorem GameInfo_solver_loop_src_from_mono
    (again again2 : GameInfo → ActionLog → Option (Bool × GameInfo × ActionLog))
    (hmono : ∀ info log r, again info log = some r → again2 info log = some r) :
    ∀ (n i_src : Nat) (info : GameInfo) (log : ActionLog) (r : Bool × GameInfo × ActionLog),
      GameInfo_solver_loop_src_from again n i_src info log = some r →
      GameInfo_solver_loop_src_from again2 n i_src info log = some r := by
  intro n
  induction n with
  | zero =>
    intro i_src info log r h
    simpa [GameInfo_solver_loop_src_from] using h
  | succ n ih =>
    intro i_src info log r h
    simp only [GameInfo_solver_loop_src_from] at h ⊢
    cases ht : info.tubes[i_src]? with
    | none => rw [ht] at h; simp at h
    | some tube =>
      rw [ht] at h
      simp only at h ⊢
      cases hpure : Tube_is_pure tube with
      | none => rw [hpure] at h; simp at h
      | some b =>
        rw [hpure] at h
        cases b with
        | true => exact ih _ _ _ _ h
        | false =>
          simp only at h ⊢
          cases hd : GameInfo_solver_loop_dst info log i_src with
          | none => rw [hd] at h; simp at h
          | some p =>
            obtain ⟨ret, i1, l1⟩ := p
            rw [hd] at h
            simp only at h ⊢
            by_cases hret : ret = TUBE_SUCCESS
            · rw [if_pos hret] at h ⊢
              cases hs : GameInfo_is_solved i1 with
              | none => rw [hs] at h; simp at h
              | some sb =>
                rw [hs] at h
                cases sb with
                | true => exact h
                | false =>
                  simp only at h ⊢
                  cases hr : again i1 l1 with
                  | none => rw [hr] at h; simp at h
                  | some q =>
                    rw [hr] at h
                    rw [hmono i1 l1 q hr]
                    obtain ⟨rb, i2, l2⟩ := q
                    cases rb with
                    | true => exact h
                    | false =>
                      simp only at h ⊢
                      cases hrv : GameInfo_revert_one i2 l2 with
                      | none => rw [hrv] at h; simp at h
                      | some q3 =>
                        obtain ⟨r3, i3, l3⟩ := q3
                        rw [hrv] at h
                        simp only at h ⊢
                        exact ih _ _ _ _ h
            · rw [if_neg hret] at h ⊢
              exact ih _ _ _ _ h

/-- A result of `GameInfo_solver_loop_src` does not depend on the recursion
bound: a larger bound gives the same result. -/
theorem GameInfo_solver_loop_src_mono :
    ∀ (fuel k : Nat) (info : GameInfo) (log : ActionLog) (r : Bool × GameInfo × ActionLog),
      GameInfo_solver_loop_src fuel info log = some r →
      GameInfo_solver_loop_src (fuel + k) info log = some r := by
  intro fuel
  induction fuel with
  | zero =>
    intro k info log r h
    simp [GameInfo_solver_loop_src] at h
  | succ fuel ih =>
    intro k info log r h
    have e : fuel + 1 + k = (fuel + k) + 1 := by omega
    rw [e]
    simp only [GameInfo_solver_loop_src] at h ⊢
    exact GameInfo_solver_loop_src_from_mono _ _ (fun i l q hq => ih k i l q hq) _ _ _ _ _ h

theorem GameInfo_solver_loop_src_mono_le (m n : Nat) (hmn : m ≤ n) (info : GameInfo)
    (log : ActionLog) (r : Bool × GameInfo × ActionLog)
    (h : GameInfo_solver_loop_src m info log = some r) :
    GameInfo_solver_loop_src n info log = some r := by
  have := GameInfo_solver_loop_src_mono m (n - m) info log r h
  rwa [Nat.add_sub_cancel' hmn] at this

set_option maxRecDepth 100000 in
set_option maxHeartbeats 4000000 in
theorem incomplete_board_search :
    (GameInfo_solver_loop_src 9 incomplete_board ActionLog_create).map (fun r => r.1)
      = some false := by
  decide!

theorem GameInfo_find_solution_of_search (fuel : Nat) (info info1 : GameInfo)
    (log auxlog1 : ActionLog)
    (h : GameInfo_solver_loop_src fuel info ActionLog_create = some (false, info1, auxlog1)) :
    GameInfo_find_solution fuel info (some log) = some (false, info1, some log) := by
  unfold GameInfo_find_solution
  simp only
  rw [h]
  simp

theorem GameInfo_find_solution_true_search (fuel : Nat) (info info1 : GameInfo)
    (log : Option ActionLog) (out : Option ActionLog)
    (h : GameInfo_find_solution fuel info log = some (true, info1, out)) :
    ∃ auxlog1, GameInfo_solver_loop_src fuel info ActionLog_create
      = some (true, info1, auxlog1) := by
  unfold GameInfo_find_solution at h
  simp only at h
  cases hs : GameInfo_solver_loop_src fuel info ActionLog_create with
  | none => rw [hs] at h; simp at h
  | some p =>
    obtain ⟨res, i1, l1⟩ := p
    rw [hs] at h
    simp only at h
    split_ifs at h with hc
    · simp only [Option.some.injEq, Prod.mk.injEq] at h
      obtain ⟨rfl, rfl, _⟩ := h
      exact ⟨l1, rfl⟩
    · simp only [Option.some.injEq, Prod.mk.injEq] at h
      obtain ⟨rfl, rfl, _⟩ := h
      exact ⟨l1, rfl⟩

/-- C25. The board `incomplete_board` (5 colours, 1 extra tube, 5 slots) is
well formed: its tubes are packed and have 5 slots each, every colour
`0 .. 4` is present exactly 5 times and one tube is empty.  It is not solved,
and the 18 pours of `incomplete_board_solution`, each a successful
`GameInfo_pour`, lead from it to a solved board.  Yet
`GameInfo_find_solution` returns `false` on it, with board and log unchanged,
for every recursion bound from 9 on, and returns `true` for no recursion
bound. -/
theorem GameInfo_find_solution_incomplete :
    board_packed incomplete_board ∧
    (∀ t ∈ incomplete_board.tubes, t.length = 5) ∧
    (∀ c : Nat, c < 5 → board_count (c : Int) incomplete_board.tubes = 5) ∧
    (∃ t ∈ incomplete_board.tubes, all_empty t) ∧
    GameInfo_is_solved incomplete_board = some false ∧
    (∃ solved_board,
      replay_actions incomplete_board incomplete_board_solution = some solved_board ∧
      GameInfo_is_solved solved_board = some true) ∧
    (∀ (fuel : Nat) (log : ActionLog), 9 ≤ fuel →
      GameInfo_find_solution fuel incomplete_board (some log)
        = some (false, incomplete_board, some log)) ∧
    (¬ ∃ (fuel : Nat) (log : ActionLog) (info1 : GameInfo) (out : Option ActionLog),
      GameInfo_find_solution fuel incomplete_board (some log) = some (true, info1, out)) := by
  have hpk : board_packed incomplete_board := by decide
  have hsearch : ∃ l1, GameInfo_solver_loop_src 9 incomplete_board ActionLog_create
      = some (false, incomplete_board, l1) := by
    have h := incomplete_board_search
    cases hs : GameInfo_solver_loop_src 9 incomplete_board ActionLog_create with
    | none => rw [hs] at h; simp at h
    | some p =>
      obtain ⟨res, i1, l1⟩ := p
      rw [hs] at h
      simp only [Option.map_some', Option.some.injEq] at h
      subst h
      obtain ⟨_, hfalse, _⟩ :=
        GameInfo_solver_loop_src_spec 9 incomplete_board ActionLog_create false i1 l1 hpk hs
      rw [(hfalse rfl).1]
      exact ⟨l1, rfl⟩
  obtain ⟨l1, hl1⟩ := hsearch
  refine ⟨hpk, by decide, by decide, by decide, by decide, ?_, ?_, ?_⟩
  · exact ⟨⟨1, [[2, 2, 2, 2, 2], [-1, -1, -1, -1, -1], [4, 4, 4, 4, 4], [3, 3, 3, 3, 3],
      [0, 0, 0, 0, 0], [1, 1, 1, 1, 1]], 0⟩, by decide, by decide⟩
  · intro fuel log hfuel
    exact GameInfo_find_solution_of_search fuel incomplete_board incomplete_board log l1
      (GameInfo_solver_loop_src_mono_le 9 fuel hfuel _ _ _ hl1)
  · rintro ⟨fuel, log, info1, out, h⟩
    obtain ⟨l2, hl2⟩ := GameInfo_find_solution_true_search fuel incomplete_board info1 _ out h
    have h1 := GameInfo_solver_loop_src_mono_le 9 (max fuel 9) (le_max_right _ _) _ _ _ hl1
    have h2 := GameInfo_solver_loop_src_mono_le fuel (max fuel 9) (le_max_left _ _) _ _ _ hl2
    rw [h1] at h2
    simp at h2

/-! ## Loading a board -/

theorem Tube_add_color_loop_shape (c : Int) (m : Nat) :
    ∀ a : Tube, (∀ x ∈ a, x ≠ EMPTY_COLOR_INDEX) →
      Tube_add_color_loop c (a ++ List.replicate (m + 1) EMPTY_COLOR_INDEX)
        = some (a ++ c :: List.replicate m EMPTY_COLOR_INDEX) := by
  intro a
  induction a with
  | nil =>
    intro _
    rw [List.nil_append, List.replicate_succ, Tube_add_color_loop, if_pos rfl]
    rfl
  | cons x rest ih =>
    intro ha
    have hx : x ≠ EMPTY_COLOR_INDEX := ha x (List.mem_cons_self _ _)
    rw [List.cons_append, Tube_add_color_loop, if_neg hx,
      ih (fun y hy => ha y (List.mem_cons_of_mem _ hy))]
    rfl

/-- `Tube_add_color` on a packed tube with a free slot writes the colour into
the slot after the last non-empty one. -/
theorem Tube_add_color_shape (c : Int) (m : Nat) (a : Tube)
    (ha : ∀ x ∈ a, x ≠ EMPTY_COLOR_INDEX) :
    Tube_add_color (a ++ List.replicate (m + 1) EMPTY_COLOR_INDEX) c
      = (TUBE_SUCCESS, a ++ c :: List.replicate m EMPTY_COLOR_INDEX) := by
  unfold Tube_add_color
  rw [Tube_is_full_shape a (m + 1) ha, Tube_add_color_loop_shape c m a ha]
  simp

theorem Tube_add_color_empty (t : Tube) :
    (Tube_add_color t EMPTY_COLOR_INDEX).2 = t ∧
    (EMPTY_COLOR_INDEX ∈ t → (Tube_add_color t EMPTY_COLOR_INDEX).1 = TUBE_SUCCESS) := by
  have hloop : ∀ s : Tube, EMPTY_COLOR_INDEX ∈ s →
      Tube_add_color_loop EMPTY_COLOR_INDEX s = some s := by
    intro s
    induction s with
    | nil => intro h; simp at h
    | cons x rest ih =>
      intro h
      rw [Tube_add_color_loop]
      by_cases hx : x = EMPTY_COLOR_INDEX
      · rw [if_pos hx, hx]
      · rw [if_neg hx]
        rcases List.mem_cons.1 h with e | e
        · exact absurd e.symm hx
        · rw [ih e]; rfl
  by_cases hE : EMPTY_COLOR_INDEX ∈ t
  · have hfull : Tube_is_full t = false := by
      rw [Bool.eq_false_iff]
      intro hf
      exact (Tube_is_full_iff t).1 hf hE
    unfold Tube_add_color
    rw [hfull, hloop t hE]
    simp
  · have hfull : Tube_is_full t = true := (Tube_is_full_iff t).2 hE
    unfold Tube_add_color
    rw [hfull]
    simp [hE]

theorem filter_length_add_count (row : List Int) :
    (row.filter (fun x => decide (x ≠ EMPTY_COLOR_INDEX))).length
      + row.count EMPTY_COLOR_INDEX = row.length := by
  induction row with
  | nil => rfl
  | cons x rest ih =>
    by_cases hx : x = EMPTY_COLOR_INDEX
    · subst hx
      rw [List.filter_cons_of_neg (by simp), List.count_cons_self, List.length_cons]
      omega
    · rw [List.filter_cons_of_pos (by simpa using hx),
        List.count_cons_of_ne (Ne.symm hx), List.length_cons, List.length_cons]
      omega

/-- Replaying `Tube_add_color` over a list of values on a packed tube with
enough free slots appends the non-empty values in order. -/
theorem add_color_foldl_shape :
    ∀ (row : List Int) (a : Tube) (m : Nat), (∀ x ∈ a, x ≠ EMPTY_COLOR_INDEX) →
      row.length ≤ m →
      row.foldl (fun t c => (Tube_add_color t c).2) (a ++ List.replicate m EMPTY_COLOR_INDEX)
        = a ++ row.filter (fun x => decide (x ≠ EMPTY_COLOR_INDEX))
            ++ List.replicate
              (m - (row.filter (fun x => decide (x ≠ EMPTY_COLOR_INDEX))).length)
              EMPTY_COLOR_INDEX := by
  intro row
  induction row with
  | nil =>
    intro a m _ _
    simp
  | cons c rest ih =>
    intro a m ha hm
    simp only [List.length_cons] at hm
    obtain ⟨k, rfl⟩ : ∃ k, m = k + 1 := ⟨m - 1, by omega⟩
    rw [List.foldl_cons, Tube_add_color_shape c k a ha]
    simp only
    by_cases hc : c = EMPTY_COLOR_INDEX
    · subst hc
      rw [← List.replicate_succ, ih a (k + 1) ha (by omega),
        List.filter_cons_of_neg (by simp)]
    · have e : a ++ c :: List.replicate k EMPTY_COLOR_INDEX
          = (a ++ [c]) ++ List.replicate k EMPTY_COLOR_INDEX := by simp
      have ha2 : ∀ x ∈ a ++ [c], x ≠ EMPTY_COLOR_INDEX := by
        intro x hx
        rcases List.mem_append.1 hx with h | h
        · exact ha x h
        · rw [List.mem_singleton.1 h]; exact hc
      rw [e, ih (a ++ [c]) k ha2 (by omega), List.filter_cons_of_pos (by simpa using hc)]
      simp only [List.length_cons, List.append_assoc, List.singleton_append]
      congr 3
      omega

theorem GameInfo_create_from_file_slots_foldl (input : Input) (i_tube : Nat) :
    ∀ (n i_slot : Nat) (tube : Tube),
      i_tube * input.num_slots + i_slot + n ≤ input.data.length →
      GameInfo_create_from_file_slots input i_tube n i_slot tube
        = some (((input.data.drop (i_tube * input.num_slots + i_slot)).take n).foldl
            (fun t c => (Tube_add_color t c).2) tube) := by
  intro n
  induction n with
  | zero =>
    intro i_slot tube _
    simp [GameInfo_create_from_file_slots]
  | succ n ih =>
    intro i_slot tube hlen
    have hlt : i_tube * input.num_slots + i_slot < input.data.length := by omega
    rw [GameInfo_create_from_file_slots, List.getElem?_eq_getElem hlt]
    simp only
    rw [ih (i_slot + 1) _ (by omega), List.drop_eq_getElem_cons hlt, List.take_succ_cons,
      List.foldl_cons]
    rfl

/-- The tube the inner loop of `GameInfo_create_from_file` builds from a row
that lies inside the data. -/
theorem GameInfo_create_from_file_slots_row (input : Input) (i_tube : Nat)
    (h : (i_tube + 1) * input.num_slots ≤ input.data.length) :
    GameInfo_create_from_file_slots input i_tube input.num_slots 0
        (Tube_create input.num_slots)
      = some (packed_row (input.row i_tube)) := by
  have hmul : (i_tube + 1) * input.num_slots = i_tube * input.num_slots + input.num_slots :=
    Nat.succ_mul _ _
  rw [GameInfo_create_from_file_slots_foldl input i_tube input.num_slots 0 _ (by omega)]
  have hrow : (input.row i_tube).length = input.num_slots := by
    unfold Input.row
    rw [List.length_take, List.length_drop]
    omega
  have hfold := add_color_foldl_shape (input.row i_tube) [] input.num_slots
    (fun x hx => by simp at hx) (by omega)
  simp only [List.nil_append] at hfold
  unfold Tube_create
  simp only [Nat.add_zero]
  unfold Input.row at hfold hrow ⊢
  rw [hfold]
  unfold packed_row
  have hcount := filter_length_add_count
    ((input.data.drop (i_tube * input.num_slots)).take input.num_slots)
  congr 3
  omega

theorem GameInfo_create_from_file_tubes_rows (input : Input) :
    ∀ (n i_tube : Nat), (i_tube + n) * input.num_slots ≤ input.data.length →
      GameInfo_create_from_file_tubes input n i_tube
        = some ((List.range n).map (fun k => packed_row (input.row (i_tube + k)))) := by
  intro n
  induction n with
  | zero => intro i_tube _; rfl
  | succ n ih =>
    intro i_tube hlen
    have h1 : (i_tube + 1) * input.num_slots ≤ input.data.length := by
      refine le_trans (Nat.mul_le_mul_right _ ?_) hlen
      omega
    rw [GameInfo_create_from_file_tubes, GameInfo_create_from_file_slots_row input i_tube h1]
    simp only
    rw [ih (i_tube + 1) (by rw [show i_tube + 1 + n = i_tube + (n + 1) by omega]; exact hlen)]
    simp only [Option.map_some', List.range_succ_eq_map, List.map_cons, List.map_map,
      Nat.add_zero]
    congr 2
    apply List.map_congr_left
    intro k _
    simp only [Function.comp]
    rw [show i_tube + 1 + k = i_tube + (k + 1) by omega]

theorem packed_row_packed (row : List Int) : packed (packed_row row) := by
  unfold packed_row
  apply packed_of_split
  intro x hx
  simpa using (List.mem_filter.1 hx).2

/-- When the values of a row before one of its empty values have been
replayed on a fresh tube, the tube still has a free slot, so the call of
`Tube_add_color` for the empty value returns success and changes nothing. -/
theorem Tube_add_color_empty_in_row (row pre post : List Int)
    (h : row = pre ++ EMPTY_COLOR_INDEX :: post) :
    Tube_add_color
        (pre.foldl (fun t c => (Tube_add_color t c).2) (Tube_create row.length))
        EMPTY_COLOR_INDEX
      = (TUBE_SUCCESS,
          pre.foldl (fun t c => (Tube_add_color t c).2) (Tube_create row.length)) := by
  have hlen : row.length = pre.length + 1 + post.length := by
    rw [h]; simp; omega
  have hfold := add_color_foldl_shape pre [] row.length (fun x hx => by simp at hx)
    (by omega)
  simp only [List.nil_append] at hfold
  have hfl := filter_length_add_count pre
  have hmem : EMPTY_COLOR_INDEX
      ∈ pre.foldl (fun t c => (Tube_add_color t c).2) (Tube_create row.length) := by
    unfold Tube_create
    rw [hfold]
    apply List.mem_append_right
    rw [List.mem_replicate]
    exact ⟨by omega, rfl⟩
  have := Tube_add_color_empty
    (pre.foldl (fun t c => (Tube_add_color t c).2) (Tube_create row.length))
  exact Prod.ext (this.2 hmem) this.1

/-- C28. For an input whose data holds `num_tubes` rows of `num_slots` values,
`GameInfo_create_from_file` returns a board of `num_tubes` tubes, and tube `i`
holds the non-empty values of row `i` in row order from the closed end on,
followed by empty slots (as many as the row has empty values).  An empty value
of a row is skipped: `Tube_add_color` with the empty colour leaves every tube
as it is and reports success whenever the tube has a free slot, which is so
when the values of a row before one of its empty values have been replayed on
a fresh tube.  The row `-1 3 3` loads as `[3, 3, empty]`. -/
theorem GameInfo_create_from_file_packs_rows (input : Input)
    (hlen : input.num_tubes * input.num_slots ≤ input.data.length) :
    (∃ info, GameInfo_create_from_file input = some info ∧
      info.num_tubes = input.num_tubes ∧
      ∀ i, i < input.num_tubes →
        (input.row i).length = input.num_slots ∧
        info.tubes[i]? = some
          ((input.row i).filter (fun x => decide (x ≠ EMPTY_COLOR_INDEX))
            ++ List.replicate ((input.row i).count EMPTY_COLOR_INDEX) EMPTY_COLOR_INDEX)) ∧
    (∀ t : Tube, (Tube_add_color t EMPTY_COLOR_INDEX).2 = t ∧
      (EMPTY_COLOR_INDEX ∈ t → (Tube_add_color t EMPTY_COLOR_INDEX).1 = TUBE_SUCCESS)) ∧
    (∀ row pre post : List Int, row = pre ++ EMPTY_COLOR_INDEX :: post →
      Tube_add_color
          (pre.foldl (fun t c => (Tube_add_color t c).2) (Tube_create row.length))
          EMPTY_COLOR_INDEX
        = (TUBE_SUCCESS,
            pre.foldl (fun t c => (Tube_add_color t c).2) (Tube_create row.length))) ∧
    GameInfo_create_from_file ⟨1, 1, 3, [-1, 3, 3]⟩ = some ⟨0, [[3, 3, -1]], 0⟩ := by
  refine ⟨?_, Tube_add_color_empty, Tube_add_color_empty_in_row, by decide⟩
  have htubes := GameInfo_create_from_file_tubes_rows input input.num_tubes 0
    (by simpa using hlen)
  refine ⟨_, by unfold GameInfo_create_from_file; rw [htubes]; rfl, ?_, ?_⟩
  · simp [GameInfo.num_tubes]
  · intro i hi
    constructor
    · unfold Input.row
      rw [List.length_take, List.length_drop]
      have h1 : (i + 1) * input.num_slots ≤ input.num_tubes * input.num_slots :=
        Nat.mul_le_mul_right _ hi
      have h2 : (i + 1) * input.num_slots = i * input.num_slots + input.num_slots :=
        Nat.succ_mul _ _
      omega
    · simp only [Nat.zero_add]
      rw [List.getElem?_map, List.getElem?_range hi]
      rfl

theorem GameInfo_create_from_file_packs_rows_witness :
    (⟨2, 1, 3, [-1, 3, 3, 3, -1, -1]⟩ : Input).num_tubes
        * (⟨2, 1, 3, [-1, 3, 3, 3, -1, -1]⟩ : Input).num_slots
      ≤ (⟨2, 1, 3, [-1, 3, 3, 3, -1, -1]⟩ : Input).data.length ∧
    ((∃ info, GameInfo_create_from_file ⟨2, 1, 3, [-1, 3, 3, 3, -1, -1]⟩ = some info ∧
      info.num_tubes = (⟨2, 1, 3, [-1, 3, 3, 3, -1, -1]⟩ : Input).num_tubes ∧
      ∀ i, i < (⟨2, 1, 3, [-1, 3, 3, 3, -1, -1]⟩ : Input).num_tubes →
        ((⟨2, 1, 3, [-1, 3, 3, 3, -1, -1]⟩ : Input).row i).length
          = (⟨2, 1, 3, [-1, 3, 3, 3, -1, -1]⟩ : Input).num_slots ∧
        info.tubes[i]? = some
          (((⟨2, 1, 3, [-1, 3, 3, 3, -1, -1]⟩ : Input).row i).filter
              (fun x => decide (x ≠ EMPTY_COLOR_INDEX))
            ++ List.replicate
              (((⟨2, 1, 3, [-1, 3, 3, 3, -1, -1]⟩ : Input).row i).count EMPTY_COLOR_INDEX)
              EMPTY_COLOR_INDEX)) ∧
    (∀ t : Tube, (Tube_add_color t EMPTY_COLOR_INDEX).2 = t ∧
      (EMPTY_COLOR_INDEX ∈ t → (Tube_add_color t EMPTY_COLOR_INDEX).1 = TUBE_SUCCESS)) ∧
    (∀ row pre post : List Int, row = pre ++ EMPTY_COLOR_INDEX :: post →
      Tube_add_color
          (pre.foldl (fun t c => (Tube_add_color t c).2) (Tube_create row.length))
          EMPTY_COLOR_INDEX
        = (TUBE_SUCCESS,
            pre.foldl (fun t c => (Tube_add_color t c).2) (Tube_create row.length))) ∧
    GameInfo_create_from_file ⟨1, 1, 3, [-1, 3, 3]⟩ = some ⟨0, [[3, 3, -1]], 0⟩) :=
  ⟨by decide, GameInfo_create_from_file_packs_rows ⟨2, 1, 3, [-1, 3, 3, 3, -1, -1]⟩ (by decide)⟩

/-! ## Packedness is kept -/

theorem packed_create (n : Nat) : packed (Tube_create n) := by
  unfold Tube_create
  simpa using packed_of_split [] n (fun x hx => by simp at hx)

theorem packed_add_shape (a : Tube) (c : Int) (m : Nat)
    (ha : ∀ x ∈ a, x ≠ EMPTY_COLOR_INDEX) :
    packed (a ++ c :: List.replicate m EMPTY_COLOR_INDEX) := by
  by_cases hc : c = EMPTY_COLOR_INDEX
  · subst hc
    rw [← List.replicate_succ]
    exact packed_of_split a (m + 1) ha
  · have e : a ++ c :: List.replicate m EMPTY_COLOR_INDEX
        = (a ++ [c]) ++ List.replicate m EMPTY_COLOR_INDEX := by simp
    rw [e]
    apply packed_of_split
    intro x hx
    rcases List.mem_append.1 hx with h | h
    · exact ha x h
    · rw [List.mem_singleton.1 h]; exact hc

theorem Tube_add_color_packed (t : Tube) (c : Int) (hp : packed t) :
    packed (Tube_add_color t c).2 := by
  obtain ⟨a, m, rfl, ha⟩ := packed_split t hp
  cases m with
  | zero =>
    have hfull : Tube_is_full (a ++ List.replicate 0 EMPTY_COLOR_INDEX) = true := by
      rw [Tube_is_full_shape a 0 ha]; simp
    unfold Tube_add_color
    rw [hfull]
    exact hp
  | succ m =>
    rw [Tube_add_color_shape c m a ha]
    exact packed_add_shape a c m ha

theorem Tube_add_color_loop_packed (t t1 : Tube) (c : Int) (hp : packed t)
    (h : Tube_add_color_loop c t = some t1) : packed t1 := by
  rcases Tube_add_color_cases t c with ⟨_, h2⟩ | ⟨_, h2⟩
  · rw [h] at h2
    simp only [Option.some.injEq] at h2
    rw [h2]
    exact Tube_add_color_packed t c hp
  · obtain ⟨a, m, rfl, ha⟩ := packed_split t hp
    cases m with
    | zero =>
      exfalso
      have hnone : ∀ s : Tube, (∀ x ∈ s, x ≠ EMPTY_COLOR_INDEX) →
          Tube_add_color_loop c s = none := by
        intro s
        induction s with
        | nil => intro _; rfl
        | cons x rest ih =>
          intro hs
          rw [Tube_add_color_loop, if_neg (hs x (List.mem_cons_self _ _)),
            ih (fun y hy => hs y (List.mem_cons_of_mem _ hy))]
          rfl
      rw [List.replicate_zero, List.append_nil, hnone a ha] at h
      simp at h
    | succ m =>
      rw [Tube_add_color_loop_shape c m a ha] at h
      simp only [Option.some.injEq] at h
      rw [← h]
      exact packed_add_shape a c m ha

theorem write_run_some_le (c : Int) :
    ∀ (n i : Nat) (t t1 : Tube), write_run c n i t = some t1 → n = 0 ∨ i + n ≤ t.length := by
  intro n
  induction n with
  | zero => intro i t t1 _; exact Or.inl rfl
  | succ n ih =>
    intro i t t1 h
    rw [write_run] at h
    split_ifs at h with hlt
    rcases ih (i + 1) _ t1 h with e | e
    · right; omega
    · right
      rw [List.length_set] at e
      omega

theorem Tube_add_chunk_packed (t t1 : Tube) (chunk : ColorChunk) (hp : packed t)
    (h : Tube_add_chunk t chunk = some t1) : packed t1 := by
  obtain ⟨a, m, rfl, ha⟩ := packed_split t hp
  unfold Tube_add_chunk Tube_push_chunk_aux at h
  simp only [Bool.false_eq_true, false_and, if_false, Option.map_map, Option.map_eq_some',
    Function.comp] at h
  obtain ⟨t2, hw, rfl⟩ := h
  rw [scan_top_shape a m ha] at hw
  rcases write_run_some_le _ _ _ _ _ hw with e | e
  · rw [e, write_run] at hw
    simp only [Option.some.injEq] at hw
    rw [← hw]
    exact hp
  · simp only [List.length_append, List.length_replicate] at e
    have hk : chunk.count.toNat ≤ m := by omega
    have hsh := write_run_shape chunk.color EMPTY_COLOR_INDEX chunk.count.toNat a m [] hk
    simp only [List.append_nil] at hsh
    rw [hsh] at hw
    simp only [Option.some.injEq] at hw
    rw [← hw]
    by_cases hc : chunk.color = EMPTY_COLOR_INDEX
    · rw [hc, List.append_assoc, List.append_replicate_replicate]
      exact packed_of_split a _ ha
    · exact packed_of_split _ _ (mem_shape a _ chunk.color ha hc)

theorem remove_run_packed (c : Int) :
    ∀ (n : Nat) (p : Tube) (q : Nat) (t1 : Tube), (∀ x ∈ p, x ≠ EMPTY_COLOR_INDEX) →
      remove_run c n p.length (p ++ List.replicate q EMPTY_COLOR_INDEX) = some t1 →
      packed t1 := by
  intro n
  induction n with
  | zero =>
    intro p q t1 hp h
    rw [remove_run] at h
    simp only [Option.some.injEq] at h
    rw [← h]
    exact packed_of_split p q hp
  | succ n ih =>
    intro p q t1 hp h
    rcases List.eq_nil_or_concat p with hnil | ⟨p1, x, hx⟩
    · subst hnil
      simp [remove_run] at h
    · simp only [List.concat_eq_append] at hx
      subst hx
      have hlen : (p1 ++ [x]).length = p1.length + 1 := by simp
      rw [hlen, remove_run] at h
      have hslot : slot_color (p1 ++ [x] ++ List.replicate q EMPTY_COLOR_INDEX) p1.length = x :=
        slot_color_last p1 x _
      rw [hslot] at h
      split_ifs at h with hne
      · simp only [Option.some.injEq] at h
        rw [← h]
        exact packed_of_split _ q hp
      · have hset : (p1 ++ [x] ++ List.replicate q EMPTY_COLOR_INDEX).set p1.length
            EMPTY_COLOR_INDEX = p1 ++ List.replicate (q + 1) EMPTY_COLOR_INDEX := by
          rw [List.append_assoc, List.set_append_right _ _ (le_refl _)]
          simp [List.replicate_succ]
        rw [hset] at h
        exact ih p1 (q + 1) t1 (fun y hy => hp y (by simp [hy])) h

theorem Tube_remove_chunk_packed (t t1 : Tube) (chunk : ColorChunk) (hp : packed t)
    (h : Tube_remove_chunk t chunk = some t1) : packed t1 := by
  obtain ⟨a, m, rfl, ha⟩ := packed_split t hp
  unfold Tube_remove_chunk Tube_pop_chunk_aux at h
  simp only at h
  rw [scan_top_shape a m ha] at h
  exact remove_run_packed _ _ a m t1 ha h

theorem Tube_revert_packed (src dst : Tube) (chunk : ColorChunk) (hs : packed src)
    (hd : packed dst) (s1 d1 : Tube) (h : Tube_revert src dst chunk = some (s1, d1)) :
    packed s1 ∧ packed d1 := by
  unfold Tube_revert at h
  cases hr : Tube_remove_chunk dst chunk with
  | none => rw [hr] at h; simp at h
  | some d2 =>
    rw [hr] at h
    simp only at h
    cases ha : Tube_add_chunk src chunk with
    | none => rw [ha] at h; simp at h
    | some s2 =>
      rw [ha] at h
      simp only [Option.some.injEq, Prod.mk.injEq] at h
      obtain ⟨rfl, rfl⟩ := h
      exact ⟨Tube_add_chunk_packed src _ chunk hs ha, Tube_remove_chunk_packed dst _ chunk hd hr⟩

theorem Tube_revert_same_packed (t t1 : Tube) (chunk : ColorChunk) (hp : packed t)
    (h : Tube_revert_same t chunk = some t1) : packed t1 := by
  unfold Tube_revert_same at h
  cases hr : Tube_remove_chunk t chunk with
  | none => rw [hr] at h; simp at h
  | some t2 =>
    rw [hr] at h
    simp only at h
    exact Tube_add_chunk_packed t2 t1 chunk (Tube_remove_chunk_packed t t2 chunk hp hr) h

theorem Tube_pour_same_packed (t : Tube) (hp : packed t) (res : PourResult)
    (h : Tube_pour_same t = some res) : packed res.src ∧ packed res.dst := by
  by_cases hok : res.ret = TUBE_SUCCESS
  · rcases packed_cases t hp with ⟨m, rfl⟩ | ⟨b, r, m, c, rfl, hb, hc, hoff⟩
    · exfalso
      unfold Tube_pour_same at h
      have he : Tube_is_empty (List.replicate m EMPTY_COLOR_INDEX) = true := by
        have := Tube_is_empty_shape [] m (fun x hx => by simp at hx)
        simpa using this
      rw [he] at h
      simp only [true_or, if_true, Option.some.injEq] at h
      rw [← h] at hok
      exact failure_ne_success hok
    · unfold Tube_pour_same at h
      split_ifs at h with h0
      · simp only [Option.some.injEq] at h
        rw [← h] at hok
        exact absurd hok failure_ne_success
      · simp only at h
        rw [Tube_get_top_chunk_shape b r m c hb hc hoff] at h
        unfold Tube_push_chunk at h
        rw [Tube_push_chunk_aux_checked (b ++ List.replicate (r + 1) c) m c (r + 1)
          (mem_shape b (r + 1) c hb hc)] at h
        have hlast : (b ++ List.replicate (r + 1) c).getLast? = some c := by
          rw [List.replicate_succ', ← List.append_assoc]
          simp
        rw [if_neg (by rw [hlast]; simp)] at h
        split_ifs at h with hfit
        · simp only [if_true, Option.some.injEq] at h
          rw [← h] at hok
          exact absurd hok failure_ne_success
        · simp only [if_neg failure_ne_success.symm] at h
          have e : b ++ List.replicate (r + 1) c ++ List.replicate (r + 1) c
              ++ List.replicate (m - (r + 1)) EMPTY_COLOR_INDEX
              = b ++ List.replicate (r + 1 + r + 1) c
                ++ List.replicate (m - (r + 1)) EMPTY_COLOR_INDEX := by
            rw [List.append_assoc b, List.append_replicate_replicate]
            rfl
          rw [e, Tube_pop_chunk_shape b (r + 1 + r) (m - (r + 1)) c hb hc hoff] at h
          simp only [Option.some.injEq] at h
          rw [← h]
          exact ⟨packed_of_split b _ hb, packed_of_split b _ hb⟩
  · obtain ⟨h1, h2, _⟩ := Tube_pour_same_failure_unchanged t res h hok
    rw [h1, h2]; exact ⟨hp, hp⟩

theorem GameInfo_pour_tubes_packed (info info1 : GameInfo) (i j : Int) (res : PourResult)
    (hp : board_packed info) (h : GameInfo_pour_tubes info i j = some (res, info1)) :
    board_packed info1 := by
  unfold GameInfo_pour_tubes at h
  cases hi : info.tube_at i with
  | none => rw [hi] at h; simp at h
  | some src =>
    cases hj : info.tube_at j with
    | none => rw [hi, hj] at h; simp at h
    | some dst =>
      rw [hi, hj] at h
      simp only at h
      have hs := hp src (tube_at_mem info i src hi)
      have hd := hp dst (tube_at_mem info j dst hj)
      split_ifs at h with hij
      · simp only [Option.map_eq_some', Prod.mk.injEq] at h
        obtain ⟨r, hr, rfl, rfl⟩ := h
        exact board_packed_set info i _ hp (Tube_pour_same_packed src hs r hr).1
      · simp only [Option.map_eq_some', Prod.mk.injEq] at h
        obtain ⟨r, hr, rfl, rfl⟩ := h
        have := Tube_pour_packed src dst hs hd r hr
        exact board_packed_set _ j _ (board_packed_set info i _ hp this.1) this.2

/-- A call of `GameInfo_pour` that returns, with whatever indices, leaves a
board of packed tubes a board of packed tubes. -/
theorem GameInfo_pour_packed (info info1 : GameInfo) (i j : Int) (log log1 : ActionLog)
    (ret : Int) (hp : board_packed info)
    (h : GameInfo_pour info i j log = some (ret, info1, log1)) : board_packed info1 := by
  unfold GameInfo_pour at h
  split_ifs at h with hr
  · simp only [Option.some.injEq, Prod.mk.injEq] at h
    rw [← h.2.1]; exact hp
  · cases hpt : GameInfo_pour_tubes info i j with
    | none => rw [hpt] at h; simp at h
    | some q =>
      obtain ⟨r, i1⟩ := q
      rw [hpt] at h
      simp only at h
      have hpk := GameInfo_pour_tubes_packed info i1 i j r hp hpt
      split_ifs at h with hf
      · simp only [Option.some.injEq, Prod.mk.injEq] at h
        rw [← h.2.1]; exact hpk
      · cases hl : ActionLog_push_back log
            { i_src := i, i_dst := j, chunk := r.chunk.getD blank_action.chunk } with
        | none => rw [hl] at h; simp at h
        | some l1 =>
          rw [hl] at h
          simp only [Option.some.injEq, Prod.mk.injEq] at h
          rw [← h.2.1]; exact hpk

theorem GameInfo_revert_tubes_packed (info info1 : GameInfo) (a : Action)
    (hp : board_packed info) (h : GameInfo_revert_tubes info a = some info1) :
    board_packed info1 := by
  unfold GameInfo_revert_tubes at h
  cases hi : info.tube_at a.i_src with
  | none => rw [hi] at h; simp at h
  | some src =>
    cases hj : info.tube_at a.i_dst with
    | none => rw [hi, hj] at h; simp at h
    | some dst =>
      rw [hi, hj] at h
      simp only at h
      have hs := hp src (tube_at_mem info _ src hi)
      have hd := hp dst (tube_at_mem info _ dst hj)
      split_ifs at h with hij
      · simp only [Option.map_eq_some'] at h
        obtain ⟨t, ht, rfl⟩ := h
        exact board_packed_set info _ _ hp (Tube_revert_same_packed src t a.chunk hs ht)
      · simp only [Option.map_eq_some'] at h
        obtain ⟨r, hr, rfl⟩ := h
        have := Tube_revert_packed src dst a.chunk hs hd r.1 r.2 hr
        exact board_packed_set _ _ _ (board_packed_set info _ _ hp this.1) this.2

/-- A call of `GameInfo_revert_one` that returns leaves a board of packed
tubes a board of packed tubes. -/
theorem GameInfo_revert_one_packed (info info1 : GameInfo) (log log1 : ActionLog) (ret : Int)
    (hp : board_packed info) (h : GameInfo_revert_one info log = some (ret, info1, log1)) :
    board_packed info1 := by
  unfold GameInfo_revert_one at h
  cases hpop : ActionLog_pop log with
  | none => rw [hpop] at h; simp at h
  | some q =>
    obtain ⟨r, l1, w⟩ := q
    rw [hpop] at h
    simp only at h
    split_ifs at h with hf
    · simp only [Option.some.injEq, Prod.mk.injEq] at h
      rw [← h.2.1]; exact hp
    · cases hrt : GameInfo_revert_tubes info (w.getD blank_action) with
      | none => rw [hrt] at h; simp at h
      | some i1 =>
        rw [hrt] at h
        simp only [Option.some.injEq, Prod.mk.injEq] at h
        rw [← h.2.1]
        exact GameInfo_revert_tubes_packed info i1 _ hp hrt

theorem GameInfo_play_loop_packed :
    ∀ (inputs : List UserInput) (info info1 : GameInfo) (log : ActionLog),
      board_packed info → GameInfo_play_loop inputs info log = some info1 →
      board_packed info1 := by
  intro inputs
  induction inputs with
  | nil =>
    intro info info1 log hp h
    simp only [GameInfo_play_loop, Option.some.injEq] at h
    rw [← h]; exact hp
  | cons u rest ih =>
    intro info info1 log hp h
    cases u with
    | quit =>
      simp only [GameInfo_play_loop, Option.some.injEq] at h
      rw [← h]; exact hp
    | invalid =>
      simp only [GameInfo_play_loop] at h
      exact ih info info1 log hp h
    | valid i j =>
      simp only [GameInfo_play_loop] at h
      cases hpour : GameInfo_pour info i j log with
      | none => rw [hpour] at h; simp at h
      | some q =>
        obtain ⟨r, i1, l1⟩ := q
        rw [hpour] at h
        simp only at h
        have hpk := GameInfo_pour_packed info i1 i j log l1 r hp hpour
        cases hs : GameInfo_is_solved i1 with
        | none => rw [hs] at h; simp at h
        | some b =>
          rw [hs] at h
          cases b with
          | true =>
            simp only [Option.some.injEq] at h
            rw [← h]; exact hpk
          | false => exact ih i1 info1 l1 hpk h
    | revert =>
      simp only [GameInfo_play_loop] at h
      cases hrev : GameInfo_revert_one info log with
      | none => rw [hrev] at h; simp at h
      | some q =>
        obtain ⟨r, i1, l1⟩ := q
        rw [hrev] at h
        simp only at h
        have hpk := GameInfo_revert_one_packed info i1 log l1 r hp hrev
        cases hs : GameInfo_is_solved i1 with
        | none => rw [hs] at h; simp at h
        | some b =>
          rw [hs] at h
          cases b with
          | true =>
            simp only [Option.some.injEq] at h
            rw [← h]; exact hpk
          | false => exact ih i1 info1 l1 hpk h

theorem GameInfo_create_from_seed_loop_packed (nc : Nat) :
    ∀ (fuel : Nat) (info : GameInfo) (pool : ColorPool) (draws rest : List Nat)
      (info1 : GameInfo), board_packed info →
      GameInfo_create_from_seed_loop nc fuel info pool draws = some (info1, rest) →
      board_packed info1 := by
  intro fuel
  induction fuel with
  | zero =>
    intro info pool draws rest info1 _ h
    simp [GameInfo_create_from_seed_loop] at h
  | succ fuel ih =>
    intro info pool draws rest info1 hp h
    simp only [GameInfo_create_from_seed_loop] at h
    split_ifs at h with he
    · simp only [Option.some.injEq, Prod.mk.injEq] at h
      rw [← h.1]; exact hp
    · cases hpick : ColorPool_pick_color pool draws with
      | none => rw [hpick] at h; simp at h
      | some q =>
        obtain ⟨color, pool1, draws1⟩ := q
        rw [hpick] at h
        simp only at h
        cases hput : pick_tube_loop nc (color : Int) info draws1 with
        | none => rw [hput] at h; simp at h
        | some q2 =>
          obtain ⟨i1, draws2⟩ := q2
          rw [hput] at h
          simp only at h
          obtain ⟨i, t, t1, _, ht, hadd, hinfo⟩ :=
            pick_tube_loop_some nc (color : Int) draws1 draws2 info i1 hput
          have hpk : board_packed i1 := by
            rw [hinfo]
            intro u hu
            rcases List.mem_or_eq_of_mem_set hu with hu | hu
            · exact hp u hu
            · rw [hu]
              exact Tube_add_color_loop_packed t t1 _ (hp t (List.getElem?_mem ht)) hadd
          exact ih i1 pool1 draws2 rest info1 hpk h

theorem GameInfo_create_from_seed_packed (nc ne ns seed : Nat) (draws : List Nat)
    (info : GameInfo) (h : GameInfo_create_from_seed nc ne ns seed draws = some info) :
    board_packed info := by
  unfold GameInfo_create_from_seed at h
  simp only [Option.map_eq_some'] at h
  obtain ⟨r, hr, rfl⟩ := h
  obtain ⟨i1, rest⟩ := r
  refine GameInfo_create_from_seed_loop_packed nc _ _ _ draws rest i1 ?_ hr
  intro t ht
  simp only [GameInfo_create, List.mem_replicate] at ht
  rw [ht.2]
  exact packed_create ns

theorem GameInfo_create_from_file_tubes_packed (input : Input) :
    ∀ (n i_tube : Nat) (tubes : List Tube),
      GameInfo_create_from_file_tubes input n i_tube = some tubes → ∀ t ∈ tubes, packed t := by
  intro n
  induction n with
  | zero =>
    intro i_tube tubes h t ht
    simp only [GameInfo_create_from_file_tubes, Option.some.injEq] at h
    rw [← h] at ht
    simp at ht
  | succ n ih =>
    intro i_tube tubes h t ht
    simp only [GameInfo_create_from_file_tubes] at h
    cases hs : GameInfo_create_from_file_slots input i_tube input.num_slots 0
        (Tube_create input.num_slots) with
    | none => rw [hs] at h; simp at h
    | some tube =>
      rw [hs] at h
      simp only [Option.map_eq_some'] at h
      obtain ⟨rest, hrest, rfl⟩ := h
      rcases List.mem_cons.1 ht with e | e
      · rw [e]
        have hslots : ∀ (k j : Nat) (u u1 : Tube), packed u →
            GameInfo_create_from_file_slots input i_tube k j u = some u1 → packed u1 := by
          intro k
          induction k with
          | zero =>
            intro j u u1 hu h1
            simp only [GameInfo_create_from_file_slots, Option.some.injEq] at h1
            rw [← h1]; exact hu
          | succ k ihk =>
            intro j u u1 hu h1
            simp only [GameInfo_create_from_file_slots] at h1
            cases hd : input.data[i_tube * input.num_slots + j]? with
            | none => rw [hd] at h1; simp at h1
            | some color =>
              rw [hd] at h1
              exact ihk (j + 1) _ u1 (Tube_add_color_packed u color hu) h1
        exact hslots _ _ _ _ (packed_create _) hs
      · exact ih (i_tube + 1) rest hrest t e

theorem GameInfo_create_from_file_packed (input : Input) (info : GameInfo)
    (h : GameInfo_create_from_file input = some info) : board_packed info := by
  unfold GameInfo_create_from_file at h
  simp only [Option.map_eq_some'] at h
  obtain ⟨tubes, ht, rfl⟩ := h
  exact GameInfo_create_from_file_tubes_packed input _ _ tubes ht

/-- C30. Packedness (no non-empty slot above an empty slot) is kept by every
step that builds or changes a tube: `Tube_create` gives a packed tube;
`Tube_add_color` keeps a tube packed; `Tube_pour` between two packed tubes,
successful or failed, leaves both packed; `Tube_revert` with the chunk of a
successful pour, on the tubes that pour left behind, returns and leaves both
packed.  Hence the board `GameInfo_create_from_seed` generates and the board
`GameInfo_create_from_file` loads consist of packed tubes, and from a board of
packed tubes so does every board that `GameInfo_pour` or
`GameInfo_revert_one` (the two steps of play) leaves behind, the board
`GameInfo_play` ends with, and the board `GameInfo_solver_loop_src` leaves
behind. -/
theorem packed_invariant :
    (∀ n : Nat, packed (Tube_create n)) ∧
    (∀ (t : Tube) (c : Int), packed t → packed (Tube_add_color t c).2) ∧
    (∀ (src dst : Tube) (r : PourResult), packed src → packed dst →
      Tube_pour src dst = some r → packed r.src ∧ packed r.dst) ∧
    (∀ (src dst : Tube) (r : PourResult) (chunk : ColorChunk), packed src → packed dst →
      Tube_pour src dst = some r → r.ret = TUBE_SUCCESS → r.chunk = some chunk →
      ∃ s1 d1, Tube_revert r.src r.dst chunk = some (s1, d1) ∧ packed s1 ∧ packed d1) ∧
    (∀ (nc ne ns seed : Nat) (draws : List Nat) (info : GameInfo),
      GameInfo_create_from_seed nc ne ns seed draws = some info → board_packed info) ∧
    (∀ (input : Input) (info : GameInfo),
      GameInfo_create_from_file input = some info → board_packed info) ∧
    (∀ (info info1 : GameInfo) (i j : Int) (log log1 : ActionLog) (ret : Int),
      board_packed info → GameInfo_pour info i j log = some (ret, info1, log1) →
      board_packed info1) ∧
    (∀ (info info1 : GameInfo) (log log1 : ActionLog) (ret : Int),
      board_packed info → GameInfo_revert_one info log = some (ret, info1, log1) →
      board_packed info1) ∧
    (∀ (info info1 : GameInfo) (inputs : List UserInput),
      board_packed info → GameInfo_play info inputs = some info1 → board_packed info1) ∧
    (∀ (fuel : Nat) (info info1 : GameInfo) (log log1 : ActionLog) (res : Bool),
      board_packed info → GameInfo_solver_loop_src fuel info log = some (res, info1, log1) →
      board_packed info1) := by
  refine ⟨packed_create, Tube_add_color_packed, ?_, ?_, GameInfo_create_from_seed_packed, 
    GameInfo_create_from_file_packed, ?_, ?_, ?_, ?_⟩
  · intro src dst r hs hd h
    exact Tube_pour_packed src dst hs hd r h
  · intro src dst r chunk hs hd h hok hchunk
    obtain ⟨b, k, ms, c, a, md, rfl, rfl, hb, hc, _, ha, hfit, _, rfl⟩ :=
      Tube_pour_success_shape src dst hs hd r h hok
    simp only [Option.some.injEq] at hchunk
    rw [← hchunk]
    exact ⟨_, _, Tube_revert_shape b k ms c a md hb hc ha hfit, hs, hd⟩
  · intro info info1 i j log log1 ret hp h
    exact GameInfo_pour_packed info info1 i j log log1 ret hp h
  · intro info info1 log log1 ret hp h
    exact GameInfo_revert_one_packed info info1 log log1 ret hp h
  · intro info info1 inputs hp h
    exact GameInfo_play_loop_packed inputs info info1 _ hp h
  · intro fuel info info1 log log1 res hp h
    exact (GameInfo_solver_loop_src_spec fuel info log res info1 log1 hp h).1

/-! ## Validation accepts well-formed boards -/

theorem sorted_split_empty :
    ∀ l : List Int, List.Sorted (fun x y : Int => x ≤ y) l →
      (∀ v ∈ l, EMPTY_COLOR_INDEX ≤ v) →
      l = List.replicate (l.count EMPTY_COLOR_INDEX) EMPTY_COLOR_INDEX
        ++ l.filter (fun x => decide (x ≠ EMPTY_COLOR_INDEX)) := by
  intro l
  induction l with
  | nil => intro _ _; rfl
  | cons x rest ih =>
    intro hs hge
    have hs2 := List.sorted_cons.1 hs
    by_cases hx : x = EMPTY_COLOR_INDEX
    · subst hx
      rw [List.count_cons_self, List.replicate_succ, List.filter_cons_of_neg (by simp),
        List.cons_append, ← ih hs2.2 (fun v hv => hge v (List.mem_cons_of_mem _ hv))]
    · have hxgt : EMPTY_COLOR_INDEX < x :=
        lt_of_le_of_ne (hge x (List.mem_cons_self _ _)) (Ne.symm hx)
      have hall : ∀ v ∈ x :: rest, v ≠ EMPTY_COLOR_INDEX := by
        intro v hv
        rcases List.mem_cons.1 hv with e | e
        · rw [e]; exact hx
        · have := hs2.1 v e
          intro hve
          rw [hve] at this
          exact absurd (lt_of_lt_of_le hxgt this) (lt_irrefl _)
      have hcount : (x :: rest).count EMPTY_COLOR_INDEX = 0 :=
        List.count_eq_zero.2 (fun hmem => hall _ hmem rfl)
      have hfilter : (x :: rest).filter (fun v => decide (v ≠ EMPTY_COLOR_INDEX)) = x :: rest := by
        rw [List.filter_eq_self]
        intro v hv
        simpa using hall v hv
      rw [hcount, hfilter]
      rfl

theorem count_empty_cells_shape (x : Int) (rest : List Int) (hx : x ≠ EMPTY_COLOR_INDEX) :
    ∀ (m k : Nat),
      count_empty_cells (List.replicate m EMPTY_COLOR_INDEX ++ x :: rest) k = some (k + m) := by
  intro m
  induction m with
  | zero =>
    intro k
    rw [List.replicate_zero, List.nil_append, count_empty_cells, if_neg hx]
    rfl
  | succ m ih =>
    intro k
    rw [List.replicate_succ, List.cons_append, count_empty_cells, if_pos rfl, ih (k + 1)]
    congr 1
    omega

/-- The run check passes on a sorted list in which every value occurs exactly
`ns` times, entered with the counter that fits its first value. -/
theorem check_color_runs_accepts (ns : Nat) :
    ∀ (rest : List Int) (a : Int) (ctr : Nat),
      List.Sorted (fun x y : Int => x ≤ y) (a :: rest) →
      List.count a (a :: rest) + ctr = ns + 1 →
      (∀ v ∈ rest, v ≠ a → List.count v rest = ns) →
      check_color_runs ns (a :: rest) ctr = true := by
  intro rest
  induction rest with
  | nil => intro a ctr _ _ _; rfl
  | cons b rest2 ih =>
    intro a ctr hs hcnt hall
    have hs1 := List.sorted_cons.1 hs
    have hs2 := List.sorted_cons.1 hs1.2
    rw [check_color_runs]
    by_cases hab : a = b
    · subst hab
      rw [if_pos rfl]
      apply ih a (ctr + 1) hs1.2
      · rw [List.count_cons_self] at hcnt
        omega
      · intro v hv hva
        have := hall v (List.mem_cons_of_mem _ hv) hva
        rw [List.count_cons_of_ne hva] at this
        exact this
    · rw [if_neg hab]
      have hlt : a < b := lt_of_le_of_ne (hs1.1 b (List.mem_cons_self _ _)) hab
      have hnot : a ∉ b :: rest2 := by
        intro hmem
        rcases List.mem_cons.1 hmem with e | e
        · exact hab e
        · have := hs2.1 a e
          exact absurd (lt_of_lt_of_le hlt this) (lt_irrefl _)
      have hca : List.count a (a :: b :: rest2) = 1 := by
        rw [List.count_cons_self, List.count_eq_zero.2 hnot]
      have hctr : ctr = ns := by omega
      rw [if_neg (by simpa using hctr)]
      apply ih b 1 hs1.2
      · have := hall b (List.mem_cons_self _ _) (Ne.symm hab)
        omega
      · intro v hv hvb
        have hva : v ≠ a := by
          intro e
          rw [e] at hv
          exact hnot (List.mem_cons_of_mem _ hv)
        have := hall v (List.mem_cons_of_mem _ hv) hva
        rw [List.count_cons_of_ne hvb] at this
        exact this

theorem length_eq_mul_dedup (n : Nat) (l : List Int) (h : ∀ v ∈ l, l.count v = n) :
    l.length = n * l.dedup.length := by
  rw [← List.sum_map_count_dedup_eq_length l]
  have : l.dedup.map (fun x => l.count x) = l.dedup.map (fun _ => n) := by
    apply List.map_congr_left
    intro x hx
    exact h x (List.mem_dedup.1 hx)
  rw [this, List.map_const', List.sum_replicate, smul_eq_mul, Nat.mul_comm]

/-- C29. For `num_slots >= 1` and a slot list of `num_slots * num_tubes`
values as `Input_read` stores them (every value is the empty value or
larger), that holds at least one colour, whose number of empty values is not
zero and is a multiple of `num_slots`, and in which every non-empty value
occurs exactly `num_slots` times: `Input_sanity_check` returns `TUBE_SUCCESS`
and stores `num_colors = num_tubes - (number of empty values / num_slots)`,
which is the number of distinct non-empty values of the list. -/
theorem Input_sanity_check_accepts_well_formed (input : Input) (hns : 1 ≤ input.num_slots)
    (hlen : input.data.length = input.num_slots * input.num_tubes)
    (hge : ∀ v ∈ input.data, EMPTY_COLOR_INDEX ≤ v)
    (hcol : ∃ v ∈ input.data, v ≠ EMPTY_COLOR_INDEX)
    (hE : 0 < input.data.count EMPTY_COLOR_INDEX)
    (hEm : input.data.count EMPTY_COLOR_INDEX % input.num_slots = 0)
    (hc : ∀ v ∈ input.data, v ≠ EMPTY_COLOR_INDEX → input.data.count v = input.num_slots) :
    Input_sanity_check input
      = some (TUBE_SUCCESS,
          { input with num_colors := (input.num_tubes : Int)
              - ((input.data.count EMPTY_COLOR_INDEX / input.num_slots : Nat) : Int) }) ∧
    (input.num_tubes : Int)
        - ((input.data.count EMPTY_COLOR_INDEX / input.num_slots : Nat) : Int)
      = (((input.data.filter (fun x => decide (x ≠ EMPTY_COLOR_INDEX))).dedup.length : Nat)
          : Int) := by
  have hperm := qsort_int_perm input.data
  have hsorted := qsort_int_sorted input.data
  have hge2 : ∀ v ∈ qsort_int input.data, EMPTY_COLOR_INDEX ≤ v :=
    fun v hv => hge v (hperm.mem_iff.1 hv)
  have hsplit := sorted_split_empty (qsort_int input.data) hsorted hge2
  have hcountE : (qsort_int input.data).count EMPTY_COLOR_INDEX
      = input.data.count EMPTY_COLOR_INDEX := hperm.count_eq _
  rw [hcountE] at hsplit
  obtain ⟨w, hw, hwne⟩ := hcol
  have hwf : w ∈ (qsort_int input.data).filter (fun x => decide (x ≠ EMPTY_COLOR_INDEX)) :=
    List.mem_filter.2 ⟨hperm.mem_iff.2 hw, by simpa using hwne⟩
  cases hs : (qsort_int input.data).filter (fun x => decide (x ≠ EMPTY_COLOR_INDEX)) with
  | nil => rw [hs] at hwf; simp at hwf
  | cons x rest =>
    rw [hs] at hsplit
    have hxmem : x ∈ (qsort_int input.data).filter (fun x => decide (x ≠ EMPTY_COLOR_INDEX)) := by
      rw [hs]; exact List.mem_cons_self _ _
    have hx : x ≠ EMPTY_COLOR_INDEX := by simpa using (List.mem_filter.1 hxmem).2
    have hsub : ∀ v ∈ x :: rest, v ∈ input.data ∧ v ≠ EMPTY_COLOR_INDEX := by
      intro v hv
      rw [← hs] at hv
      have := List.mem_filter.1 hv
      exact ⟨hperm.mem_iff.1 this.1, by simpa using this.2⟩
    have hcnt : ∀ v, v ≠ EMPTY_COLOR_INDEX → List.count v (x :: rest) = input.data.count v := by
      intro v hv
      rw [← hperm.count_eq v]
      conv_rhs => rw [hsplit]
      rw [List.count_append, List.count_replicate, if_neg (by simpa using Ne.symm hv)]
      simp
    have hsorted2 : List.Sorted (fun x y : Int => x ≤ y) (x :: rest) := by
      rw [← hs]
      exact List.Sorted.filter _ hsorted
    have hcheck : check_color_runs input.num_slots (x :: rest) 1 = true := by
      apply check_color_runs_accepts input.num_slots rest x 1 hsorted2
      · rw [hcnt x hx, hc x (hsub x (List.mem_cons_self _ _)).1 hx]
      · intro v hv hvx
        have hvm := hsub v (List.mem_cons_of_mem _ hv)
        have := hcnt v hvm.2
        rw [List.count_cons_of_ne hvx, hc v hvm.1 hvm.2] at this
        exact this
    have hidx := count_empty_cells_shape x rest hx (input.data.count EMPTY_COLOR_INDEX) 0
    rw [← hsplit, Nat.zero_add] at hidx
    constructor
    · unfold Input_sanity_check
      simp only
      rw [if_neg (by omega), ← hlen, List.take_length, hidx]
      simp only
      rw [if_neg (by omega), if_neg (by omega), if_neg (by simpa using hEm)]
      have hdrop : (qsort_int input.data).drop (input.data.count EMPTY_COLOR_INDEX)
          = x :: rest := by
        conv_lhs => rw [hsplit]
        rw [List.drop_left' (by simp)]
      rw [hdrop, hcheck]
      simp
    · have hfl := filter_length_add_count input.data
      have hfperm : ((qsort_int input.data).filter
            (fun x => decide (x ≠ EMPTY_COLOR_INDEX))).Perm
          (input.data.filter (fun x => decide (x ≠ EMPTY_COLOR_INDEX))) := hperm.filter _
      have hded := length_eq_mul_dedup input.num_slots
        (input.data.filter (fun x => decide (x ≠ EMPTY_COLOR_INDEX)))
        (by
          intro v hv
          have hvm := List.mem_filter.1 hv
          have hvne : v ≠ EMPTY_COLOR_INDEX := by simpa using hvm.2
          rw [List.count_filter (by simpa using hvne)]
          exact hc v hvm.1 hvne)
      obtain ⟨q, hq⟩ : ∃ q, input.data.count EMPTY_COLOR_INDEX = input.num_slots * q :=
        ⟨_, (Nat.div_add_mod _ _).symm.trans (by rw [hEm, Nat.add_zero])⟩
      have hdiv : input.data.count EMPTY_COLOR_INDEX / input.num_slots = q := by
        rw [hq, Nat.mul_div_cancel_left _ (by omega)]
      rw [hdiv]
      have hmul : input.num_slots * ((input.data.filter
            (fun x => decide (x ≠ EMPTY_COLOR_INDEX))).dedup.length + q)
          = input.num_slots * input.num_tubes := by
        rw [Nat.mul_add, ← hded, ← hq, hfl, hlen]
      have := Nat.eq_of_mul_eq_mul_left (by omega : 0 < input.num_slots) hmul
      omega

theorem Input_sanity_check_accepts_well_formed_witness :
    1 ≤ (⟨3, 0, 2, [-1, 1, 0, -1, 1, 0]⟩ : Input).num_slots ∧
    (⟨3, 0, 2, [-1, 1, 0, -1, 1, 0]⟩ : Input).data.length
      = (⟨3, 0, 2, [-1, 1, 0, -1, 1, 0]⟩ : Input).num_slots
        * (⟨3, 0, 2, [-1, 1, 0, -1, 1, 0]⟩ : Input).num_tubes ∧
    (∀ v ∈ (⟨3, 0, 2, [-1, 1, 0, -1, 1, 0]⟩ : Input).data, EMPTY_COLOR_INDEX ≤ v) ∧
    (∃ v ∈ (⟨3, 0, 2, [-1, 1, 0, -1, 1, 0]⟩ : Input).data, v ≠ EMPTY_COLOR_INDEX) ∧
    0 < (⟨3, 0, 2, [-1, 1, 0, -1, 1, 0]⟩ : Input).data.count EMPTY_COLOR_INDEX ∧
    (⟨3, 0, 2, [-1, 1, 0, -1, 1, 0]⟩ : Input).data.count EMPTY_COLOR_INDEX
      % (⟨3, 0, 2, [-1, 1, 0, -1, 1, 0]⟩ : Input).num_slots = 0 ∧
    (∀ v ∈ (⟨3, 0, 2, [-1, 1, 0, -1, 1, 0]⟩ : Input).data, v ≠ EMPTY_COLOR_INDEX →
      (⟨3, 0, 2, [-1, 1, 0, -1, 1, 0]⟩ : Input).data.count v
        = (⟨3, 0, 2, [-1, 1, 0, -1, 1, 0]⟩ : Input).num_slots) ∧
    (Input_sanity_check ⟨3, 0, 2, [-1, 1, 0, -1, 1, 0]⟩
      = some (TUBE_SUCCESS,
          { (⟨3, 0, 2, [-1, 1, 0, -1, 1, 0]⟩ : Input) with
            num_colors := ((⟨3, 0, 2, [-1, 1, 0, -1, 1, 0]⟩ : Input).num_tubes : Int)
              - (((⟨3, 0, 2, [-1, 1, 0, -1, 1, 0]⟩ : Input).data.count EMPTY_COLOR_INDEX
                  / (⟨3, 0, 2, [-1, 1, 0, -1, 1, 0]⟩ : Input).num_slots : Nat) : Int) }) ∧
    ((⟨3, 0, 2, [-1, 1, 0, -1, 1, 0]⟩ : Input).num_tubes : Int)
        - (((⟨3, 0, 2, [-1, 1, 0, -1, 1, 0]⟩ : Input).data.count EMPTY_COLOR_INDEX
            / (⟨3, 0, 2, [-1, 1, 0, -1, 1, 0]⟩ : Input).num_slots : Nat) : Int)
      = ((((⟨3, 0, 2, [-1, 1, 0, -1, 1, 0]⟩ : Input).data.filter
            (fun x => decide (x ≠ EMPTY_COLOR_INDEX))).dedup.length : Nat) : Int)) :=
  ⟨by decide, by decide, by decide, by decide, by decide, by decide, by decide,
    Input_sanity_check_accepts_well_formed ⟨3, 0, 2, [-1, 1, 0, -1, 1, 0]⟩
      (by decide) (by decide) (by decide) (by decide) (by decide) (by decide) (by decide)⟩

/-! ## The solution report -/

theorem GameInfo_is_solved_loop_not_pure :
    ∀ tubes : List Tube, (∃ t ∈ tubes, Tube_is_pure t = some false) →
      GameInfo_is_solved_loop tubes ≠ some true := by
  intro tubes
  induction tubes with
  | nil => rintro ⟨t, ht, _⟩; simp at ht
  | cons u rest ih =>
    rintro ⟨t, ht, hpure⟩
    rw [GameInfo_is_solved_loop]
    cases hu : Tube_is_pure u with
    | none => simp
    | some b =>
      cases b with
      | false => simp
      | true =>
        simp only
        rcases List.mem_cons.1 ht with e | e
        · rw [e, hu] at hpure; simp at hpure
        · exact ih ⟨t, e, hpure⟩

/-- A run of the source loop that returns `true` started from a board with a
tube that is not pure. -/
theorem GameInfo_solver_loop_src_from_unsolved
    (again : GameInfo → ActionLog → Option (Bool × GameInfo × ActionLog)) :
    ∀ (n i_src : Nat) (info : GameInfo) (log : ActionLog) (info1 : GameInfo)
      (log1 : ActionLog),
      GameInfo_solver_loop_src_from again n i_src info log = some (true, info1, log1) →
      ∃ t ∈ info.tubes, Tube_is_pure t = some false := by
  intro n
  induction n with
  | zero =>
    intro i_src info log info1 log1 h
    simp [GameInfo_solver_loop_src_from] at h
  | succ n ih =>
    intro i_src info log info1 log1 h
    simp only [GameInfo_solver_loop_src_from] at h
    cases ht : info.tubes[i_src]? with
    | none => rw [ht] at h; simp at h
    | some tube =>
      rw [ht] at h
      simp only at h
      cases hpure : Tube_is_pure tube with
      | none => rw [hpure] at h; simp at h
      | some b =>
        rw [hpure] at h
        cases b with
        | true => exact ih _ _ _ _ _ h
        | false => exact ⟨tube, List.getElem?_mem ht, hpure⟩

theorem GameInfo_solver_loop_src_unsolved (fuel : Nat) (info info1 : GameInfo)
    (log log1 : ActionLog)
    (h : GameInfo_solver_loop_src fuel info log = some (true, info1, log1)) :
    ∃ t ∈ info.tubes, Tube_is_pure t = some false := by
  cases fuel with
  | zero => simp [GameInfo_solver_loop_src] at h
  | succ fuel =>
    simp only [GameInfo_solver_loop_src] at h
    exact GameInfo_solver_loop_src_from_unsolved _ _ _ info log info1 log1 h

/-- What a call of `GameInfo_solve` that writes a report has done: the search
returned `true` with the reported log, and `GameInfo_revert_all` on a
duplicate of that log led to the reported board. -/
theorem GameInfo_solve_report (fuel : Nat) (info info2 : GameInfo) (rep : SolutionReport)
    (h : GameInfo_solve fuel info = some (info2, some rep)) :
    ∃ info1 dup2,
      GameInfo_find_solution fuel info (some ActionLog_create)
        = some (true, info1, some rep.log) ∧
      GameInfo_revert_all info1 (ActionLog_duplicate rep.log) = some (info2, dup2) ∧
      rep.board = info2 := by
  unfold GameInfo_solve at h
  simp only at h
  cases hf : GameInfo_find_solution fuel info (some ActionLog_create) with
  | none => rw [hf] at h; simp at h
  | some q =>
    obtain ⟨res, i1, out⟩ := q
    rw [hf] at h
    simp only at h
    cases res with
    | false => simp at h
    | true =>
      simp only [if_true] at h
      cases out with
      | none => simp at h
      | some l1 =>
        simp only at h
        cases hr : GameInfo_revert_all i1 (ActionLog_duplicate l1) with
        | none => rw [hr] at h; simp at h
        | some q2 =>
          obtain ⟨i2, d2⟩ := q2
          rw [hr] at h
          simp only [Option.some.injEq, Prod.mk.injEq] at h
          obtain ⟨rfl, hrep⟩ := h
          rw [← hrep]
          exact ⟨i1, d2, rfl, hr, rfl⟩

theorem GameInfo_find_solution_search (fuel : Nat) (info info1 : GameInfo) (log L : ActionLog)
    (h : GameInfo_find_solution fuel info (some log) = some (true, info1, some L)) :
    GameInfo_solver_loop_src fuel info ActionLog_create = some (true, info1, L) := by
  unfold GameInfo_find_solution at h
  simp only at h
  cases hs : GameInfo_solver_loop_src fuel info ActionLog_create with
  | none => rw [hs] at h; simp at h
  | some p =>
    obtain ⟨res, i1, l1⟩ := p
    rw [hs] at h
    simp only at h
    split_ifs at h with hc
    · simp only [Option.some.injEq, Prod.mk.injEq] at h
      obtain ⟨rfl, rfl, rfl⟩ := h
      rfl
    · simp only [Option.some.injEq, Prod.mk.injEq] at h
      obtain ⟨rfl, _, _⟩ := h
      simp at hc

/-- C21, as the code has it.  When `GameInfo_solve`, called on a board of
packed tubes, writes a solution report, the board it passes to the board
printer is the board as it was at the call, restored by `GameInfo_revert_all`
on a duplicate of the log; that board has a tube that is not pure, so
`GameInfo_is_solved` does not return true on it.  The log printed after it is
the log `GameInfo_find_solution` handed back: it is not empty, and its actions
replayed from the printed board lead to a solved board. -/
theorem GameInfo_solve_prints_initial_board (fuel : Nat) (info info2 : GameInfo)
    (rep : SolutionReport) (hp : board_packed info)
    (h : GameInfo_solve fuel info = some (info2, some rep)) :
    rep.board = info ∧ info2 = info ∧
    (∃ t ∈ rep.board.tubes, Tube_is_pure t = some false) ∧
    GameInfo_is_solved rep.board ≠ some true ∧
    ∃ solved,
      GameInfo_find_solution fuel info (some ActionLog_create)
        = some (true, solved, some rep.log) ∧
      rep.log.entries ≠ [] ∧
      replay_actions rep.board rep.log.entries = some solved ∧
      GameInfo_is_solved solved = some true := by
  obtain ⟨info1, dup2, hfind, hrev, hboard⟩ := GameInfo_solve_report fuel info info2 rep h
  have hsearch := GameInfo_find_solution_search fuel info info1 _ rep.log hfind
  obtain ⟨_, _, htrue⟩ :=
    GameInfo_solver_loop_src_spec fuel info ActionLog_create true info1 rep.log hp hsearch
  obtain ⟨acts, hne, hent, hrep, hsol⟩ := htrue rfl
  rw [ActionLog_create_entries, List.nil_append] at hent
  obtain ⟨_, htrue2⟩ := GameInfo_solver_loop_src_restore fuel info ActionLog_create true info1
    rep.log hp ActionLog_create_wf hsearch
  obtain ⟨acts2, hent2, hunwind⟩ := htrue2 rfl
  rw [ActionLog_create_entries, List.nil_append] at hent2
  have hwf : rep.log.wf :=
    (GameInfo_solver_loop_src_restore fuel info ActionLog_create true info1 rep.log hp
      ActionLog_create_wf hsearch).1
  have hdupwf : (ActionLog_duplicate rep.log).wf := hwf
  have hdupent : (ActionLog_duplicate rep.log).entries = rep.log.entries := rfl
  obtain ⟨log2, hall, _, _⟩ := GameInfo_revert_all_loop_unwind info acts2.reverse info1
    (ActionLog_duplicate rep.log) hdupwf (by rw [hdupent, hent2]) hunwind
  have hcounter : (ActionLog_duplicate rep.log).counter = acts2.reverse.length := by
    rw [← ActionLog_entries_length _ hdupwf, hdupent, hent2, List.length_reverse]
  have hall2 : GameInfo_revert_all info1 (ActionLog_duplicate rep.log) = some (info, log2) := by
    unfold GameInfo_revert_all
    rw [hcounter]
    exact hall
  rw [hall2] at hrev
  simp only [Option.some.injEq, Prod.mk.injEq] at hrev
  have hinfo2 : info2 = info := hrev.1.symm
  have hb : rep.board = info := by rw [hboard, hinfo2]
  have hunsolved := GameInfo_solver_loop_src_unsolved fuel info info1 _ _ hsearch
  refine ⟨hb, hinfo2, by rw [hb]; exact hunsolved, ?_, info1, hfind, ?_, ?_, hsol⟩
  · rw [hb]
    exact GameInfo_is_solved_loop_not_pure info.tubes hunsolved
  · rw [hent]; exact hne
  · rw [hb, hent]; exact hrep

theorem GameInfo_solve_prints_initial_board_witness :
    board_packed ⟨1, [[0, 1], [1, 0], [-1, -1]], 0⟩ ∧
    GameInfo_solve 3 ⟨1, [[0, 1], [1, 0], [-1, -1]], 0⟩
      = some (⟨1, [[0, 1], [1, 0], [-1, -1]], 0⟩,
          some ⟨⟨1, [[0, 1], [1, 0], [-1, -1]], 0⟩,
            ⟨⟨0, 2, ⟨1, 1⟩⟩ :: ⟨1, 0, ⟨0, 1⟩⟩ :: ⟨1, 2, ⟨1, 1⟩⟩
              :: List.replicate 61 blank_action, 3⟩⟩) ∧
    ((⟨⟨1, [[0, 1], [1, 0], [-1, -1]], 0⟩,
        ⟨⟨0, 2, ⟨1, 1⟩⟩ :: ⟨1, 0, ⟨0, 1⟩⟩ :: ⟨1, 2, ⟨1, 1⟩⟩
          :: List.replicate 61 blank_action, 3⟩⟩ : SolutionReport).board
      = ⟨1, [[0, 1], [1, 0], [-1, -1]], 0⟩ ∧
    (⟨1, [[0, 1], [1, 0], [-1, -1]], 0⟩ : GameInfo) = ⟨1, [[0, 1], [1, 0], [-1, -1]], 0⟩ ∧
    (∃ t ∈ (⟨⟨1, [[0, 1], [1, 0], [-1, -1]], 0⟩,
        ⟨⟨0, 2, ⟨1, 1⟩⟩ :: ⟨1, 0, ⟨0, 1⟩⟩ :: ⟨1, 2, ⟨1, 1⟩⟩
          :: List.replicate 61 blank_action, 3⟩⟩ : SolutionReport).board.tubes,
      Tube_is_pure t = some false) ∧
    GameInfo_is_solved (⟨⟨1, [[0, 1], [1, 0], [-1, -1]], 0⟩,
        ⟨⟨0, 2, ⟨1, 1⟩⟩ :: ⟨1, 0, ⟨0, 1⟩⟩ :: ⟨1, 2, ⟨1, 1⟩⟩
          :: List.replicate 61 blank_action, 3⟩⟩ : SolutionReport).board ≠ some true ∧
    ∃ solved,
      GameInfo_find_solution 3 ⟨1, [[0, 1], [1, 0], [-1, -1]], 0⟩ (some ActionLog_create)
        = some (true, solved, some (⟨⟨1, [[0, 1], [1, 0], [-1, -1]], 0⟩,
            ⟨⟨0, 2, ⟨1, 1⟩⟩ :: ⟨1, 0, ⟨0, 1⟩⟩ :: ⟨1, 2, ⟨1, 1⟩⟩
              :: List.replicate 61 blank_action, 3⟩⟩ : SolutionReport).log) ∧
      (⟨⟨1, [[0, 1], [1, 0], [-1, -1]], 0⟩,
        ⟨⟨0, 2, ⟨1, 1⟩⟩ :: ⟨1, 0, ⟨0, 1⟩⟩ :: ⟨1, 2, ⟨1, 1⟩⟩
          :: List.replicate 61 blank_action, 3⟩⟩ : SolutionReport).log.entries ≠ [] ∧
      replay_actions (⟨⟨1, [[0, 1], [1, 0], [-1, -1]], 0⟩,
          ⟨⟨0, 2, ⟨1, 1⟩⟩ :: ⟨1, 0, ⟨0, 1⟩⟩ :: ⟨1, 2, ⟨1, 1⟩⟩
            :: List.replicate 61 blank_action, 3⟩⟩ : SolutionReport).board
        (⟨⟨1, [[0, 1], [1, 0], [-1, -1]], 0⟩,
          ⟨⟨0, 2, ⟨1, 1⟩⟩ :: ⟨1, 0, ⟨0, 1⟩⟩ :: ⟨1, 2, ⟨1, 1⟩⟩
            :: List.replicate 61 blank_action, 3⟩⟩ : SolutionReport).log.entries = some solved ∧
      GameInfo_is_solved solved = some true) :=
  ⟨by decide, by decide,
    GameInfo_solve_prints_initial_board 3 ⟨1, [[0, 1], [1, 0], [-1, -1]], 0⟩
      ⟨1, [[0, 1], [1, 0], [-1, -1]], 0⟩
      ⟨⟨1, [[0, 1], [1, 0], [-1, -1]], 0⟩,
        ⟨⟨0, 2, ⟨1, 1⟩⟩ :: ⟨1, 0, ⟨0, 1⟩⟩ :: ⟨1, 2, ⟨1, 1⟩⟩
          :: List.replicate 61 blank_action, 3⟩⟩
      (by decide) (by decide)⟩

/-- C21 fails as stated: on the board `[A,B]`, `[B,A]`, `[]` `GameInfo_solve`
writes a report, and the board it passes to the board printer is that board,
on which `GameInfo_is_solved` returns false, not the solved board
`[A,A]`, `[]`, `[B,B]` the search reached. -/
theorem GameInfo_solve_report_not_solved :
    ∃ rep : SolutionReport,
      GameInfo_solve 3 ⟨1, [[0, 1], [1, 0], [-1, -1]], 0⟩
        = some (⟨1, [[0, 1], [1, 0], [-1, -1]], 0⟩, some rep) ∧
      rep.board = ⟨1, [[0, 1], [1, 0], [-1, -1]], 0⟩ ∧
      GameInfo_is_solved rep.board = some false ∧
      GameInfo_find_solution 3 ⟨1, [[0, 1], [1, 0], [-1, -1]], 0⟩ (some ActionLog_create)
        = some (true, ⟨1, [[0, 0], [-1, -1], [1, 1]], 0⟩, some rep.log) :=
  ⟨⟨⟨1, [[0, 1], [1, 0], [-1, -1]], 0⟩,
      ⟨⟨0, 2, ⟨1, 1⟩⟩ :: ⟨1, 0, ⟨0, 1⟩⟩ :: ⟨1, 2, ⟨1, 1⟩⟩ :: List.replicate 61 blank_action, 3⟩⟩,
    by decide, rfl, by decide, by decide⟩

/-! ## Generation is deterministic -/

theorem ColorPool_pick_color_append (pool : ColorPool) (extra : List Nat) :
    ∀ (draws rest : List Nat) (color : Nat) (pool1 : ColorPool),
      ColorPool_pick_color pool draws = some (color, pool1, rest) →
      ColorPool_pick_color pool (draws ++ extra) = some (color, pool1, rest ++ extra) := by
  intro draws
  induction draws with
  | nil => intro rest color pool1 h; simp [ColorPool_pick_color] at h
  | cons r ds ih =>
    intro rest color pool1 h
    rw [List.cons_append]
    simp only [ColorPool_pick_color] at h ⊢
    split_ifs at h ⊢ with h0
    cases hd : pool.data[r % pool.num_colors]? with
    | none => rw [hd] at h; simp at h
    | some d =>
      rw [hd] at h
      cases d with
      | zero =>
        simp only at h ⊢
        exact ih rest color pool1 h
      | succ d =>
        simp only [Option.some.injEq, Prod.mk.injEq] at h ⊢
        obtain ⟨h1, h2, h3⟩ := h
        exact ⟨h1, h2, by rw [h3]⟩

theorem pick_tube_loop_append (num_colors : Nat) (color : Int) (extra : List Nat) :
    ∀ (draws rest : List Nat) (info info1 : GameInfo),
      pick_tube_loop num_colors color info draws = some (info1, rest) →
      pick_tube_loop num_colors color info (draws ++ extra) = some (info1, rest ++ extra) := by
  intro draws
  induction draws with
  | nil => intro rest info info1 h; simp [pick_tube_loop] at h
  | cons r ds ih =>
    intro rest info info1 h
    rw [List.cons_append]
    simp only [pick_tube_loop] at h ⊢
    split_ifs at h ⊢ with h0
    cases ht : info.tubes[r % num_colors]? with
    | none => rw [ht] at h; simp at h
    | some tube =>
      rw [ht] at h
      simp only at h ⊢
      split_ifs at h ⊢ with h1
      · exact ih rest _ info1 h
      · simp only [Option.some.injEq, Prod.mk.injEq] at h ⊢
        exact ⟨h.1, by rw [h.2]⟩

theorem GameInfo_create_from_seed_loop_append (num_colors : Nat) (extra : List Nat) :
    ∀ (fuel : Nat) (info : GameInfo) (pool : ColorPool) (draws rest : List Nat)
      (info1 : GameInfo),
      GameInfo_create_from_seed_loop num_colors fuel info pool draws = some (info1, rest) →
      ∀ fuel2, fuel ≤ fuel2 →
        GameInfo_create_from_seed_loop num_colors fuel2 info pool (draws ++ extra)
          = some (info1, rest ++ extra) := by
  intro fuel
  induction fuel with
  | zero =>
    intro info pool draws rest info1 h
    simp [GameInfo_create_from_seed_loop] at h
  | succ fuel ih =>
    intro info pool draws rest info1 h fuel2 hle
    obtain ⟨f2, rfl⟩ : ∃ f2, fuel2 = f2 + 1 := ⟨fuel2 - 1, by omega⟩
    simp only [GameInfo_create_from_seed_loop] at h ⊢
    split_ifs at h ⊢ with he
    · simp only [Option.some.injEq, Prod.mk.injEq] at h ⊢
      exact ⟨h.1, by rw [h.2]⟩
    · cases hpick : ColorPool_pick_color pool draws with
      | none => rw [hpick] at h; simp at h
      | some q =>
        obtain ⟨color, pool1, draws1⟩ := q
        rw [hpick] at h
        rw [ColorPool_pick_color_append pool extra draws draws1 color pool1 hpick]
        simp only at h ⊢
        cases hput : pick_tube_loop num_colors (color : Int) info draws1 with
        | none => rw [hput] at h; simp at h
        | some q2 =>
          obtain ⟨i1, draws2⟩ := q2
          rw [hput] at h
          rw [pick_tube_loop_append num_colors _ extra draws1 draws2 info i1 hput]
          simp only at h ⊢
          exact ih i1 pool1 draws2 rest info1 h f2 (by omega)

/-- A run of `GameInfo_create_from_seed` that ends with the values of `rand()`
it was given returns the same board when it is given further values. -/
theorem GameInfo_create_from_seed_append (nc ne ns seed : Nat) (draws extra : List Nat)
    (info : GameInfo) (h : GameInfo_create_from_seed nc ne ns seed draws = some info) :
    GameInfo_create_from_seed nc ne ns seed (draws ++ extra) = some info := by
  unfold GameInfo_create_from_seed at h ⊢
  simp only [Option.map_eq_some'] at h ⊢
  obtain ⟨r, hr, rfl⟩ := h
  obtain ⟨i1, rest⟩ := r
  exact ⟨(i1, rest ++ extra),
    GameInfo_create_from_seed_loop_append nc extra _ _ _ draws rest i1 hr _
      (by simp only [List.length_append]; omega), rfl⟩

/-! ## Boards that are already solved -/

/-- The source loop over tubes that are all pure tries no source: it returns
`false` with the board and the log it was given. -/
theorem GameInfo_solver_loop_src_from_all_pure
    (again : GameInfo → ActionLog → Option (Bool × GameInfo × ActionLog))
    (info : GameInfo) (log : ActionLog) :
    ∀ (n i_src : Nat),
      (∀ j, i_src ≤ j → j < i_src + n →
        ∃ t, info.tubes[j]? = some t ∧ Tube_is_pure t = some true) →
      GameInfo_solver_loop_src_from again n i_src info log = some (false, info, log) := by
  intro n
  induction n with
  | zero => intro i_src _; rfl
  | succ n ih =>
    intro i_src h
    obtain ⟨t, ht, hpure⟩ := h i_src (le_refl _) (by omega)
    rw [GameInfo_solver_loop_src_from, ht]
    simp only
    rw [hpure]
    simp only
    exact ih (i_src + 1) (fun j h1 h2 => h j (by omega) (by omega))

theorem GameInfo_solver_loop_src_all_pure (fuel : Nat) (info : GameInfo) (log : ActionLog)
    (hne : ∀ t ∈ info.tubes, t ≠ []) (hpure : ∀ t ∈ info.tubes, pure_tube t) :
    GameInfo_solver_loop_src (fuel + 1) info log = some (false, info, log) := by
  rw [GameInfo_solver_loop_src]
  apply GameInfo_solver_loop_src_from_all_pure
  intro j _ hj
  obtain ⟨t, ht, htm⟩ := getElem?_of_lt_tubes info j (by omega)
  refine ⟨t, ht, ?_⟩
  rw [Tube_is_pure_of_ne_nil t (hne t htm), decide_eq_true (hpure t htm)]

/-- C31. On a board in which every tube is pure (all its slots hold the same
value, so also on a board of empty tubes) and has at least one slot,
`GameInfo_is_solved` returns true, and yet the search returns `false` for
every recursion bound: `GameInfo_solver_loop_src` skips every source, makes no
pour and hands back the board and the log exactly as they were, and
`GameInfo_find_solution` returns `false` with the board and the caller's log
unchanged, whether the caller passes a log or `NULL`. -/
theorem GameInfo_find_solution_already_solved (fuel : Nat) (info : GameInfo) (log : ActionLog)
    (hne : ∀ t ∈ info.tubes, t ≠ [])
    (hpure : ∀ t ∈ info.tubes, ∀ x ∈ t, ∀ y ∈ t, x = y) :
    GameInfo_is_solved info = some true ∧
    GameInfo_solver_loop_src (fuel + 1) info log = some (false, info, log) ∧
    GameInfo_find_solution (fuel + 1) info (some log) = some (false, info, some log) ∧
    GameInfo_find_solution (fuel + 1) info none = some (false, info, none) ∧
    ((∀ t ∈ info.tubes, all_empty t) → ∀ t ∈ info.tubes, ∀ x ∈ t, ∀ y ∈ t, x = y) := by
  have hsearch := GameInfo_solver_loop_src_all_pure fuel info ActionLog_create hne hpure
  refine ⟨?_, GameInfo_solver_loop_src_all_pure fuel info log hne hpure, ?_, ?_, ?_⟩
  · unfold GameInfo_is_solved
    rw [GameInfo_is_solved_loop_spec info.tubes hne]
    exact congrArg some (decide_eq_true hpure)
  · unfold GameInfo_find_solution
    simp only
    rw [hsearch]
    simp
  · unfold GameInfo_find_solution
    simp only
    rw [hsearch]
    simp
  · intro he t ht
    exact all_empty_pure t (he t ht)

theorem GameInfo_find_solution_already_solved_witness :
    (∀ t ∈ (⟨1, [[2, 2], [-1, -1], [-1, -1]], 0⟩ : GameInfo).tubes, t ≠ []) ∧
    (∀ t ∈ (⟨1, [[2, 2], [-1, -1], [-1, -1]], 0⟩ : GameInfo).tubes,
      ∀ x ∈ t, ∀ y ∈ t, x = y) ∧
    (GameInfo_is_solved ⟨1, [[2, 2], [-1, -1], [-1, -1]], 0⟩ = some true ∧
    GameInfo_solver_loop_src (4 + 1) ⟨1, [[2, 2], [-1, -1], [-1, -1]], 0⟩ ActionLog_create
      = some (false, ⟨1, [[2, 2], [-1, -1], [-1, -1]], 0⟩, ActionLog_create) ∧
    GameInfo_find_solution (4 + 1) ⟨1, [[2, 2], [-1, -1], [-1, -1]], 0⟩ (some ActionLog_create)
      = some (false, ⟨1, [[2, 2], [-1, -1], [-1, -1]], 0⟩, some ActionLog_create) ∧
    GameInfo_find_solution (4 + 1) ⟨1, [[2, 2], [-1, -1], [-1, -1]], 0⟩ none
      = some (false, ⟨1, [[2, 2], [-1, -1], [-1, -1]], 0⟩, none) ∧
    ((∀ t ∈ (⟨1, [[2, 2], [-1, -1], [-1, -1]], 0⟩ : GameInfo).tubes, all_empty t) →
      ∀ t ∈ (⟨1, [[2, 2], [-1, -1], [-1, -1]], 0⟩ : GameInfo).tubes,
        ∀ x ∈ t, ∀ y ∈ t, x = y)) :=
  ⟨by decide, by decide,
    GameInfo_find_solution_already_solved 4 ⟨1, [[2, 2], [-1, -1], [-1, -1]], 0⟩
      ActionLog_create (by decide) (by decide)⟩

/-! ## Conservation of colours -/

theorem count_shape_pour (b a : Tube) (r ms md : Nat) (c x : Int) (hfit : r + 1 ≤ md) :
    (b ++ List.replicate (r + 1 + ms) EMPTY_COLOR_INDEX).count x
        + (a ++ List.replicate (r + 1) c
            ++ List.replicate (md - (r + 1)) EMPTY_COLOR_INDEX).count x
      = (b ++ List.replicate (r + 1) c ++ List.replicate ms EMPTY_COLOR_INDEX).count x
        + (a ++ List.replicate md EMPTY_COLOR_INDEX).count x := by
  simp only [List.count_append, List.count_replicate]
  split_ifs <;> omega

/-- C34. For two packed tubes and a successful `Tube_pour` from one to the
other: for every value (every colour, and the empty value) the number of slots
that hold it, summed over the two tubes, is the same after the pour as before,
and so is the total number of empty slots; `Tube_revert` with the chunk the
pour returned, on the tubes the pour left behind, returns and keeps these
numbers as well. -/
theorem Tube_pour_conserves_colours (src dst : Tube) (hs : packed src) (hd : packed dst)
    (res : PourResult) (chunk : ColorChunk) (h : Tube_pour src dst = some res)
    (hok : res.ret = TUBE_SUCCESS) (hchunk : res.chunk = some chunk) :
    (∀ x : Int, res.src.count x + res.dst.count x = src.count x + dst.count x) ∧
    empty_slots res.src + empty_slots res.dst = empty_slots src + empty_slots dst ∧
    ∃ s1 d1, Tube_revert res.src res.dst chunk = some (s1, d1) ∧
      (∀ x : Int, s1.count x + d1.count x = res.src.count x + res.dst.count x) ∧
      empty_slots s1 + empty_slots d1 = empty_slots res.src + empty_slots res.dst := by
  obtain ⟨b, r, ms, c, a, md, rfl, rfl, hb, hc, _, ha, hfit, _, rfl⟩ :=
    Tube_pour_success_shape src dst hs hd res h hok
  simp only [Option.some.injEq] at hchunk
  have hcount := fun x => count_shape_pour b a r ms md c x hfit
  refine ⟨hcount, hcount EMPTY_COLOR_INDEX, _, _, ?_, fun x => (hcount x).symm,
    (hcount EMPTY_COLOR_INDEX).symm⟩
  rw [← hchunk]
  exact Tube_revert_shape b r ms c a md hb hc ha hfit

theorem Tube_pour_conserves_colours_witness :
    packed [0, 1, 1] ∧ packed [1, -1, -1] ∧
    Tube_pour [0, 1, 1] [1, -1, -1]
      = some ⟨TUBE_SUCCESS, [0, -1, -1], [1, 1, 1], some ⟨1, 2⟩⟩ ∧
    ((∀ x : Int, ([0, -1, -1] : Tube).count x + ([1, 1, 1] : Tube).count x
        = ([0, 1, 1] : Tube).count x + ([1, -1, -1] : Tube).count x) ∧
    empty_slots [0, -1, -1] + empty_slots [1, 1, 1]
      = empty_slots [0, 1, 1] + empty_slots [1, -1, -1] ∧
    ∃ s1 d1, Tube_revert [0, -1, -1] [1, 1, 1] ⟨1, 2⟩ = some (s1, d1) ∧
      (∀ x : Int, s1.count x + d1.count x
        = ([0, -1, -1] : Tube).count x + ([1, 1, 1] : Tube).count x) ∧
      empty_slots s1 + empty_slots d1 = empty_slots [0, -1, -1] + empty_slots [1, 1, 1]) :=
  ⟨by decide, by decide, by decide,
    Tube_pour_conserves_colours [0, 1, 1] [1, -1, -1] (by decide) (by decide)
      ⟨TUBE_SUCCESS, [0, -1, -1], [1, 1, 1], some ⟨1, 2⟩⟩ ⟨1, 2⟩ (by decide) (by decide)
      (by decide)⟩

/-! ## The first loop of the validation has no bound -/

theorem count_empty_cells_replicate :
    ∀ (n k : Nat), count_empty_cells (List.replicate n EMPTY_COLOR_INDEX) k = none := by
  intro n
  induction n with
  | zero => intro k; rfl
  | succ n ih =>
    intro k
    rw [List.replicate_succ, count_empty_cells, if_pos rfl]
    exact ih (k + 1)

theorem count_empty_cells_defined :
    ∀ (l : List Int) (k : Nat), (∃ v ∈ l, v ≠ EMPTY_COLOR_INDEX) →
      ∃ idx, count_empty_cells l k = some idx := by
  intro l
  induction l with
  | nil => rintro k ⟨v, hv, _⟩; simp at hv
  | cons c rest ih =>
    rintro k ⟨v, hv, hne⟩
    rw [count_empty_cells]
    by_cases hc : c = EMPTY_COLOR_INDEX
    · rw [if_pos hc]
      rcases List.mem_cons.1 hv with e | e
      · rw [e] at hne; exact absurd hc hne
      · exact ih (k + 1) ⟨v, e, hne⟩
    · rw [if_neg hc]
      exact ⟨k, rfl⟩

/-- On a slot list of only empty values `Input_sanity_check` reads past the
sorted copy. -/
theorem Input_sanity_check_all_empty (input : Input)
    (hlen : input.data.length = input.num_slots * input.num_tubes)
    (hall : ∀ v ∈ input.data, v = EMPTY_COLOR_INDEX) :
    Input_sanity_check input = none := by
  have hsorted : qsort_int input.data
      = List.replicate (qsort_int input.data).length EMPTY_COLOR_INDEX := by
    rw [List.eq_replicate_iff]
    exact ⟨rfl, fun v hv => hall v ((qsort_int_perm input.data).mem_iff.1 hv)⟩
  unfold Input_sanity_check
  simp only
  rw [if_neg (by omega), ← hlen, List.take_length, hsorted, count_empty_cells_replicate]

/-- On a slot list that holds a non-empty value `Input_sanity_check` stays
inside the sorted copy and returns `TUBE_SUCCESS` or `TUBE_FAILURE`. -/
theorem Input_sanity_check_defined (input : Input) (hns : 1 ≤ input.num_slots)
    (hlen : input.data.length = input.num_slots * input.num_tubes)
    (hcol : ∃ v ∈ input.data, v ≠ EMPTY_COLOR_INDEX) :
    ∃ ret input1, Input_sanity_check input = some (ret, input1) ∧
      (ret = TUBE_SUCCESS ∨ ret = TUBE_FAILURE) := by
  obtain ⟨v, hv, hne⟩ := hcol
  obtain ⟨idx, hidx⟩ := count_empty_cells_defined (qsort_int input.data) 0
    ⟨v, (qsort_int_perm input.data).mem_iff.2 hv, hne⟩
  unfold Input_sanity_check
  simp only
  rw [if_neg (by omega), ← hlen, List.take_length, hidx]
  simp only
  split_ifs
  · exact ⟨_, _, rfl, Or.inr rfl⟩
  · omega
  · exact ⟨_, _, rfl, Or.inr rfl⟩
  · exact ⟨_, _, rfl, Or.inl rfl⟩
  · exact ⟨_, _, rfl, Or.inr rfl⟩

/-- C32 fails on lists of only empty values.  For the input with
`num_slots = 2`, `num_tubes = 1` and the slot list `[-1, -1]` (a file with the
single row `-1 -1`) the loop `for (; cpy[idx] == EMPTY_COLOR_INDEX; ++idx);`
finds the empty value in both cells of the sorted copy and goes on to read
`cpy[2]`, outside the copy; the same happens on every slot list of only empty
values.  On a slot list that holds a non-empty value the function stays
inside the copy and returns `TUBE_SUCCESS` or `TUBE_FAILURE`. -/
theorem Input_sanity_check_reads_past_all_empty :
    qsort_int [-1, -1] = [-1, -1] ∧
    count_empty_cells (qsort_int [-1, -1]) 0 = none ∧
    Input_sanity_check ⟨1, 0, 2, [-1, -1]⟩ = none ∧
    (∀ input : Input, input.data.length = input.num_slots * input.num_tubes →
      (∀ v ∈ input.data, v = EMPTY_COLOR_INDEX) → Input_sanity_check input = none) ∧
    (∀ input : Input, 1 ≤ input.num_slots →
      input.data.length = input.num_slots * input.num_tubes →
      (∃ v ∈ input.data, v ≠ EMPTY_COLOR_INDEX) →
      ∃ ret input1, Input_sanity_check input = some (ret, input1) ∧
        (ret = TUBE_SUCCESS ∨ ret = TUBE_FAILURE)) :=
  ⟨by decide, by decide, by decide, Input_sanity_check_all_empty,
    Input_sanity_check_defined⟩

/-! ## The loop of the generation, iteration by iteration -/

theorem GameInfo_create_from_seed_iterations_invariant (nc ne ns : Nat) :
    ∀ (k : Nat) (info0 : GameInfo) (pool0 : ColorPool) (draws rest : List Nat)
      (info : GameInfo) (pool : ColorPool), generation_invariant nc ne ns info0 pool0 →
      GameInfo_create_from_seed_iterations nc k info0 pool0 draws = some (info, pool, rest) →
      generation_invariant nc ne ns info pool := by
  intro k
  induction k with
  | zero =>
    intro info0 pool0 draws rest info pool hinv h
    simp only [GameInfo_create_from_seed_iterations, Option.some.injEq, Prod.mk.injEq] at h
    obtain ⟨rfl, rfl, _⟩ := h
    exact hinv
  | succ k ih =>
    intro info0 pool0 draws rest info pool hinv h
    simp only [GameInfo_create_from_seed_iterations] at h
    split_ifs at h with he
    cases hpick : ColorPool_pick_color pool0 draws with
    | none => rw [hpick] at h; simp at h
    | some p =>
      obtain ⟨color, pool1, d1⟩ := p
      rw [hpick] at h
      simp only at h
      cases htube : pick_tube_loop nc (color : Int) info0 d1 with
      | none => rw [htube] at h; simp at h
      | some q =>
        obtain ⟨i1, d2⟩ := q
        rw [htube] at h
        simp only at h
        obtain ⟨hcol, hnum, d, hd, hd1⟩ :=
          ColorPool_pick_color_some pool0 draws d1 color pool1 hpick
        obtain ⟨i, t, t1, hi, ht, hadd, rfl⟩ :=
          pick_tube_loop_some nc (color : Int) d1 d2 info0 i1 htube
        have hstep := generation_invariant_step nc ne ns info0 pool0 pool1 color i d t t1 hinv
          (by rw [← hinv.2.2.2.1]; exact hcol) hnum hd hd1 hi ht hadd
        exact ih _ _ _ _ _ _ hstep h

/-- The loop of `GameInfo_create_from_seed` ends in a state that its
iterations reach. -/
theorem GameInfo_create_from_seed_loop_iterations (nc : Nat) :
    ∀ (fuel : Nat) (info : GameInfo) (pool : ColorPool) (draws rest : List Nat)
      (info1 : GameInfo),
      GameInfo_create_from_seed_loop nc fuel info pool draws = some (info1, rest) →
      ∃ k pool1, GameInfo_create_from_seed_iterations nc k info pool draws
          = some (info1, pool1, rest) ∧ ColorPool_is_empty pool1 = true := by
  intro fuel
  induction fuel with
  | zero => intro info pool draws rest info1 h; simp [GameInfo_create_from_seed_loop] at h
  | succ fuel ih =>
    intro info pool draws rest info1 h
    simp only [GameInfo_create_from_seed_loop] at h
    split_ifs at h with he
    · simp only [Option.some.injEq, Prod.mk.injEq] at h
      obtain ⟨rfl, rfl⟩ := h
      exact ⟨0, pool, rfl, he⟩
    · cases hpick : ColorPool_pick_color pool draws with
      | none => rw [hpick] at h; simp at h
      | some p =>
        obtain ⟨color, pool1, d1⟩ := p
        rw [hpick] at h
        simp only at h
        cases htube : pick_tube_loop nc (color : Int) info d1 with
        | none => rw [htube] at h; simp at h
        | some q =>
          obtain ⟨i1, d2⟩ := q
          rw [htube] at h
          simp only at h
          obtain ⟨k, p1, hk, hp1⟩ := ih _ _ _ _ _ h
          refine ⟨k + 1, p1, ?_, hp1⟩
          simp only [GameInfo_create_from_seed_iterations]
          rw [if_neg he, hpick]
          simp only
          rw [htube]
          exact hk

theorem sum_set_succ (l : List Nat) (i d : Nat) (h : l[i]? = some (d + 1)) :
    (l.set i d).sum + 1 = l.sum := by
  have := sum_map_set (fun x : Nat => x) l i (d + 1) d h
  simp only [List.map_id'] at this
  omega

theorem exists_tube_with_empty (tubes : List Tube) (nc : Nat)
    (h : 0 < board_count EMPTY_COLOR_INDEX (tubes.take nc)) :
    ∃ i t, i < nc ∧ tubes[i]? = some t ∧ EMPTY_COLOR_INDEX ∈ t := by
  by_contra hno
  have hzero : ∀ u ∈ tubes.take nc, (fun t : Tube => t.count EMPTY_COLOR_INDEX) u = 0 := by
    intro u hu
    obtain ⟨i, hi⟩ := List.mem_iff_getElem?.1 hu
    have hlt : i < nc := by
      rcases Nat.lt_or_ge i nc with hl | hg
      · exact hl
      · rw [List.getElem?_eq_none (by rw [List.length_take]; omega)] at hi
        simp at hi
    rw [getElem?_take_lt tubes i nc hlt] at hi
    simp only
    rw [List.count_eq_zero]
    intro hmem
    exact hno ⟨i, u, hlt, hi, hmem⟩
  have : board_count EMPTY_COLOR_INDEX (tubes.take nc) = 0 := by
    unfold board_count
    apply sum_eq_zero_of_all_zero
    intro d hd
    obtain ⟨u, hu, rfl⟩ := List.mem_map.1 hd
    exact hzero u hu
  omega

/-- A draw that names a tube with a free slot ends the tube-picking loop at
once. -/
theorem pick_tube_loop_free_slot (nc : Nat) (color : Int) (info : GameInfo) (i : Nat)
    (t : Tube) (tail : List Nat) (hi : i < nc) (ht : info.tubes[i]? = some t)
    (hE : EMPTY_COLOR_INDEX ∈ t) :
    ∃ info1, pick_tube_loop nc color info (i :: tail) = some (info1, tail) := by
  obtain ⟨j, _, _, _, hloop⟩ := Tube_add_color_loop_first color t hE
  have hfull : Tube_is_full t = false := by
    rw [Bool.eq_false_iff]
    intro hf
    exact (Tube_is_full_iff t).1 hf hE
  have hadd : Tube_add_color t color = (TUBE_SUCCESS, t.set j color) := by
    unfold Tube_add_color
    rw [hfull, hloop]
    simp
  rw [pick_tube_loop, if_neg (by omega), Nat.mod_eq_of_lt hi]
  simp only [ht, hadd]
  simp

/-- C33. At the head of the loop of `GameInfo_create_from_seed`, after any
number of iterations, the units left in the colour pool are as many as the
empty slots of the colour tubes (the tubes with index below `num_colors`), and
every auxiliary tube (index from `num_colors` on) is still empty.  Hence, when
`ColorPool_pick_color` has just drawn a colour, the pool has one unit less
than the colour tubes have empty slots, some colour tube has a free slot, and
a value of `rand()` that names it ends the tube-picking loop at once; and the
tube-picking loop, when it ends, has left every tube with index from
`num_colors` on as it was.  The loop of `GameInfo_create_from_seed` itself
ends in a state these iterations reach. -/
theorem GameInfo_create_from_seed_pool_balance (num_colors num_extra num_slots seed k : Nat)
    (draws rest : List Nat) (info : GameInfo) (pool : ColorPool)
    (h : GameInfo_create_from_seed_iterations num_colors k
        { GameInfo_create num_colors num_extra num_slots with seed := seed }
        (ColorPool_create_full num_colors num_slots) draws = some (info, pool, rest)) :
    pool.data.sum = board_count EMPTY_COLOR_INDEX (info.tubes.take num_colors) ∧
    (∀ i, num_colors ≤ i → i < num_colors + num_extra →
      info.tubes[i]? = some (List.replicate num_slots EMPTY_COLOR_INDEX)) ∧
    (∀ (color : Nat) (pool1 : ColorPool) (draws1 : List Nat),
      ColorPool_pick_color pool rest = some (color, pool1, draws1) →
      pool1.data.sum + 1 = board_count EMPTY_COLOR_INDEX (info.tubes.take num_colors) ∧
      (∃ i t, i < num_colors ∧ info.tubes[i]? = some t ∧ EMPTY_COLOR_INDEX ∈ t ∧
        ∀ tail, ∃ info1,
          pick_tube_loop num_colors (color : Int) info (i :: tail) = some (info1, tail)) ∧
      (∀ info1 draws2,
        pick_tube_loop num_colors (color : Int) info draws1 = some (info1, draws2) →
        ∀ j, num_colors ≤ j → info1.tubes[j]? = info.tubes[j]?)) ∧
    (∀ (all_draws : List Nat) (final : GameInfo),
      GameInfo_create_from_seed num_colors num_extra num_slots seed all_draws = some final →
      ∃ n pool_end rest_end,
        GameInfo_create_from_seed_iterations num_colors n
          { GameInfo_create num_colors num_extra num_slots with seed := seed }
          (ColorPool_create_full num_colors num_slots) all_draws
          = some (final, pool_end, rest_end) ∧
        ColorPool_is_empty pool_end = true) := by
  have hinv := GameInfo_create_from_seed_iterations_invariant num_colors num_extra num_slots k
    _ _ draws rest info pool
    (generation_invariant_init num_colors num_extra num_slots seed) h
  obtain ⟨_, _, haux, _, _, _, hsum⟩ := hinv
  refine ⟨hsum, haux, ?_, ?_⟩
  · intro color pool1 draws1 hpick
    obtain ⟨_, _, d, hd, hd1⟩ := ColorPool_pick_color_some pool rest draws1 color pool1 hpick
    have hs1 : pool1.data.sum + 1 = pool.data.sum := by
      rw [hd1]; exact sum_set_succ pool.data color d hd
    refine ⟨by omega, ?_, ?_⟩
    · obtain ⟨i, t, hi, ht, hE⟩ := exists_tube_with_empty info.tubes num_colors (by omega)
      exact ⟨i, t, hi, ht, hE,
        fun tail => pick_tube_loop_free_slot num_colors _ info i t tail hi ht hE⟩
    · intro info1 draws2 htube j hj
      obtain ⟨i, t, t1, hi, _, _, rfl⟩ :=
        pick_tube_loop_some num_colors (color : Int) draws1 draws2 info info1 htube
      simp only
      rw [List.getElem?_set_ne (by omega)]
  · intro all_draws final hfin
    unfold GameInfo_create_from_seed at hfin
    simp only [Option.map_eq_some'] at hfin
    obtain ⟨r, hr, rfl⟩ := hfin
    obtain ⟨i1, rest1⟩ := r
    obtain ⟨n, p1, hn, hp1⟩ :=
      GameInfo_create_from_seed_loop_iterations num_colors _ _ _ all_draws rest1 i1 hr
    exact ⟨n, p1, rest1, hn, hp1⟩

theorem GameInfo_create_from_seed_pool_balance_witness :
    GameInfo_create_from_seed_iterations 2 2 { GameInfo_create 2 1 2 with seed := 7 }
        (ColorPool_create_full 2 2) [0, 1, 1, 0, 3, 2]
      = some (⟨1, [[1, -1], [0, -1], [-1, -1]], 7⟩, ⟨2, [1, 1], 2⟩, [3, 2]) ∧
    ((⟨2, [1, 1], 2⟩ : ColorPool).data.sum
      = board_count EMPTY_COLOR_INDEX
          ((⟨1, [[1, -1], [0, -1], [-1, -1]], 7⟩ : GameInfo).tubes.take 2) ∧
    (∀ i, 2 ≤ i → i < 2 + 1 →
      (⟨1, [[1, -1], [0, -1], [-1, -1]], 7⟩ : GameInfo).tubes[i]?
        = some (List.replicate 2 EMPTY_COLOR_INDEX)) ∧
    (∀ (color : Nat) (pool1 : ColorPool) (draws1 : List Nat),
      ColorPool_pick_color ⟨2, [1, 1], 2⟩ [3, 2] = some (color, pool1, draws1) →
      pool1.data.sum + 1
        = board_count EMPTY_COLOR_INDEX
            ((⟨1, [[1, -1], [0, -1], [-1, -1]], 7⟩ : GameInfo).tubes.take 2) ∧
      (∃ i t, i < 2 ∧ (⟨1, [[1, -1], [0, -1], [-1, -1]], 7⟩ : GameInfo).tubes[i]? = some t ∧
        EMPTY_COLOR_INDEX ∈ t ∧
        ∀ tail, ∃ info1,
          pick_tube_loop 2 (color : Int) ⟨1, [[1, -1], [0, -1], [-1, -1]], 7⟩ (i :: tail)
            = some (info1, tail)) ∧
      (∀ info1 draws2,
        pick_tube_loop 2 (color : Int) ⟨1, [[1, -1], [0, -1], [-1, -1]], 7⟩ draws1
          = some (info1, draws2) →
        ∀ j, 2 ≤ j →
          info1.tubes[j]? = (⟨1, [[1, -1], [0, -1], [-1, -1]], 7⟩ : GameInfo).tubes[j]?)) ∧
    (∀ (all_draws : List Nat) (final : GameInfo),
      GameInfo_create_from_seed 2 1 2 7 all_draws = some final →
      ∃ n pool_end rest_end,
        GameInfo_create_from_seed_iterations 2 n { GameInfo_create 2 1 2 with seed := 7 }
          (ColorPool_create_full 2 2) all_draws = some (final, pool_end, rest_end) ∧
        ColorPool_is_empty pool_end = true)) :=
  ⟨by decide,
    GameInfo_create_from_seed_pool_balance 2 1 2 7 2 [0, 1, 1, 0, 3, 2] [3, 2]
      ⟨1, [[1, -1], [0, -1], [-1, -1]], 7⟩ ⟨2, [1, 1], 2⟩ (by decide)⟩

/-! ## Generation does not depend on the state of the generator at the call -/

theorem rand_draws_length (libc : Nat → Nat → Nat) :
    ∀ (n : Nat) (st : RandState), (rand_draws libc n st).length = n := by
  intro n
  induction n with
  | zero => intro st; rfl
  | succ n ih => intro st; simp [rand_draws, ih]

theorem rand_draws_add (libc : Nat → Nat → Nat) (k : Nat) :
    ∀ (n : Nat) (st : RandState),
      rand_draws libc (n + k) st
        = rand_draws libc n st ++ rand_draws libc k { st with taken := st.taken + n } := by
  intro n
  induction n with
  | zero => intro st; simp [rand_draws]
  | succ n ih =>
    intro st
    rw [show n + 1 + k = (n + k) + 1 by omega, rand_draws, rand_draws, ih, List.cons_append]
    congr 2
    simp only [rand]
    congr 2
    omega

/-- Two runs of the loop of `GameInfo_create_from_seed` from the same state of
the generator, with different bounds on the number of calls of `rand()`, that
both end: same board, same number of values taken. -/
theorem GameInfo_create_from_seed_loop_rand (libc : Nat → Nat → Nat) (nc : Nat)
    (info : GameInfo) (pool : ColorPool) (st : RandState) (n m : Nat) (hnm : n ≤ m)
    (b1 b2 : GameInfo) (rest1 rest2 : List Nat)
    (h1 : GameInfo_create_from_seed_loop nc (n + 1) info pool (rand_draws libc n st)
      = some (b1, rest1))
    (h2 : GameInfo_create_from_seed_loop nc (m + 1) info pool (rand_draws libc m st)
      = some (b2, rest2)) :
    b1 = b2 ∧ n - rest1.length = m - rest2.length := by
  obtain ⟨k, rfl⟩ : ∃ k, m = n + k := ⟨m - n, by omega⟩
  have happ := GameInfo_create_from_seed_loop_append nc
    (rand_draws libc k { st with taken := st.taken + n }) (n + 1) info pool
    (rand_draws libc n st) rest1 b1 h1 (n + k + 1) (by omega)
  rw [← rand_draws_add libc k n st, h2] at happ
  simp only [Option.some.injEq, Prod.mk.injEq] at happ
  obtain ⟨hb, hrest⟩ := happ
  refine ⟨hb.symm, ?_⟩
  rw [hrest, List.length_append, rand_draws_length]
  omega

/-- C22. `GameInfo_create_from_seed` is called twice with the same
`num_colors`, `num_extra`, `num_slots` and `seed`, in whatever two states of
the generator of the C library (`st1`, `st2`: the calls of `srand` and `rand`
made before differ), and with whatever bounds on the number of calls of
`rand()`.  If both calls end, they return the same board, with the same
number of tubes and the same slot contents, and leave the generator in the
same state: `srand(info->seed)` restarts the sequence from the seed, and the
loop reads nothing else that could differ. -/
theorem GameInfo_create_from_seed_srand_deterministic (libc : Nat → Nat → Nat) (n m : Nat)
    (st1 st2 : RandState) (num_colors num_extra num_slots : Nat) (seed : Int)
    (b1 b2 : GameInfo) (s1 s2 : RandState)
    (h1 : GameInfo_create_from_seed_srand libc n st1 num_colors num_extra num_slots seed
      = some (b1, s1))
    (h2 : GameInfo_create_from_seed_srand libc m st2 num_colors num_extra num_slots seed
      = some (b2, s2)) :
    b1 = b2 ∧ b1.num_tubes = b2.num_tubes ∧
    (∀ i j : Nat, (b1.tubes.getD i []).getD j EMPTY_COLOR_INDEX
      = (b2.tubes.getD i []).getD j EMPTY_COLOR_INDEX) ∧
    s1 = s2 := by
  unfold GameInfo_create_from_seed_srand at h1 h2
  simp only at h1 h2
  have hst : srand (seed % 4294967296).toNat st2 = srand (seed % 4294967296).toNat st1 := rfl
  rw [hst] at h2
  cases hl1 : GameInfo_create_from_seed_loop num_colors (n + 1)
      { GameInfo_create num_colors num_extra num_slots with seed := (seed % 4294967296).toNat }
      (ColorPool_create_full num_colors num_slots)
      (rand_draws libc n (srand (seed % 4294967296).toNat st1)) with
  | none => rw [hl1] at h1; simp at h1
  | some r1 =>
    obtain ⟨i1, rest1⟩ := r1
    rw [hl1] at h1
    simp only [Option.some.injEq, Prod.mk.injEq] at h1
    obtain ⟨rfl, rfl⟩ := h1
    cases hl2 : GameInfo_create_from_seed_loop num_colors (m + 1)
        { GameInfo_create num_colors num_extra num_slots with
          seed := (seed % 4294967296).toNat }
        (ColorPool_create_full num_colors num_slots)
        (rand_draws libc m (srand (seed % 4294967296).toNat st1)) with
    | none => rw [hl2] at h2; simp at h2
    | some r2 =>
      obtain ⟨i2, rest2⟩ := r2
      rw [hl2] at h2
      simp only [Option.some.injEq, Prod.mk.injEq] at h2
      obtain ⟨rfl, rfl⟩ := h2
      have hboth : i1 = i2 ∧ n - rest1.length = m - rest2.length := by
        rcases Nat.le_total n m with hle | hle
        · exact GameInfo_create_from_seed_loop_rand libc num_colors _ _ _ n m hle i1 i2
            rest1 rest2 hl1 hl2
        · have := GameInfo_create_from_seed_loop_rand libc num_colors _ _ _ m n hle i2 i1
            rest2 rest1 hl2 hl1
          exact ⟨this.1.symm, this.2.symm⟩
      obtain ⟨rfl, htaken⟩ := hboth
      refine ⟨rfl, rfl, fun _ _ => rfl, ?_⟩
      rw [htaken]

theorem GameInfo_create_from_seed_srand_deterministic_witness :
    GameInfo_create_from_seed_srand (fun s i => s + i * i + i / 3) 11 ⟨1, 0⟩ 2 1 2 7
      = some (⟨1, [[1, 0], [1, 0], [-1, -1]], 7⟩, ⟨7, 11⟩) ∧
    GameInfo_create_from_seed_srand (fun s i => s + i * i + i / 3) 14 ⟨99, 5⟩ 2 1 2 7
      = some (⟨1, [[1, 0], [1, 0], [-1, -1]], 7⟩, ⟨7, 11⟩) ∧
    ((⟨1, [[1, 0], [1, 0], [-1, -1]], 7⟩ : GameInfo) = ⟨1, [[1, 0], [1, 0], [-1, -1]], 7⟩ ∧
    (⟨1, [[1, 0], [1, 0], [-1, -1]], 7⟩ : GameInfo).num_tubes
      = (⟨1, [[1, 0], [1, 0], [-1, -1]], 7⟩ : GameInfo).num_tubes ∧
    (∀ i j : Nat,
      ((⟨1, [[1, 0], [1, 0], [-1, -1]], 7⟩ : GameInfo).tubes.getD i []).getD j EMPTY_COLOR_INDEX
        = ((⟨1, [[1, 0], [1, 0], [-1, -1]], 7⟩ : GameInfo).tubes.getD i []).getD j
            EMPTY_COLOR_INDEX) ∧
    (⟨7, 11⟩ : RandState) = ⟨7, 11⟩) :=
  ⟨by decide, by decide,
    GameInfo_create_from_seed_srand_deterministic (fun s i => s + i * i + i / 3) 11 14
      ⟨1, 0⟩ ⟨99, 5⟩ 2 1 2 7 ⟨1, [[1, 0], [1, 0], [-1, -1]], 7⟩
      ⟨1, [[1, 0], [1, 0], [-1, -1]], 7⟩ ⟨7, 11⟩ ⟨7, 11⟩ (by decide) (by decide)⟩

/-- What the call of `srand` is for: the loop of `GameInfo_create_from_seed`
run on the values of `rand()` from two different states of the generator (as
it would be without `srand(info->seed)`) builds different boards, and so do
two calls with different seeds. -/
theorem GameInfo_create_from_seed_depends_on_generator :
    GameInfo_create_from_seed 2 1 2 7 (rand_draws (fun s i => s + i * i + i / 3) 14 ⟨7, 0⟩)
      = some ⟨1, [[1, 0], [1, 0], [-1, -1]], 7⟩ ∧
    GameInfo_create_from_seed 2 1 2 7 (rand_draws (fun s i => s + i * i + i / 3) 20 ⟨7, 1⟩)
      = some ⟨1, [[1, 0], [0, 1], [-1, -1]], 7⟩ ∧
    GameInfo_create_from_seed_srand (fun s i => s + i * i + i / 3) 14 ⟨1, 0⟩ 2 1 2 8
      = some (⟨1, [[0, 1], [0, 1], [-1, -1]], 8⟩, ⟨8, 11⟩) := by
  decide

end Tubes
